import Mathlib

/-!
Asynchronous MySQL scheduler of `gsc_custom_mysql.cpp`

A shallow embedding of the asynchronous query scheduler: the task list
(`first_async_task`), the connection list (`first_async_connection`), the
background handler (`mysqla_query_handler`), the per-query thread
(`mysqla_execute_query`), the per-frame collector
(`mysql_handle_result_callbacks`), the task creation
(`mysqla_query_initializer`) and the disconnect hook
(`gsc_mysqla_ondisconnect`).

The file also embeds `gsc_mysqls_fetch_field`, the hexadecimal conversions of
`gsc_custom_utils.cpp`, the save stack of `gsc_saveposition.cpp` and the
settings table of `gsc_settings.cpp`.

Conventions of the embedding:

* a C string is the list of its bytes, each written as a `Char`;
* a C `int` is an `Int`, and `toInt32` is applied where the code can overflow;
* the doubly linked lists are Lean lists in link order (`prev`/`next` are the
  neighbours in the list); a pointer to a task record is the address `addr`
  of the record, which `new` chooses among the addresses of no live record;
* every function that the code runs under `mysqla_lock` is one atomic step;
* a call that ends the process (a library call on a NULL handle) is `none`;
* an `assert` of `gsc_settings.cpp` is no statement: the file only compiles
  with `assert` compiled out;
* calls into the scripting engine are recorded, in order, as `HostCall`s;
* a C `float` is its bit pattern; `strtol`, `strtod` and the float operations
  are parameters (`LibC`), and `strtoul` in base 16 follows the C standard;
* a per-client array is a function of the client number;
* diagnostic `printf` output is not modelled.
-/

namespace OSJH

/-! ## Machine integers and strings -/

/-- The value of a C `int` holding the low 32 bits of `z` (two's complement). -/
def toInt32 (z : Int) : Int := (z + 2147483648) % 4294967296 - 2147483648

/-- A C string: the bytes before the terminating NUL. -/
abbrev CString := List Char

/-- The text `printf` writes for `%d`. -/
def fmtInt (i : Int) : CString := (toString i).toList

/-! ## Data model -/

/-- A stored MySQL result set (`MYSQL_RES`): `mysql_num_fields` and the rows
that successive `mysql_fetch_row` calls return (`none` is a NULL field). -/
structure MYSQL_RES where
  num_fields : Nat
  rows : List (List (Option CString))
deriving DecidableEq, Repr

/-- The record `mysqla_task_t`. `addr` is the address of the record; `prev`
and `next` are given by the position in the task list. `entity` is the entity
number `num` of `&g_entities[num]`, or `none` for NULL. -/
structure mysqla_task where
  addr : Nat
  taskId : Int
  result : Option MYSQL_RES
  entity : Option Int
  entityDisconnected : Bool
  done : Bool
  started : Bool
  save : Bool
  query : CString
deriving DecidableEq, Repr

/-- The record `mysqla_connection_t`: `task` is the address of the bound task
(or NULL), `connection` the `MYSQL *` handle (NULL is what a failed connect
returns). -/
structure mysqla_connection where
  task : Option Nat
  connection : Option Nat
deriving DecidableEq, Repr

/-- A call into the scripting engine, as the code writes it. -/
inductive HostCall where
  | stackPushArray
  | stackPushArrayLast
  | stackPushString (s : CString)
  | stackPushUndefined
  | stackPushInt (i : Int)
  | Scr_ExecEntThread (entity : Int) (callback : Int) (numArgs : Nat)
  | Scr_ExecThread (callback : Int) (numArgs : Nat)
  | Scr_FreeThread
  | stackError (msg : String)
deriving DecidableEq, Repr

/-- What the database does with one query: `mysql_query` fails with
`mysql_errno`/`mysql_error`, or succeeds and `mysql_store_result` returns a
result set or NULL. -/
inductive QueryOutcome where
  | failed (error : Int) (strError : CString)
  | succeeded (stored : Option MYSQL_RES)
deriving DecidableEq, Repr

/-- The globals of `gsc_custom_mysql.cpp` together with the parts of the
outside world the scheduler acts on. -/
structure State where
  /-- The connection list, head first. -/
  first_async_connection : List mysqla_connection
  /-- The task list, head first. -/
  first_async_task : List mysqla_task
  mysql_result_callback : Int
  /-- The static counter of `mysqla_query_initializer`. -/
  queryId : Int
  /-- The static flag of `mysqla_query_handler`: the handler loop is running. -/
  started : Bool
  /-- The live `mysqla_execute_query` threads, each named by the position of
  the connection it was given. -/
  workers : List Nat
  /-- The calls made into the scripting engine by the collector, oldest first. -/
  host : List HostCall
  /-- The content of the error log file. -/
  errorLog : CString
  /-- The `mysql_query` calls made so far: connection handle and query text. -/
  queries : List (Option Nat × CString)
deriving DecidableEq, Repr

/-- The state at process start: all globals are zero. -/
def State.start : State :=
  { first_async_connection := [], first_async_task := [], mysql_result_callback := 0,
    queryId := 0, started := false, workers := [], host := [], errorLog := [],
    queries := [] }

/-! ## `mysqla_query_initializer` and the two GSC entry points -/

/-- The bytes `snprintf(buf, size, "%s", sql)` stores before the NUL. -/
def snprintf_s (size : Nat) (sql : CString) : CString := sql.take (size - 1)

/-- The walk to the tail of the task list followed by the link of the new
record: `first_async_task = new` on an empty list, `prev->next = new` otherwise. -/
def linkAtTail (ptr_taskNew : mysqla_task) : List mysqla_task → List mysqla_task
  | [] => [ptr_taskNew]
  | t :: rest => t :: linkAtTail ptr_taskNew rest

/-- The function `mysqla_query_initializer`; `addr` is the address `new`
returns. The result is the new state and the returned id. -/
def mysqla_query_initializer (s : State) (addr : Nat) (sql : CString)
    (entity : Option Int) (save : Bool) : State × Int :=
  let queryId := toInt32 (s.queryId + 1)
  let ptr_taskNew : mysqla_task :=
    { addr := addr, taskId := queryId, query := snprintf_s (1024 + 1) sql,
      result := none, save := save, done := false, entity := entity,
      entityDisconnected := false, started := false }
  ({ s with queryId := queryId,
            first_async_task := linkAtTail ptr_taskNew s.first_async_task }, queryId)

/-- The function `gsc_mysqla_create_entity_query`: `&g_entities[num]` is never
NULL, so the task is always created; the id is what is pushed for GSC. -/
def gsc_mysqla_create_entity_query (s : State) (addr : Nat) (num : Int)
    (query : CString) (saveResult : Int) : State × Int :=
  mysqla_query_initializer s addr query (some num) (decide (saveResult > 0))

/-- The function `gsc_mysqla_create_level_query`. -/
def gsc_mysqla_create_level_query (s : State) (addr : Nat)
    (query : CString) (saveResult : Int) : State × Int :=
  mysqla_query_initializer s addr query none (decide (saveResult > 0))

/-! ## `gsc_mysqla_ondisconnect` -/

/-- The function `gsc_mysqla_ondisconnect`. -/
def gsc_mysqla_ondisconnect (s : State) (num : Int) : State :=
  { s with first_async_task := s.first_async_task.map fun t =>
      if t.entity = some num then { t with entityDisconnected := true } else t }

/-! ## `mysql_handle_result_callbacks` -/

/-- The inner loop of `pushResultRows` over the fields `j, j+1, ...` of a row,
with `n` iterations left. -/
def pushResultFields (row : List (Option CString)) : Nat → Nat → List HostCall
  | 0, _ => []
  | n + 1, j =>
    (match row.get? j with
      | some (some s) => HostCall.stackPushString s
      | _ => HostCall.stackPushUndefined)
      :: HostCall.stackPushArrayLast :: pushResultFields row n (j + 1)

/-- The outer loop of `pushResultRows` over the fetched rows. -/
def pushResultRowsLoop (num_fields : Int) : List (List (Option CString)) → List HostCall
  | [] => []
  | row :: rows =>
    HostCall.stackPushArray :: (pushResultFields row num_fields.toNat 0
      ++ HostCall.stackPushArrayLast :: pushResultRowsLoop num_fields rows)

/-- The function `pushResultRows`: `num_rows` and `num_fields` are C `int`s,
and the `i`-th `mysql_fetch_row` returns the `i`-th row. -/
def pushResultRows (result : MYSQL_RES) : List HostCall :=
  let num_rows := toInt32 result.rows.length
  HostCall.stackPushArray ::
    pushResultRowsLoop (toInt32 result.num_fields) (result.rows.take num_rows.toNat)

/-- What the collector does with one done task before unlinking it. -/
def handleDoneTask (callback : Int) (t : mysqla_task) : List HostCall :=
  (match t.result with
    | some result => pushResultRows result
    | none => [HostCall.stackPushUndefined])
  ++ HostCall.stackPushInt t.taskId ::
  (match t.entity with
    | some entity =>
      if t.entityDisconnected = false then
        [HostCall.Scr_ExecEntThread entity callback 2, HostCall.Scr_FreeThread]
      else []
    | none => [HostCall.Scr_ExecThread callback 2, HostCall.Scr_FreeThread])

/-- The loop of `mysql_handle_result_callbacks` over the task list: the tasks
left in the list and the calls made. -/
def collectLoop (callback : Int) : List mysqla_task → List mysqla_task × List HostCall
  | [] => ([], [])
  | t :: rest =>
    if t.done then
      ((collectLoop callback rest).1, handleDoneTask callback t ++ (collectLoop callback rest).2)
    else
      (t :: (collectLoop callback rest).1, (collectLoop callback rest).2)

/-- The function `mysql_handle_result_callbacks`. -/
def mysql_handle_result_callbacks (s : State) : State :=
  if s.mysql_result_callback = 0 then s
  else
    { s with
      first_async_task := (collectLoop s.mysql_result_callback s.first_async_task).1,
      host := s.host ++ (collectLoop s.mysql_result_callback s.first_async_task).2 }

/-! ## `log_mysql_error` and `mysqla_execute_query` -/

/-- The text written by
`fprintf(mysqlFile, "Query \"%s\" caused error %d (%s)\n", query, error, strError)`. -/
def logEntry (query : CString) (error : Int) (strError : CString) : CString :=
  "Query \"".toList ++ query ++ "\" caused error ".toList ++ fmtInt error
    ++ " (".toList ++ strError ++ ")\n".toList

/-- The function `log_mysql_error` on the content of the log file; `fopenOk`
tells whether `fopen(filePathBuf, "a")` returned a file. -/
def log_mysql_error (file : CString) (fopenOk : Bool) (query : CString) (error : Int)
    (strError : CString) : CString :=
  if fopenOk then file ++ logEntry query error strError else file

/-- The write `ptr->field = ...` through a task pointer: the record at address
`p` is replaced by `f` of it. -/
def updateTask (p : Nat) (f : mysqla_task → mysqla_task) (q : List mysqla_task) :
    List mysqla_task :=
  q.map fun t => if t.addr = p then f t else t

/-- The record a task pointer refers to. -/
def derefTask (p : Nat) (q : List mysqla_task) : Option mysqla_task :=
  q.find? fun t => t.addr = p

/-- The function `mysqla_execute_query` for the thread that was given the
connection at position `c`: the query runs with outcome `outcome`, then the
task is marked done and the connection unbound. `none` when `ptr_conn` or
`ptr_conn->task` does not refer to a live record. -/
def mysqla_execute_query (s : State) (c : Nat) (outcome : QueryOutcome) (fopenOk : Bool) :
    Option State :=
  match s.first_async_connection.get? c with
  | none => none
  | some ptr_conn =>
    match ptr_conn.task with
    | none => none
    | some p =>
      match derefTask p s.first_async_task with
      | none => none
      | some task =>
        let afterQuery : List mysqla_task × CString :=
          match outcome with
          | QueryOutcome.succeeded stored =>
            if task.save then
              (updateTask p (fun t => { t with result := stored }) s.first_async_task,
                s.errorLog)
            else (s.first_async_task, s.errorLog)
          | QueryOutcome.failed error strError =>
            (s.first_async_task,
              log_mysql_error s.errorLog fopenOk task.query error strError)
        some { s with
          first_async_task := updateTask p (fun t => { t with done := true }) afterQuery.1,
          first_async_connection :=
            s.first_async_connection.set c { ptr_conn with task := none },
          errorLog := afterQuery.2,
          queries := s.queries ++ [(ptr_conn.connection, task.query)],
          workers := s.workers.erase c }

/-! ## `mysqla_query_handler` -/

/-- The inner loop `while(ptr_conn != NULL && ptr_conn->task != NULL)`: the
connections stepped over and the rest of the list from the cursor on. -/
def skipBusy : List mysqla_connection → List mysqla_connection × List mysqla_connection
  | [] => ([], [])
  | c :: cs =>
    if c.task.isSome then (c :: (skipBusy cs).1, (skipBusy cs).2) else ([], c :: cs)

/-- The task loop of one cycle of `mysqla_query_handler`, from the task
cursor `ptr_task` (the list of tasks from it on) and the connection cursor
`ptr_conn` (the list of connections from it on, the first of them at position
`base`). `pthread_create i` is the error code of creating the thread for the
connection at position `i`. The result is the tasks and connections from the
cursors on after the loop, and the positions given to new threads. -/
def handlerLoop (pthread_create : Nat → Int) :
    List mysqla_task → Nat → List mysqla_connection →
      List mysqla_task × List mysqla_connection × List Nat
  | [], _, conns => ([], conns, [])
  | t :: ts, base, conns =>
    if t.started then
      (t :: (handlerLoop pthread_create ts base conns).1,
        (handlerLoop pthread_create ts base conns).2.1,
        (handlerLoop pthread_create ts base conns).2.2)
    else
      match skipBusy conns with
      | (_, []) => (t :: ts, conns, [])
      | (busy, c :: rest) =>
        let i := base + busy.length
        let t' := { t with started := true }
        let c' := { c with task := some t.addr }
        if pthread_create i ≠ 0 then (t' :: ts, busy ++ c' :: rest, [])
        else
          (t' :: (handlerLoop pthread_create ts (i + 1) rest).1,
            busy ++ c' :: (handlerLoop pthread_create ts (i + 1) rest).2.1,
            i :: (handlerLoop pthread_create ts (i + 1) rest).2.2)

/-- One cycle of the infinite loop of `mysqla_query_handler` (lock, scan,
unlock). -/
def handlerCycle (s : State) (pthread_create : Nat → Int) : State :=
  { s with
    first_async_task :=
      (handlerLoop pthread_create s.first_async_task 0 s.first_async_connection).1,
    first_async_connection :=
      (handlerLoop pthread_create s.first_async_task 0 s.first_async_connection).2.1,
    workers := s.workers ++
      (handlerLoop pthread_create s.first_async_task 0 s.first_async_connection).2.2 }

/-- The entry of `mysqla_query_handler`, run once by the thread that
`gsc_mysqla_initializer` creates: it refuses to start twice or without a
connection, and otherwise sets its static flag and loops. -/
def mysqla_query_handler (s : State) : State :=
  if s.started then s
  else if s.first_async_connection = [] then s
  else { s with started := true }

/-! ## `gsc_mysqla_initializer` -/

/-- The GSC arguments of `gsc_mysqla_initializer`. -/
structure InitArgs where
  host : CString
  user : CString
  pass : CString
  db : CString
  port : Int
  connection_count : Int
  callback : Int
deriving DecidableEq, Repr

/-- What the environment answers during `gsc_mysqla_initializer`: the results
of the two `pthread_mutex_init` calls, the handle `mysql_real_connect` returns
for the `i`-th new connection (NULL on failure) and the result of the
`pthread_create` of the handler thread. -/
structure InitEnv where
  lockInit : Int
  fileLockInit : Int
  mysql_real_connect : Nat → Option Nat
  handlerCreate : Int

/-- The loop `for(i = 0; i < connection_count; i++)` with `n` iterations left.
Each round stores the result of `mysql_real_connect` in the new record and
passes it to `mysql_options` without testing it: on the NULL of a failed
connect the client library dereferences the handle and the process dies, which
is `none`. Otherwise the new connection, not bound, is put at the head of the
list. -/
def initConnections (env : InitEnv) : Nat → Nat → List mysqla_connection →
    Option (List mysqla_connection)
  | 0, _, pool => some pool
  | n + 1, i, pool =>
    match env.mysql_real_connect i with
    | none => none
    | some handle =>
      initConnections env n (i + 1) ({ task := none, connection := some handle } :: pool)

/-- The function `gsc_mysqla_initializer`: the new state and the calls made
to report to GSC, or `none` when the connection loop kills the process. -/
def gsc_mysqla_initializer (s : State) (args : InitArgs) (env : InitEnv) :
    Option (State × List HostCall) :=
  if s.first_async_connection ≠ [] then some (s, [HostCall.stackPushUndefined])
  else if env.lockInit ≠ 0 then some (s, [HostCall.stackPushUndefined])
  else if env.fileLockInit ≠ 0 then some (s, [HostCall.stackPushUndefined])
  else if args.callback = -1 then
    some (s, [HostCall.stackError "ERROR: gsc_mysqla_initializer() needs a callback",
         HostCall.stackPushUndefined])
  else
    let s1 := { s with mysql_result_callback := args.callback }
    if args.connection_count ≤ 0 then
      some (s1, [HostCall.stackError
          "ERROR: gsc_mysqla_initializer() needs a positive connection_count in mysqla_initializer",
        HostCall.stackPushUndefined])
    else
      match initConnections env args.connection_count.toNat 0 s1.first_async_connection with
      | none => none
      | some pool =>
        let s2 := { s1 with first_async_connection := pool }
        if env.handlerCreate ≠ 0 then
          some (s2, [HostCall.stackError
            "ERROR: gsc_mysqla_initializer() error detaching async handler thread"])
        else some (mysqla_query_handler s2, [])

/-! ## The scheduler as a transition system -/

/-- The atomic steps of the scheduler, each with what the environment
contributes to it. -/
inductive Action where
  | initializer (args : InitArgs) (env : InitEnv)
  | create_level_query (addr : Nat) (query : CString) (saveResult : Int)
  | create_entity_query (addr : Nat) (num : Int) (query : CString) (saveResult : Int)
  | handler_cycle (pthread_create : Nat → Int)
  | execute_query (c : Nat) (outcome : QueryOutcome) (fopenOk : Bool)
  | handle_result_callbacks
  | ondisconnect (num : Int)

/-- The addresses of the live task records. -/
def liveAddrs (s : State) : List Nat := s.first_async_task.map (·.addr)

/-- One step. `none` when the step cannot happen in `s` or ends the process:
`new` never returns the address of a live record, the handler cycles only once
started, a query thread finishes only if it exists, and an initialisation in
which a connect fails does not return. -/
def step (s : State) : Action → Option State
  | Action.initializer args env => (gsc_mysqla_initializer s args env).map (·.1)
  | Action.create_level_query addr query saveResult =>
    if addr ∈ liveAddrs s then none
    else some (gsc_mysqla_create_level_query s addr query saveResult).1
  | Action.create_entity_query addr num query saveResult =>
    if addr ∈ liveAddrs s then none
    else some (gsc_mysqla_create_entity_query s addr num query saveResult).1
  | Action.handler_cycle pthread_create =>
    if s.started then some (handlerCycle s pthread_create) else none
  | Action.execute_query c outcome fopenOk =>
    if c ∈ s.workers then mysqla_execute_query s c outcome fopenOk else none
  | Action.handle_result_callbacks => some (mysql_handle_result_callbacks s)
  | Action.ondisconnect num => some (gsc_mysqla_ondisconnect s num)

/-- A sequence of steps, oldest first. -/
def run (s : State) : List Action → Option State
  | [] => some s
  | a :: rest =>
    match step s a with
    | none => none
    | some s' => run s' rest

/-- The states the scheduler can be in: those a sequence of steps reaches
from process start. -/
def Reachable (s : State) : Prop := ∃ acts, run State.start acts = some s

/-! ## The scripting engine seen from the collector -/

/-- A value of the scripting engine: the no-value sentinel, an integer, a
string or an ordered sequence of values. -/
inductive ScrValue where
  | undefined
  | int (i : Int)
  | string (s : CString)
  | array (items : List ScrValue)
deriving Repr

/-- One invocation of a callback: on an entity (`some num`) or in global scope
(`none`), with the function handle and the positional arguments in the order
they were pushed. -/
structure Invocation where
  target : Option Int
  callback : Int
  args : List ScrValue
deriving Repr

/-- The argument stack of the engine (top first) and the invocations made so
far (oldest first). -/
structure Host where
  stack : List ScrValue
  invoked : List Invocation
deriving Repr

/-- Modelled from the spec: the engine functions behind `stackPush*`,
`Scr_ExecThread`, `Scr_ExecEntThread` and `Scr_FreeThread` are not part of the
repository. A push puts one value on the argument stack, `stackPushArray`
pushes an empty sequence, `stackPushArrayLast` moves the top value to the end
of the sequence below it, and an `Exec` call invokes the callback with the
`numArgs` most recently pushed values, which it takes off the stack. -/
def Host.call (h : Host) : HostCall → Host
  | HostCall.stackPushArray => { h with stack := ScrValue.array [] :: h.stack }
  | HostCall.stackPushArrayLast =>
    match h.stack with
    | v :: ScrValue.array items :: below =>
      { h with stack := ScrValue.array (items ++ [v]) :: below }
    | _ => h
  | HostCall.stackPushString s => { h with stack := ScrValue.string s :: h.stack }
  | HostCall.stackPushUndefined => { h with stack := ScrValue.undefined :: h.stack }
  | HostCall.stackPushInt i => { h with stack := ScrValue.int i :: h.stack }
  | HostCall.Scr_ExecEntThread entity callback numArgs =>
    { stack := h.stack.drop numArgs,
      invoked := h.invoked ++ [{ target := some entity, callback := callback,
                                 args := (h.stack.take numArgs).reverse }] }
  | HostCall.Scr_ExecThread callback numArgs =>
    { stack := h.stack.drop numArgs,
      invoked := h.invoked ++ [{ target := none, callback := callback,
                                 args := (h.stack.take numArgs).reverse }] }
  | HostCall.Scr_FreeThread => h
  | HostCall.stackError _ => h

/-- The engine after a sequence of calls. -/
def Host.run (h : Host) (calls : List HostCall) : Host := calls.foldl Host.call h

/-- The value that the fields `j, j+1, ...` of a row add to a sequence, `n`
fields being left. -/
def fieldValues (row : List (Option CString)) : Nat → Nat → List ScrValue
  | 0, _ => []
  | n + 1, j =>
    (match row.get? j with
      | some (some s) => ScrValue.string s
      | _ => ScrValue.undefined) :: fieldValues row n (j + 1)

/-- The value `pushResultRows` leaves on the stack for a result set. -/
def rowsValue (result : MYSQL_RES) : ScrValue :=
  ScrValue.array
    ((result.rows.take (toInt32 result.rows.length).toNat).map fun row =>
      ScrValue.array (fieldValues row (toInt32 result.num_fields).toNat 0))

/-- The first value the collector pushes for a done task: the rows of its
result set, or the no-value sentinel. -/
def resultValue (t : mysqla_task) : ScrValue :=
  match t.result with
  | some result => rowsValue result
  | none => ScrValue.undefined


/-! ## Notions used to state the properties -/

/-- The invocation the collector makes for a done task, if any. -/
def invocationOf (callback : Int) (t : mysqla_task) : Option Invocation :=
  match t.entity with
  | none =>
    some { target := none, callback := callback,
           args := [resultValue t, ScrValue.int t.taskId] }
  | some entity =>
    if t.entityDisconnected then none
    else some { target := some entity, callback := callback,
                args := [resultValue t, ScrValue.int t.taskId] }

/-- The number of tasks not yet started. -/
def pendingCount (q : List mysqla_task) : Nat := (q.filter fun t => !t.started).length

/-- The number of connections with no bound task. -/
def idleCount (pool : List mysqla_connection) : Nat :=
  (pool.filter fun c => c.task.isNone).length

/-- The task list in which the first `n` not-yet-started tasks, in list
order, are marked started and nothing else is changed. -/
def startFirst : Nat → List mysqla_task → List mysqla_task
  | 0, q => q
  | _ + 1, [] => []
  | n + 1, t :: q =>
    if t.started then t :: startFirst (n + 1) q
    else { t with started := true } :: startFirst n q

/-- The addresses the connections of a list are bound to, in list order. -/
def boundAddrs (pool : List mysqla_connection) : List Nat := pool.filterMap (·.task)

/-- A task is running: started and not done. -/
def isRunning (t : mysqla_task) : Bool := t.started && !t.done

/-- The addresses of the running tasks of a list, in list order. -/
def runningAddrs (q : List mysqla_task) : List Nat := (q.filter isRunning).map (·.addr)

/-- What a handler cycle may do to a task: nothing, or start it. -/
def TaskStep (t t' : mysqla_task) : Prop :=
  t' = t ∨ (t.started = false ∧ t' = { t with started := true })

/-- What a handler cycle may do to a connection: nothing, or bind it. -/
def ConnStep (c c' : mysqla_connection) : Prop :=
  c' = c ∨ (c.task = none ∧ ∃ a, c' = { c with task := some a })

/-- The invariant of the scheduler. -/
structure Inv (s : State) : Prop where
  addrs_nodup : (liveAddrs s).Nodup
  matching : (boundAddrs s.first_async_connection).Perm (runningAddrs s.first_async_task)
  forward : ∀ t ∈ s.first_async_task, t.done = true → t.started = true
  workers_nodup : s.workers.Nodup
  workers_bound : ∀ c ∈ s.workers, ∃ conn, s.first_async_connection.get? c = some conn
    ∧ conn.task.isSome = true
  unsaved : ∀ t ∈ s.first_async_task, t.save = false → t.result = none

/-- The result field a finished query leaves in its task. -/
def resultAfter (outcome : QueryOutcome) (save : Bool) (t : mysqla_task) : Option MYSQL_RES :=
  match outcome with
  | QueryOutcome.succeeded stored => if save then stored else t.result
  | QueryOutcome.failed _ _ => t.result

/-- The content of the error log after a finished query. -/
def logAfter (outcome : QueryOutcome) (fopenOk : Bool) (query : CString) (file : CString) :
    CString :=
  match outcome with
  | QueryOutcome.succeeded _ => file
  | QueryOutcome.failed error strError => log_mysql_error file fopenOk query error strError

/-- An environment in which every call of `gsc_mysqla_initializer` succeeds and
the `i`-th connection gets the handle `i + 1`. -/
def okEnv : InitEnv :=
  { lockInit := 0, fileLockInit := 0, mysql_real_connect := fun i => some (i + 1),
    handlerCreate := 0 }

/-- Arguments for a pool of `n` connections with the callback handle `7`. -/
def poolArgs (n : Int) : InitArgs :=
  { host := "localhost".toList, user := "u".toList, pass := "p".toList, db := "d".toList,
    port := 3306, connection_count := n, callback := 7 }

/-- A run: a pool of two connections, a level query and an entity query, one
handler cycle in which both threads are created. -/
def demoActs : List Action :=
  [Action.initializer (poolArgs 2) okEnv,
   Action.create_level_query 100 "SELECT 1".toList 1,
   Action.create_entity_query 101 3 "UPDATE t SET x = 1".toList 0,
   Action.handler_cycle fun _ => 0]

/-- The state the run `demoActs` ends in. -/
def demoState : State := (run State.start demoActs).getD State.start

/-- The ids of the started tasks of a state, in queue order. -/
def startedIds (s : State) : List Int :=
  (s.first_async_task.filter fun t => t.started).map (·.taskId)

/-- The scenario of a pool of one connection and three queries with the ids
1, 2 and 3, before the first handler cycle. -/
def scenarioActs : List Action :=
  [Action.initializer (poolArgs 1) okEnv,
   Action.create_level_query 100 "SELECT 1".toList 0,
   Action.create_level_query 101 "SELECT 1".toList 0,
   Action.create_level_query 102 "SELECT 1".toList 0]

/-- One handler cycle in which thread creation succeeds, followed by the end
of the query on connection 0. -/
def scenarioRound : List Action :=
  [Action.handler_cycle fun _ => 0,
   Action.execute_query 0 (QueryOutcome.succeeded none) true]

/-- The state of the scenario before the first handler cycle. -/
def scenarioState : State := (run State.start scenarioActs).getD State.start

/-- A task record with the given address, id, target, flags and result, the
query text being `SELECT 1`. -/
def mkTask (addr : Nat) (taskId : Int) (entity : Option Int) (entityDisconnected done : Bool)
    (result : Option MYSQL_RES) : mysqla_task :=
  { addr := addr, taskId := taskId, result := result, entity := entity,
    entityDisconnected := entityDisconnected, done := done, started := true, save := true,
    query := "SELECT 1".toList }

/-- A state with the callback handle `7` and five tasks: done without target
(its disconnected flag set), running, done on entity 3, done on the
disconnected entity 4, done without target with a captured result. -/
def collectDemo : State :=
  { State.start with
    mysql_result_callback := 7,
    first_async_task :=
      [mkTask 100 1 none true true none,
       mkTask 101 2 none false false none,
       mkTask 102 3 (some 3) false true none,
       mkTask 103 4 (some 4) true true none,
       mkTask 104 5 none false true
         (some { num_fields := 2, rows := [[some "a".toList, none], [some [], some "b".toList]] })] }

/-- An action that creates a task. -/
def isCreate : Action → Bool
  | Action.create_level_query _ _ _ => true
  | Action.create_entity_query _ _ _ _ => true
  | _ => false

/-- The number of task creations in a sequence of steps. -/
def countCreates (acts : List Action) : Nat := (acts.filter isCreate).length

/-- The ids given to the first `n` created tasks, oldest first. -/
def issuedIds (n : Nat) : List Int := (List.range n).map fun (j : Nat) => toInt32 ((j : Int) + 1)

/-- The integer a call pushes, if it is a `stackPushInt`. -/
def pushedInt : HostCall → Option Int
  | HostCall.stackPushInt i => some i
  | _ => none

/-- The integers pushed by a sequence of calls: the collector pushes one, the
task id, for each task it removes. -/
def pushedIds (calls : List HostCall) : List Int := calls.filterMap pushedInt

/-- The id counter and the ids in use after `n` task creations: the ids of the
removed tasks together with those of the queued tasks are the issued ids. -/
structure IdInv (n : Nat) (s : State) : Prop where
  counter : s.queryId = toInt32 n
  ids : (pushedIds s.host ++ s.first_async_task.map (·.taskId)).Perm (issuedIds n)

/-- A result set of one row with the fields `1` and NULL. -/
def someRows : MYSQL_RES := { num_fields := 2, rows := [[some "1".toList, none]] }

/-- A run in which a query created with `saveResult = 0` on entity 3 is
executed and the database returns a result set with a row. -/
def uncapturedActs : List Action :=
  [Action.initializer (poolArgs 1) okEnv,
   Action.create_entity_query 101 3 "SELECT 1, NULL".toList 0,
   Action.handler_cycle fun _ => 0,
   Action.execute_query 0 (QueryOutcome.succeeded (some someRows)) true]

/-- The state the run `uncapturedActs` ends in. -/
def uncapturedState : State := (run State.start uncapturedActs).getD State.start

/-- The task of the run `uncapturedActs` once its query has finished. -/
def uncapturedTask : mysqla_task :=
  { addr := 101, taskId := 1, result := none, entity := some 3, entityDisconnected := false,
    done := true, started := true, save := false, query := "SELECT 1, NULL".toList }

/-- A task that is not done has no result yet. -/
def Fresh (s : State) : Prop :=
  ∀ t ∈ s.first_async_task, t.done = false → t.result = none

/-- A run that ends with the level query `SELEC 1` bound to the only
connection and its thread running. -/
def failActs : List Action :=
  [Action.initializer (poolArgs 1) okEnv,
   Action.create_level_query 101 "SELEC 1".toList 1,
   Action.handler_cycle fun _ => 0]

/-- The state the run `failActs` ends in. -/
def failState : State := (run State.start failActs).getD State.start

/-- The outcome of a query with a syntax error. -/
def syntaxError : QueryOutcome := QueryOutcome.failed 1064 "syntax error".toList

/-- The tasks of `s` whose records are no longer in the queue of `s'`. -/
def removedBy (s s' : State) : List mysqla_task :=
  s.first_async_task.filter fun t => decide (t.addr ∉ liveAddrs s')

/-- The task id an invocation carries as its second argument. -/
def invocationId (inv : Invocation) : Option Int :=
  match inv.args with
  | [_, ScrValue.int i] => some i
  | _ => none

/-- The invocations the engine makes for a sequence of calls, whatever it did
before: `I` is what is added to the invocations, each carries a task id, and
the ids are among the pushed ones, in order. -/
def Delivered (calls : List HostCall) (I : List Invocation) : Prop :=
  (∀ engine : Host, (engine.run calls).invoked = engine.invoked ++ I)
  ∧ (∀ inv ∈ I, ∃ v i, inv.args = [v, ScrValue.int i])
  ∧ (I.filterMap invocationId).Sublist (pushedIds calls)

/-- The run `uncapturedActs` followed by a collector pass, which delivers and
removes the finished task. -/
def deliveredActs : List Action := uncapturedActs ++ [Action.handle_result_callbacks]

/-- The state the run `deliveredActs` ends in. -/
def deliveredState : State := (run State.start deliveredActs).getD State.start

/-- The line `log_mysql_error` writes, without the newline that ends it. -/
def logLine (query : CString) (error : Int) (strError : CString) : CString :=
  "Query \"".toList ++ query ++ "\" caused error ".toList ++ (toString error).toList
    ++ " (".toList ++ strError ++ ")".toList

/-- The setting of the disconnected flag by a notification for entity `e`. -/
def markDisconnected (e : Int) (t : mysqla_task) : mysqla_task :=
  { t with entityDisconnected := t.entityDisconnected || decide (t.entity = some e) }

/-- The call of `gsc_mysqla_initializer` is rejected: it returns and pushes
undefined for GSC, which it does exactly on the paths that return before the
connection loop. -/
def initRejected (s : State) (args : InitArgs) (env : InitEnv) : Bool :=
  match gsc_mysqla_initializer s args env with
  | none => false
  | some r => decide (HostCall.stackPushUndefined ∈ r.2)

/-- An environment in which the lock initialisation fails. -/
def lockFailEnv : InitEnv := { okEnv with lockInit := 1 }

/-- An environment in which the second `mysql_real_connect` fails. -/
def connectFailEnv : InitEnv :=
  { okEnv with mysql_real_connect := fun i => if i = 1 then none else some (i + 1) }

/-- The value of one field of a row: a NULL field is the no-value sentinel,
any other field, the empty string included, is that string. -/
def fieldValue : Option CString → ScrValue
  | some s => ScrValue.string s
  | none => ScrValue.undefined

/-- The value a captured result stands for: the rows in result order, each the
values of its fields in field order; no result is the no-value sentinel. -/
def deliveredValue : Option MYSQL_RES → ScrValue
  | some result =>
    ScrValue.array (result.rows.map fun row => ScrValue.array (row.map fieldValue))
  | none => ScrValue.undefined

/-- A result set as the client library hands it out: every row has
`num_fields` fields, and the row and field counts fit the C `int`s of
`pushResultRows`. -/
def WellFormed (result : MYSQL_RES) : Prop :=
  result.rows.length < 2147483648 ∧ result.num_fields < 2147483648
    ∧ ∀ row ∈ result.rows, row.length = result.num_fields

/-- A done level task with a captured result of two rows of two fields, among
them a NULL field and an empty string. -/
def rowsTask : mysqla_task :=
  mkTask 104 5 none false true
    (some { num_fields := 2, rows := [[some "a".toList, none], [some [], some "b".toList]] })

/-- Every bound connection has a live query thread: no `pthread_create` for a
query thread has failed on a pair that is still bound. -/
def NoLostWorker (s : State) : Prop :=
  ∀ (c : Nat) (conn : mysqla_connection),
    s.first_async_connection.get? c = some conn → conn.task.isSome = true → c ∈ s.workers

/-- An environment in which the handler thread cannot be created. -/
def handlerFailEnv : InitEnv := { okEnv with handlerCreate := 11 }

/-- A run in which the pool is created, the handler thread is not, and a query
is enqueued. -/
def undispatchedActs : List Action :=
  [Action.initializer (poolArgs 1) handlerFailEnv,
   Action.create_level_query 100 "SELECT 1".toList 0]

/-- The state the run `undispatchedActs` ends in. -/
def undispatchedState : State := (run State.start undispatchedActs).getD State.start

/-- The handler loop is not running although the pool exists, no query thread
is alive, no task is done and the record at address `a` is queued. -/
def Undispatched (a : Nat) (s : State) : Prop :=
  s.started = false ∧ s.first_async_connection ≠ [] ∧ s.workers = [] ∧ a ∈ liveAddrs s
    ∧ ∀ t ∈ s.first_async_task, t.done = false

/-- A done task on entity 4 whose disconnected flag is set, with no result. -/
def suppressedTask : mysqla_task := mkTask 103 4 (some 4) true true none

/-- A run in which the thread for the first task cannot be created: a pool of
two connections, two level queries, one handler cycle in which `pthread_create`
returns `EAGAIN`. -/
def spawnFailActs : List Action :=
  [Action.initializer (poolArgs 2) okEnv,
   Action.create_level_query 100 "SELECT 1".toList 0,
   Action.create_level_query 101 "SELECT 2".toList 0,
   Action.handler_cycle fun _ => 11]

/-- The state the run `spawnFailActs` ends in. -/
def spawnFailState : State := (run State.start spawnFailActs).getD State.start

/-- Arguments for a pool of one connection with the callback handle `0`. -/
def zeroCallbackArgs : InitArgs := { poolArgs 1 with callback := 0 }

/-- A run after an initialisation with the callback handle `0`: a level query
is created, dispatched and finished. -/
def zeroCallbackActs : List Action :=
  [Action.initializer zeroCallbackArgs okEnv,
   Action.create_level_query 100 "SELECT 1".toList 0,
   Action.handler_cycle fun _ => 0,
   Action.execute_query 0 (QueryOutcome.succeeded none) true]

/-- The state the run `zeroCallbackActs` ends in. -/
def zeroCallbackState : State := (run State.start zeroCallbackActs).getD State.start

/-- The spec's `findIdle`: a linear scan from the head of the pool for a
connection with no bound task; the position of the first one, if there is one. -/
def findIdle : List mysqla_connection → Option Nat
  | [] => none
  | c :: cs => if c.task.isSome then (findIdle cs).map (· + 1) else some 0

/-- The pool with the connection at position `i` bound to the task at `a`. -/
def bindAt : List mysqla_connection → Nat → Nat → List mysqla_connection
  | [], _, _ => []
  | c :: cs, 0, a => { c with task := some a } :: cs
  | c :: cs, i + 1, a => c :: bindAt cs i a

/-- The task loop of a handler cycle as the spec words it: every task that is
not started gets its connection from a fresh `findIdle` scan of the whole pool.
The result is the tasks, the pool and the positions given to new threads. -/
def dispatchFresh (pthread_create : Nat → Int) :
    List mysqla_task → List mysqla_connection →
      List mysqla_task × List mysqla_connection × List Nat
  | [], pool => ([], pool, [])
  | t :: ts, pool =>
    if t.started then
      (t :: (dispatchFresh pthread_create ts pool).1,
        (dispatchFresh pthread_create ts pool).2.1,
        (dispatchFresh pthread_create ts pool).2.2)
    else
      match findIdle pool with
      | none => (t :: ts, pool, [])
      | some i =>
        if pthread_create i ≠ 0 then ({ t with started := true } :: ts, bindAt pool i t.addr, [])
        else
          ({ t with started := true }
              :: (dispatchFresh pthread_create ts (bindAt pool i t.addr)).1,
            (dispatchFresh pthread_create ts (bindAt pool i t.addr)).2.1,
            i :: (dispatchFresh pthread_create ts (bindAt pool i t.addr)).2.2)

/-- The pool in which the idle connections, in pool order, are bound to the
given addresses, in their order, as far as both reach. -/
def bindIdle : List Nat → List mysqla_connection → List mysqla_connection
  | [], pool => pool
  | _ :: _, [] => []
  | a :: as, c :: cs =>
    if c.task.isSome then c :: bindIdle (a :: as) cs
    else { c with task := some a } :: bindIdle as cs

/-- The addresses of the tasks that are not started in the first list and
started at the same place of the second, in list order. -/
def newlyStarted : List mysqla_task → List mysqla_task → List Nat
  | t :: ts, u :: us =>
    if !t.started && u.started then t.addr :: newlyStarted ts us else newlyStarted ts us
  | _, _ => []

/-! ## The synchronous functions of `gsc_custom_mysql.cpp` -/

/-- The function `gsc_mysqls_fetch_field`; `field` is what `mysql_fetch_field`
returns, the name of the next field or NULL. The block that pushes undefined
and returns follows the call without a condition, so the two statements after
it are never reached. -/
def gsc_mysqls_fetch_field (_field : Option CString) : List HostCall :=
  [HostCall.stackPushUndefined]

/-! ## `gsc_custom_utils.cpp`: hexadecimal conversion -/

/-- The C library's `isspace` in the C locale. -/
def isspace (c : Char) : Bool := c.toNat = 32 || (9 ≤ c.toNat && c.toNat ≤ 13)

/-- The value of a hexadecimal digit, upper or lower case. -/
def hexDigitValue (c : Char) : Option Nat :=
  if 48 ≤ c.toNat ∧ c.toNat ≤ 57 then some (c.toNat - 48)
  else if 97 ≤ c.toNat ∧ c.toNat ≤ 102 then some (c.toNat - 87)
  else if 65 ≤ c.toNat ∧ c.toNat ≤ 70 then some (c.toNat - 55)
  else none

/-- The digit loop of `strtoul` in base 16: the value of the longest prefix of
hexadecimal digits, on top of `acc`. -/
def hexDigits : List Char → Nat → Nat
  | [], acc => acc
  | c :: cs, acc =>
    match hexDigitValue c with
    | some d => hexDigits cs (acc * 16 + d)
    | none => acc

/-- The text after an optional sign, and whether the sign was `-`. -/
def stripSign : List Char → Bool × List Char
  | c :: r => if c.toNat = 45 then (true, r) else if c.toNat = 43 then (false, r)
    else (false, c :: r)
  | [] => (false, [])

/-- The text after an optional `0x` or `0X` that a hexadecimal digit follows. -/
def stripHexPrefix : List Char → List Char
  | z :: x :: d :: r =>
    if z.toNat = 48 ∧ (x.toNat = 120 ∨ x.toNat = 88) ∧ (hexDigitValue d).isSome then d :: r
    else z :: x :: d :: r
  | s => s

/-- The C library's `strtoul(buf, NULL, 16)` with a 32-bit `unsigned long`:
white space, an optional sign and an optional `0x` are skipped, the digits are
read, a value that does not fit is `ULONG_MAX`, a `-` negates modulo 2^32, and
no digit at all gives 0. -/
def strtoul16 (buf : CString) : Nat :=
  let signed := stripSign (buf.dropWhile isspace)
  let v := hexDigits (stripHexPrefix signed.2) 0
  if 4294967296 ≤ v then 4294967295
  else if signed.1 then (4294967296 - v) % 4294967296 else v

/-- The function `Gsc_Utils_HexStringToInt`; `buf` is the string argument, NULL
if there is none. -/
def Gsc_Utils_HexStringToInt (buf : Option CString) : List HostCall :=
  match buf with
  | none => [HostCall.stackPushUndefined]
  | some b =>
    let result := toInt32 (strtoul16 b)
    if result = 0 ∧ b ≠ [] then [HostCall.stackPushUndefined]
    else [HostCall.stackPushInt result]

/-- The text `printf` writes for `%08x`: the hexadecimal digits of `u` in lower
case, padded with zeros on the left to eight characters. -/
def fmtHex08 (u : Nat) : CString :=
  List.replicate (8 - (Nat.toDigits 16 u).length) '0' ++ Nat.toDigits 16 u

/-- The function `Gsc_Utils_IntToHexString`: `%x` prints the `int` as the
`unsigned int` with the same bits, into a buffer of nine bytes. -/
def Gsc_Utils_IntToHexString (val : Int) : List HostCall :=
  [HostCall.stackPushString (snprintf_s 9 (fmtHex08 (val % 4294967296).toNat))]

/-! ## `gsc_saveposition.cpp` -/

/-- A C `float`, kept as its bit pattern. -/
abbrev CFloat := Nat

/-- The type `vec3_t`: three floats. -/
structure vec3_t where
  x : CFloat
  y : CFloat
  z : CFloat
deriving DecidableEq, Repr

/-- A value a GSC function returns to the script: what `stackPushUndefined`,
`stackPushInt`, `stackPushFloat`, `stackPushString`, `stackPushVector` and
`stackPushEntity` push. -/
inductive GscValue where
  | undefined
  | int (i : Int)
  | float (f : CFloat)
  | string (s : CString)
  | vector (v : vec3_t)
  | entity (num : Int)
deriving DecidableEq, Repr

/-- The struct `osjh_save` without its link: `prevsave` is the next record of
the list the save is in, and `groundentity` is the number of the entity
pointed to, if any. -/
structure osjh_save where
  groundentity : Option Int
  origin : vec3_t
  angles : vec3_t
  checkPointId : Int
  RPGJumps : Int
  nadeJumps : Int
  doubleRPGs : Int
deriving DecidableEq, Repr

/-- The arrays `playersaves` and `playersaves_selected`, by client number. A
pointer to a save is the list of records from that save on (`prevsave` is the
tail), and NULL is the empty list. -/
structure SaveState where
  playersaves : Nat → List osjh_save
  playersaves_selected : Nat → List osjh_save

/-- The array `f` with the entry at `i` replaced by `v`. -/
def setAt {α : Type} (f : Nat → α) (i : Nat) (v : α) : Nat → α :=
  fun j => if j = i then v else f j

/-- The state at process start: both arrays are zero. -/
def SaveState.start : SaveState :=
  { playersaves := fun _ => [], playersaves_selected := fun _ => [] }

/-- The function `gsc_saveposition_initclient`. -/
def gsc_saveposition_initclient (s : SaveState) (id : Nat) : SaveState :=
  { playersaves := setAt s.playersaves id [],
    playersaves_selected := setAt s.playersaves_selected id [] }

/-- The GSC arguments of `gsc_saveposition_save`: `entnum` and `checkPointId`
are present when the argument has the type `STACK_INT`. -/
structure SaveArgs where
  origin : vec3_t
  angles : vec3_t
  entnum : Option Int
  RPGJumps : Int
  nadeJumps : Int
  doubleRPGs : Int
  checkPointId : Option Int
deriving DecidableEq, Repr

/-- The record `gsc_saveposition_save` fills in. -/
def newsave (args : SaveArgs) : osjh_save :=
  { groundentity := args.entnum, origin := args.origin, angles := args.angles,
    RPGJumps := args.RPGJumps, nadeJumps := args.nadeJumps, doubleRPGs := args.doubleRPGs,
    checkPointId := match args.checkPointId with
      | some c => c
      | none => -1 }

/-- The function `gsc_saveposition_save`; `mallocOk` tells whether `malloc`
returned a record. -/
def gsc_saveposition_save (s : SaveState) (id : Nat) (args : SaveArgs) (mallocOk : Bool) :
    SaveState × GscValue :=
  if mallocOk then
    ({ s with playersaves := setAt s.playersaves id (newsave args :: s.playersaves id) },
      GscValue.int 0)
  else (s, GscValue.undefined)

/-- The loop of `gsc_saveposition_selectsave` from the save `selected` on with
`backwardscount` steps left: the selected save when the loop is left and the
value pushed. -/
def selectLoop : List osjh_save → Int → List osjh_save × Int
  | [], _ => ([], 2)
  | node :: older, backwardscount =>
    if backwardscount = 0 then (node :: older, 0)
    else
      match older with
      | [] => ([node], 2)
      | prev :: rest => selectLoop (prev :: rest) (toInt32 (backwardscount - 1))

/-- The function `gsc_saveposition_selectsave`. -/
def gsc_saveposition_selectsave (s : SaveState) (id : Nat) (backwardscount : Int) :
    SaveState × GscValue :=
  match s.playersaves id with
  | [] => (s, GscValue.int 1)
  | node :: older =>
    let r := selectLoop (node :: older) backwardscount
    ({ s with playersaves_selected := setAt s.playersaves_selected id r.1 }, GscValue.int r.2)

/-- The state after `gsc_saveposition_initclient` for a player followed by one
successful `gsc_saveposition_save` for each entry of `saves`, oldest first. -/
def afterSaves (s : SaveState) (id : Nat) (saves : List SaveArgs) : SaveState :=
  saves.foldl (fun st a => (gsc_saveposition_save st id a true).1)
    (gsc_saveposition_initclient s id)

/-- A first save: on entity 7, with no checkpoint. -/
def saveOne : SaveArgs :=
  { origin := ⟨1, 2, 3⟩, angles := ⟨4, 5, 6⟩, entnum := some 7, RPGJumps := 1, nadeJumps := 2,
    doubleRPGs := 3, checkPointId := none }

/-- A second save: in the air, at checkpoint 12. -/
def saveTwo : SaveArgs :=
  { origin := ⟨10, 20, 30⟩, angles := ⟨40, 50, 60⟩, entnum := none, RPGJumps := 4,
    nadeJumps := 5, doubleRPGs := 6, checkPointId := some 12 }

/-- Player 0 after the saves `saveOne` and `saveTwo` and the selection of the
most recent one. -/
def selectedState : SaveState :=
  (gsc_saveposition_selectsave (afterSaves SaveState.start 0 [saveOne, saveTwo]) 0 0).1

/-! ## `gsc_settings.cpp` -/

/-- The enum `setting_type_t`. -/
inductive setting_type_t where
  | TYPE_STR
  | TYPE_INT
  | TYPE_FLOAT
  | TYPE_BOOL
  | TYPE_STRLIST
  | TYPE_UNKNOWN
deriving DecidableEq, Repr

/-- The struct `setting_string_t`; the buffers hold C strings. -/
structure setting_string_t where
  val : CString
  minLen : Int
  maxLen : Int
  defaultVal : CString
deriving DecidableEq, Repr

/-- The struct `setting_int_t`. -/
structure setting_int_t where
  val : Int
  minVal : Int
  maxVal : Int
  defaultVal : Int
deriving DecidableEq, Repr

/-- The struct `setting_float_t`. -/
structure setting_float_t where
  val : CFloat
  minVal : CFloat
  maxVal : CFloat
  defaultVal : CFloat
deriving DecidableEq, Repr

/-- The struct `setting_bool_t`. -/
structure setting_bool_t where
  val : Bool
  defaultVal : Bool
deriving DecidableEq, Repr

/-- The anonymous union of `setting_t` together with the tag `type` that says
which member is in use; no `TYPE_STRLIST` setting is ever stored. -/
inductive setting_union where
  | s_str (v : setting_string_t)
  | s_int (v : setting_int_t)
  | s_float (v : setting_float_t)
  | s_bool (v : setting_bool_t)
  | s_strlist
deriving DecidableEq, Repr

/-- The struct `setting_t`. -/
structure setting_t where
  name : CString
  u : setting_union
deriving DecidableEq, Repr

/-- The field `type` of a setting. -/
def setting_t.type (setting : setting_t) : setting_type_t :=
  match setting.u with
  | setting_union.s_str _ => setting_type_t.TYPE_STR
  | setting_union.s_int _ => setting_type_t.TYPE_INT
  | setting_union.s_float _ => setting_type_t.TYPE_FLOAT
  | setting_union.s_bool _ => setting_type_t.TYPE_BOOL
  | setting_union.s_strlist => setting_type_t.TYPE_STRLIST

/-- What the module takes from the C library and the floating point unit:
`strtol(s, &end, 10)` and `(float)strtod(s, &end)`, `none` when `end == s`, the
comparison `a < b` of two floats and the conversion of a float to an `int`. -/
structure LibC where
  strtol : CString → Option Int
  strtod : CString → Option CFloat
  fless : CFloat → CFloat → Bool
  ftoi : CFloat → Int

/-- The arguments of a GSC call as the `stackGetParam*` functions hand them out
by position, and whether the argument at a position has the type `VAR_STRING`. -/
structure GscParams where
  int : Nat → Int
  float : Nat → CFloat
  string : Nat → CString
  isString : Nat → Bool

/-- The globals of `gsc_settings.cpp`: `settingsPerPlayer[id]` is the list of
the settings in use in the array of player `id`, so that `totalSettingsCount`
is its length. -/
structure SettingsState where
  settingsPerPlayer : Nat → List setting_t
  totalSettingsAllocatedCount : Int
  initialized : Bool

/-- The global `totalSettingsCount`. -/
def SettingsState.totalSettingsCount (s : SettingsState) : Nat := (s.settingsPerPlayer 0).length

/-- The globals at process start. -/
def SettingsState.start : SettingsState :=
  { settingsPerPlayer := fun _ => [], totalSettingsAllocatedCount := 0, initialized := false }

/-- The table `settingsTypeMapping`. -/
def settingsTypeMapping : List (CString × setting_type_t) :=
  [("string".toList, setting_type_t.TYPE_STR), ("int".toList, setting_type_t.TYPE_INT),
   ("float".toList, setting_type_t.TYPE_FLOAT), ("bool".toList, setting_type_t.TYPE_BOOL),
   ("strlist".toList, setting_type_t.TYPE_STRLIST)]

/-- The function `getSettingTypeFromStr`. -/
def getSettingTypeFromStr (type : CString) : setting_type_t :=
  match settingsTypeMapping.find? fun e => decide (e.1 = type) with
  | some e => e.2
  | none => setting_type_t.TYPE_UNKNOWN

/-- The loop of `getSettingPtr` over the settings of a player: the first
setting with the requested name, as its position in the array and the record
the returned pointer points to. -/
def findSetting : List setting_t → CString → Option (Nat × setting_t)
  | [], _ => none
  | c :: cs, settingName =>
    if settingName = c.name then some (0, c)
    else (findSetting cs settingName).map fun r => (r.1 + 1, r.2)

/-- The function `getSettingPtr` on the settings of a player: the position of
the setting and the record there, `none` for NULL. The `assert` in its loop
compares a struct with NULL, so the file compiles only with `assert` compiled
out; throughout this module an `assert` is therefore no statement at all. -/
def getSettingPtr (cells : List setting_t) (settingName : CString) :
    Option (Nat × setting_t) :=
  if 32 ≤ settingName.length then none else findSetting cells settingName

/-- The function `validateString`. -/
def validateString (str : CString) (min max : Int) : Bool :=
  !(decide ((str.length : Int) < min) || decide ((str.length : Int) > max))

/-- The function `validateInt`. -/
def validateInt (val min max : Int) : Bool := !(decide (val < min) || decide (val > max))

/-- The function `validateBool`. -/
def validateBool (val : Int) : Bool := decide (val = 0) || decide (val = 1)

/-- The function `validateFloat`. -/
def validateFloat (libc : LibC) (val min max : CFloat) : Bool :=
  !(libc.fless val min || libc.fless max val)

/-- The value `newVal` points to in `validateAndApplySetting`. -/
inductive NewVal where
  | str (s : CString)
  | int (i : Int)
  | float (f : CFloat)

/-- The function `validateAndApplySetting`: the setting after the write, or
`none` when it returns false. -/
def validateAndApplySetting (libc : LibC) (ptr_setting : setting_t) (newVal : NewVal)
    (newSetting : Bool) : Option setting_t :=
  match ptr_setting.u, newVal with
  | setting_union.s_str b, NewVal.str newValStr =>
    if validateString newValStr b.minLen b.maxLen then
      let applied : setting_string_t :=
        { b with val := newValStr, defaultVal := if newSetting then newValStr else b.defaultVal }
      some { ptr_setting with u := setting_union.s_str applied }
    else none
  | setting_union.s_int b, NewVal.int newValInt =>
    if validateInt newValInt b.minVal b.maxVal then
      let applied : setting_int_t :=
        { b with val := newValInt, defaultVal := if newSetting then newValInt else b.defaultVal }
      some { ptr_setting with u := setting_union.s_int applied }
    else none
  | setting_union.s_float b, NewVal.float newValFloat =>
    if validateFloat libc newValFloat b.minVal b.maxVal then
      let applied : setting_float_t :=
        { b with val := newValFloat,
                 defaultVal := if newSetting then newValFloat else b.defaultVal }
      some { ptr_setting with u := setting_union.s_float applied }
    else none
  | setting_union.s_bool b, NewVal.int newValBool =>
    if validateBool newValBool then
      let applied : setting_bool_t :=
        { val := decide (newValBool ≠ 0),
          defaultVal := if newSetting then decide (newValBool ≠ 0) else b.defaultVal }
      some { ptr_setting with u := setting_union.s_bool applied }
    else none
  | _, _ => none

/-- The loop of `Gsc_CreateNewSetting` that checks whether the setting already
exists: each of its `totalSettingsCount` rounds compares the new name with
`settingsPerPlayer[0]->name`, the name of the first setting of player 0. -/
def alreadyExists (cells : List setting_t) (name : CString) : Bool :=
  (List.range cells.length).any fun _ =>
    match cells.head? with
    | some first => decide (name = first.name)
    | none => false

/-- The setting `Gsc_CreateNewSetting` builds for a type from the arguments,
before validation, the value to validate and the value pushed on success;
`none` for `TYPE_STRLIST`. -/
def buildSetting (name : CString) (p : GscParams) :
    setting_type_t → Option (setting_t × NewVal × GscValue)
  | setting_type_t.TYPE_STR =>
    some ({ name := name, u := setting_union.s_str ⟨[], p.int 2, p.int 3, []⟩ },
          NewVal.str (p.string 4), GscValue.string (p.string 4))
  | setting_type_t.TYPE_INT =>
    some ({ name := name, u := setting_union.s_int ⟨0, p.int 2, p.int 3, 0⟩ },
          NewVal.int (p.int 4), GscValue.int (p.int 4))
  | setting_type_t.TYPE_FLOAT =>
    some ({ name := name, u := setting_union.s_float ⟨0, p.float 2, p.float 3, 0⟩ },
          NewVal.float (p.float 4), GscValue.float (p.float 4))
  | setting_type_t.TYPE_BOOL =>
    some ({ name := name, u := setting_union.s_bool ⟨false, false⟩ },
          NewVal.int (p.int 2), GscValue.int (p.int 2))
  | _ => none

/-- The function `Gsc_CreateNewSetting`: the new globals and the values pushed,
in order. -/
def Gsc_CreateNewSetting (libc : LibC) (s0 : SettingsState) (p : GscParams) :
    SettingsState × List GscValue :=
  let s : SettingsState :=
    if s0.initialized then s0
    else { settingsPerPlayer := fun _ => [], totalSettingsAllocatedCount := 8,
           initialized := true }
  let name := p.string 0
  if 32 ≤ name.length then (s, [GscValue.undefined])
  else if getSettingTypeFromStr (p.string 1) = setting_type_t.TYPE_UNKNOWN then
    (s, [GscValue.undefined])
  else if alreadyExists (s.settingsPerPlayer 0) name then (s, [GscValue.undefined])
  else
    let s1 : SettingsState :=
      if s.totalSettingsAllocatedCount ≤ s.totalSettingsCount then
        { s with totalSettingsAllocatedCount := s.totalSettingsAllocatedCount + 8 }
      else s
    match buildSetting name p (getSettingTypeFromStr (p.string 1)) with
    | none => (s1, [GscValue.undefined])
    | some (newSetting, defaultVal, pushed) =>
      match validateAndApplySetting libc newSetting defaultVal true with
      | none => (s1, [GscValue.undefined])
      | some applied =>
        ({ s1 with settingsPerPlayer := fun i => s1.settingsPerPlayer i ++ [applied] },
          [pushed, GscValue.string name])

/-- The function `Gsc_DeleteAllSettings`. -/
def Gsc_DeleteAllSettings (_s : SettingsState) : SettingsState :=
  { settingsPerPlayer := fun _ => [], totalSettingsAllocatedCount := 0, initialized := false }

/-- The globals after the write of `setting` to the cell at position `i` of
player `id`. -/
def storeSetting (s : SettingsState) (id i : Nat) (setting : setting_t) : SettingsState :=
  { s with
    settingsPerPlayer := setAt s.settingsPerPlayer id ((s.settingsPerPlayer id).set i setting) }

/-- The common tail of the cases of `Gsc_SetSetting`: validate and apply, push
undefined on failure and `pushed` on success. -/
def applyOrUndefined (libc : LibC) (s : SettingsState) (id i : Nat) (setting : setting_t)
    (newVal : NewVal) (pushed : GscValue) : SettingsState × List GscValue :=
  match validateAndApplySetting libc setting newVal false with
  | none => (s, [GscValue.undefined])
  | some applied => (storeSetting s id i applied, [pushed])

/-- The function `Gsc_SetSetting`: the new globals and the values pushed. In
the cases that only hold an `assert(false)`, which is compiled out, it returns
with nothing pushed and nothing changed: a string setting given a value that
is not a string, and the type `TYPE_STRLIST`. -/
def Gsc_SetSetting (libc : LibC) (s : SettingsState) (id : Nat) (p : GscParams) :
    SettingsState × List GscValue :=
  match getSettingPtr (s.settingsPerPlayer id) (p.string 0) with
  | none => (s, [GscValue.undefined])
  | some (i, setting) =>
    if p.isString 1 then
      match setting.u with
      | setting_union.s_str _ =>
        applyOrUndefined libc s id i setting (NewVal.str (p.string 1))
          (GscValue.string (p.string 1))
      | setting_union.s_int _ | setting_union.s_bool _ =>
        match libc.strtol (p.string 1) with
        | none => (s, [GscValue.undefined])
        | some newVal =>
          applyOrUndefined libc s id i setting (NewVal.int newVal) (GscValue.int newVal)
      | setting_union.s_float _ =>
        match libc.strtod (p.string 1) with
        | none => (s, [GscValue.undefined])
        | some newVal =>
          applyOrUndefined libc s id i setting (NewVal.float newVal)
            (GscValue.int (libc.ftoi newVal))
      | setting_union.s_strlist => (s, [])
    else
      match setting.u with
      | setting_union.s_str _ => (s, [])
      | setting_union.s_int _ | setting_union.s_bool _ =>
        applyOrUndefined libc s id i setting (NewVal.int (p.int 1)) (GscValue.int (p.int 1))
      | setting_union.s_float _ =>
        applyOrUndefined libc s id i setting (NewVal.float (p.float 1))
          (GscValue.float (p.float 1))
      | setting_union.s_strlist => (s, [])

/-- The function `Gsc_GetSetting`: the values pushed, none for the type
`TYPE_STRLIST`, whose case only holds an `assert(false)`. -/
def Gsc_GetSetting (s : SettingsState) (id : Nat) (p : GscParams) : List GscValue :=
  match getSettingPtr (s.settingsPerPlayer id) (p.string 0) with
  | none => [GscValue.undefined]
  | some (_, setting) =>
    match setting.u with
    | setting_union.s_str b => [GscValue.string b.val]
    | setting_union.s_int b => [GscValue.int b.val]
    | setting_union.s_float b => [GscValue.float b.val]
    | setting_union.s_bool b => [GscValue.int (if b.val then 1 else 0)]
    | setting_union.s_strlist => []

/-- The arguments `(name, "int", min, max, default)` of a call of
`createNewSetting`. -/
def intSettingParams (name : CString) (min max defaultVal : Int) : GscParams :=
  { int := fun i => if i = 2 then min else if i = 3 then max else if i = 4 then defaultVal else 0,
    float := fun _ => 0,
    string := fun i => if i = 0 then name else if i = 1 then "int".toList else [],
    isString := fun i => decide (i ≤ 1) }

/-- The arguments `(name, v)` of a call of `setSetting` with an integer `v`. -/
def setIntParams (name : CString) (v : Int) : GscParams :=
  { int := fun i => if i = 1 then v else 0,
    float := fun _ => 0,
    string := fun i => if i = 0 then name else [],
    isString := fun i => decide (i = 0) }

/-- A C library in which no conversion succeeds; the integer settings do not
use it. -/
def noLibC : LibC :=
  { strtol := fun _ => none, strtod := fun _ => none, fless := fun _ _ => false,
    ftoi := fun _ => 0 }

/-- The creation of an integer setting with the bounds 0 and 10 and the
default 5. -/
def createInt (s : SettingsState) (name : CString) : SettingsState × List GscValue :=
  Gsc_CreateNewSetting noLibC s (intSettingParams name 0 10 5)

/-- The globals after the creation of the settings `a` and `b`. -/
def twoSettings : SettingsState :=
  (createInt (createInt SettingsState.start "a".toList).1 "b".toList).1

/-- The globals after the creation of the settings `a` and `b` and of a second
setting `b`, this one with the bounds 0 and 100. -/
def shadowedSettings : SettingsState :=
  (Gsc_CreateNewSetting noLibC twoSettings (intSettingParams "b".toList 0 100 5)).1

/-- Globals with the one string setting `n`. -/
def stringSetting : SettingsState :=
  let cell : setting_t :=
    { name := "n".toList, u := setting_union.s_str ⟨"ab".toList, 0, 5, "ab".toList⟩ }
  { settingsPerPlayer := fun _ => [cell], totalSettingsAllocatedCount := 8, initialized := true }

/-- The pair of the task record at `a` and the connection at position `c` is
stuck: the task is started and not done, the connection is bound to it, and
no query thread was given the connection. -/
def Stuck (a c : Nat) (s : State) : Prop :=
  Inv s
  ∧ (∃ t ∈ s.first_async_task, t.addr = a ∧ t.started = true ∧ t.done = false)
  ∧ (∃ conn, s.first_async_connection.get? c = some conn ∧ conn.task = some a)
  ∧ c ∉ s.workers

/-- A character is one of the sixteen lower-case hexadecimal digits. -/
def IsLowerHex (c : Char) : Prop := ∃ d, d < 16 ∧ c = Nat.digitChar d

/-! ## Executions of the scheduler -/

/-- The number of not yet started tasks of a list up to and including the
first record at address `a`: the tasks the handler loop serves no later than
that record. -/
def pendingUpTo (a : Nat) : List mysqla_task → Nat
  | [] => 0
  | t :: q => (if t.started then 0 else 1) + (if t.addr = a then 0 else pendingUpTo a q)

/-- What identifies a queued task and tells whether it was started. -/
def taskKey (t : mysqla_task) : Nat × Int × CString × Bool :=
  (t.addr, t.taskId, t.query, t.started)

/-- An execution of the scheduler: the state at each time and the step taken
from it. -/
structure Execution where
  state : Nat → State
  action : Nat → Action
  steps : ∀ n, step (state n) (action n) = some (state (n + 1))

/-- The threads of the scheduler are scheduled and can be created: the handler
thread keeps cycling, and every query thread it asks for is created. -/
structure Fair (e : Execution) : Prop where
  handler_runs : ∀ n, ∃ m, n ≤ m ∧ ∃ pc, e.action m = Action.handler_cycle pc
  threads_created : ∀ n pc, e.action n = Action.handler_cycle pc → ∀ i, pc i = 0

/-- At least one connection is or becomes idle: at every time, some connection
is idle then or later. -/
def IdleRecurs (e : Execution) : Prop :=
  ∀ n, ∃ m, n ≤ m ∧ 0 < idleCount (e.state m).first_async_connection

/-- The query of the task at address `a` terminates: the query thread on a
connection bound to that record ends. -/
def QueryEnds (e : Execution) (a : Nat) : Prop :=
  ∀ n c conn, (e.state n).first_async_connection.get? c = some conn → conn.task = some a →
    c ∈ (e.state n).workers → ∃ m, n ≤ m ∧ ∃ o f, e.action m = Action.execute_query c o f

/-- Every query terminates: every query thread ends. -/
def AllQueriesEnd (e : Execution) : Prop :=
  ∀ n c, c ∈ (e.state n).workers → ∃ m, n ≤ m ∧ ∃ o f, e.action m = Action.execute_query c o f

/-- The record at address `a` of the queue `q` is `u`, and it is the task with
the identifier `id` and the query `qu`. -/
def HoldsTask (a : Nat) (id : Int) (qu : CString) (q : List mysqla_task) (u : mysqla_task) :
    Prop :=
  derefTask a q = some u ∧ u.taskId = id ∧ u.query = qu

/-- The steps of an execution from process start: a pool of one connection is
created, a level query is enqueued, the handler starts it, the query ends,
and from then on the handler cycles. -/
def liveAction : Nat → Action
  | 0 => Action.initializer (poolArgs 1) okEnv
  | 1 => Action.create_level_query 100 "SELECT 1".toList 0
  | 2 => Action.handler_cycle fun _ => 0
  | 3 => Action.execute_query 0 (QueryOutcome.succeeded none) true
  | _ + 4 => Action.handler_cycle fun _ => 0

/-- The states that execution goes through. -/
def liveState (n : Nat) : State :=
  (run State.start ((List.range (min n 4)).map liveAction)).getD State.start

/-- The execution with the steps `liveAction`. -/
def liveExecution : Execution :=
  { state := liveState
    action := liveAction
    steps := fun n =>
      match n with
      | 0 => by decide
      | 1 => by decide
      | 2 => by decide
      | 3 => by decide
      | k + 4 => by
        have e1 : liveState (k + 4) = liveState 4 := by
          unfold liveState
          rw [show min (k + 4) 4 = 4 by omega]
          rfl
        have e2 : liveState (k + 4 + 1) = liveState 4 := by
          unfold liveState
          rw [show min (k + 4 + 1) 4 = 4 by omega]
          rfl
        rw [e1, e2]
        show step (liveState 4) (Action.handler_cycle fun _ => 0) = some (liveState 4)
        decide }

/-- The level query of the execution `liveExecution` as it is enqueued. -/
def liveTask : mysqla_task :=
  { addr := 100, taskId := 1, result := none, entity := none, entityDisconnected := false,
    done := false, started := false, save := false, query := "SELECT 1".toList }

/-! ## Theorems -/

theorem linkAtTail_eq_append (n : mysqla_task) (q : List mysqla_task) :
    linkAtTail n q = q ++ [n] := by
  induction q with
  | nil => rfl
  | cons t rest ih => simp [linkAtTail, ih]

/-- C9: `mysqla_query_initializer` turns the queue `q` into `q` followed by one
new task that is not started, not done, has no result, has its disconnected
flag unset and carries the given target and capture flag (the GSC entry points
pass `saveResult > 0` as the capture flag and the entity, or none, as target);
the tasks of `q` keep their positions and fields. -/
theorem enqueue_appends_pending_task (s : State) (addr : Nat) (sql : CString)
    (entity : Option Int) (save : Bool) (num saveResult : Int) :
    (mysqla_query_initializer s addr sql entity save).1.first_async_task
        = s.first_async_task ++
          [{ addr := addr, taskId := (mysqla_query_initializer s addr sql entity save).2,
             result := none, entity := entity, entityDisconnected := false,
             done := false, started := false, save := save,
             query := snprintf_s (1024 + 1) sql }]
      ∧ gsc_mysqla_create_level_query s addr sql saveResult
          = mysqla_query_initializer s addr sql none (decide (saveResult > 0))
      ∧ gsc_mysqla_create_entity_query s addr num sql saveResult
          = mysqla_query_initializer s addr sql (some num) (decide (saveResult > 0)) := by
  refine ⟨?_, rfl, rfl⟩
  simp [mysqla_query_initializer, linkAtTail_eq_append]

theorem collectLoop_fst (cb : Int) (q : List mysqla_task) :
    (collectLoop cb q).1 = q.filter fun t => !t.done := by
  induction q with
  | nil => rfl
  | cons t rest ih =>
    by_cases h : t.done = true <;> simp [collectLoop, h, ih]

theorem collector_keeps_not_done (s : State) (h : s.mysql_result_callback ≠ 0) :
    (mysql_handle_result_callbacks s).first_async_task
      = s.first_async_task.filter fun t => !t.done := by
  simp [mysql_handle_result_callbacks, h, collectLoop_fst]

theorem Host.run_append (h : Host) (a b : List HostCall) :
    h.run (a ++ b) = (h.run a).run b := by
  simp [Host.run, List.foldl_append]

theorem Host.run_cons (h : Host) (a : HostCall) (b : List HostCall) :
    h.run (a :: b) = (h.call a).run b := rfl

theorem Host.run_nil (h : Host) : h.run [] = h := rfl

theorem run_pushResultFields (row : List (Option CString)) (n : Nat) :
    ∀ (j : Nat) (items below : List ScrValue) (inv : List Invocation),
      Host.run { stack := ScrValue.array items :: below, invoked := inv }
          (pushResultFields row n j)
        = { stack := ScrValue.array (items ++ fieldValues row n j) :: below, invoked := inv } := by
  induction n with
  | zero => intro j items below inv; simp [pushResultFields, fieldValues, Host.run_nil]
  | succ n ih =>
    intro j items below inv
    simp only [pushResultFields, fieldValues, Host.run_cons]
    cases hrow : row.get? j with
    | none => simp [Host.call, ih]
    | some f =>
      cases f with
      | none => simp [Host.call, ih]
      | some str => simp [Host.call, ih]

theorem run_pushResultRowsLoop (nf : Int) (rows : List (List (Option CString))) :
    ∀ (items below : List ScrValue) (inv : List Invocation),
      Host.run { stack := ScrValue.array items :: below, invoked := inv }
          (pushResultRowsLoop nf rows)
        = { stack := ScrValue.array
              (items ++ rows.map fun row => ScrValue.array (fieldValues row nf.toNat 0)) :: below,
            invoked := inv } := by
  induction rows with
  | nil => intro items below inv; simp [pushResultRowsLoop, Host.run_nil]
  | cons row rows ih =>
    intro items below inv
    simp only [pushResultRowsLoop, Host.run_cons, Host.run_append, Host.call]
    rw [run_pushResultFields]
    simp [Host.run_cons, Host.call, ih]

theorem run_pushResultRows (result : MYSQL_RES) (h : Host) :
    h.run (pushResultRows result) = { h with stack := rowsValue result :: h.stack } := by
  cases h with
  | mk stack inv =>
    unfold pushResultRows
    rw [Host.run_cons]
    show Host.run { stack := ScrValue.array [] :: stack, invoked := inv } _ = _
    rw [run_pushResultRowsLoop, List.nil_append, rowsValue]

theorem run_handleDoneTask (cb : Int) (t : mysqla_task) (h : Host) :
    h.run (handleDoneTask cb t)
      = { stack := if (invocationOf cb t).isSome then h.stack
                   else ScrValue.int t.taskId :: resultValue t :: h.stack,
          invoked := h.invoked ++ (invocationOf cb t).toList } := by
  have hpush : h.run (match t.result with
      | some result => pushResultRows result
      | none => [HostCall.stackPushUndefined])
      = { h with stack := resultValue t :: h.stack } := by
    cases hr : t.result with
    | none => simp [resultValue, hr, Host.run_cons, Host.run_nil, Host.call]
    | some r => simp [resultValue, hr, run_pushResultRows]
  simp only [handleDoneTask, Host.run_append, hpush, Host.run_cons, Host.call]
  cases he : t.entity with
  | none => simp [invocationOf, he, Host.run_cons, Host.run_nil, Host.call]
  | some e =>
    by_cases hd : t.entityDisconnected = true
    · simp [invocationOf, he, hd, Host.run_nil]
    · simp [invocationOf, he, hd, Host.run_cons, Host.run_nil, Host.call]

theorem run_collectLoop (cb : Int) (q : List mysqla_task) :
    ∀ h : Host, (h.run (collectLoop cb q).2).invoked
      = h.invoked ++ (q.filter fun t => t.done).filterMap (invocationOf cb) := by
  induction q with
  | nil => intro h; simp [collectLoop, Host.run_nil]
  | cons t rest ih =>
    intro h
    by_cases hd : t.done = true
    · simp only [collectLoop, hd, if_true, Host.run_append, run_handleDoneTask, ih]
      cases hi : invocationOf cb t <;> simp [hd, hi]
    · simp [collectLoop, hd, ih]

theorem startFirst_zero (q : List mysqla_task) : startFirst 0 q = q := by
  cases q <;> rfl

theorem isNone_of_isSome {o : Option Nat} (h : o.isSome = true) : o.isNone = false := by
  cases o <;> simp_all

theorem eq_none_of_not_isSome {o : Option Nat} (h : ¬ o.isSome = true) : o = none := by
  cases o <;> simp_all

theorem skipBusy_nil_idle (conns : List mysqla_connection) (busy : List mysqla_connection)
    (h : skipBusy conns = (busy, [])) : idleCount conns = 0 := by
  induction conns generalizing busy with
  | nil => rfl
  | cons c cs ih =>
    by_cases hc : c.task.isSome = true
    · simp only [skipBusy, hc, if_true, Prod.mk.injEq] at h
      have := ih (skipBusy cs).1 (Prod.ext rfl h.2)
      have hn : c.task.isNone = false := isNone_of_isSome hc
      simpa [idleCount, hn] using this
    · simp [skipBusy, hc] at h

theorem skipBusy_cons_idle (conns : List mysqla_connection) (busy rest : List mysqla_connection)
    (c : mysqla_connection) (h : skipBusy conns = (busy, c :: rest)) :
    c.task = none ∧ conns = busy ++ c :: rest ∧ (∀ b ∈ busy, b.task.isSome = true)
      ∧ idleCount conns = idleCount rest + 1 := by
  induction conns generalizing busy with
  | nil => simp [skipBusy] at h
  | cons d ds ih =>
    by_cases hd : d.task.isSome = true
    · simp only [skipBusy, hd, if_true, Prod.mk.injEq] at h
      obtain ⟨h1, h2, h3, h4⟩ := ih (skipBusy ds).1 (Prod.ext rfl h.2)
      have hn : d.task.isNone = false := isNone_of_isSome hd
      refine ⟨h1, ?_, ?_, ?_⟩
      · rw [← h.1]; simp [← h2]
      · rw [← h.1]; intro b hb
        rcases List.mem_cons.1 hb with rfl | hb
        · exact hd
        · exact h3 b hb
      · simpa [idleCount, hn] using h4
    · simp only [skipBusy, hd, Prod.mk.injEq] at h
      simp only [Bool.false_eq_true, if_false, Prod.mk.injEq] at h
      obtain ⟨rfl, h2⟩ := h
      injection h2 with h2 h3
      subst h2; subst h3
      have hn : d.task = none := eq_none_of_not_isSome hd
      refine ⟨hn, rfl, by simp, ?_⟩
      simp [idleCount, hn]

theorem handlerLoop_tasks_of_spawns_ok (pc : Nat → Int) (hpc : ∀ i, pc i = 0)
    (q : List mysqla_task) :
    ∀ (base : Nat) (conns : List mysqla_connection),
      (handlerLoop pc q base conns).1
        = startFirst (min (pendingCount q) (idleCount conns)) q := by
  induction q with
  | nil => intro base conns; simp [handlerLoop, pendingCount, startFirst_zero]
  | cons t ts ih =>
    intro base conns
    by_cases hs : t.started = true
    · have hp : pendingCount (t :: ts) = pendingCount ts := by simp [pendingCount, hs]
      rw [hp]
      simp only [handlerLoop, hs, if_true, ih]
      cases hm : min (pendingCount ts) (idleCount conns) with
      | zero => simp [startFirst_zero]
      | succ n => simp [startFirst, hs]
    · have hp : pendingCount (t :: ts) = pendingCount ts + 1 := by simp [pendingCount, hs]
      rw [hp]
      simp only [handlerLoop, hs]
      cases hsk : skipBusy conns with
      | mk busy rest =>
        cases rest with
        | nil =>
          have := skipBusy_nil_idle conns busy hsk
          simp [this, startFirst_zero]
        | cons c rest =>
          obtain ⟨-, -, -, hidle⟩ := skipBusy_cons_idle conns busy rest c hsk
          have hmin : min (pendingCount ts + 1) (idleCount conns)
              = min (pendingCount ts) (idleCount rest) + 1 := by
            rw [hidle]; omega
          simp [hpc, ih, hmin, startFirst, hs]

theorem skipBusy_cons (conns : List mysqla_connection) (busy rest : List mysqla_connection)
    (c : mysqla_connection) (h : skipBusy conns = (busy, c :: rest)) :
    c.task = none ∧ conns = busy ++ c :: rest ∧ (∀ b ∈ busy, b.task.isSome = true) := by
  induction conns generalizing busy with
  | nil => simp [skipBusy] at h
  | cons d ds ih =>
    by_cases hd : d.task.isSome = true
    · simp only [skipBusy, hd, if_true, Prod.mk.injEq] at h
      obtain ⟨h1, h2, h3⟩ := ih (skipBusy ds).1 (Prod.ext rfl h.2)
      refine ⟨h1, ?_, ?_⟩
      · rw [← h.1]; simp [← h2]
      · rw [← h.1]; intro b hb
        rcases List.mem_cons.1 hb with rfl | hb
        · exact hd
        · exact h3 b hb
    · simp only [skipBusy, hd, Prod.mk.injEq] at h
      simp only [Bool.false_eq_true, if_false, Prod.mk.injEq] at h
      obtain ⟨rfl, h2⟩ := h
      injection h2 with h2 h3
      subst h2; subst h3
      exact ⟨eq_none_of_not_isSome hd, rfl, by simp⟩

theorem forall₂_append_of {α : Type} {R : α → α → Prop} {a b c d : List α}
    (h1 : List.Forall₂ R a b) (h2 : List.Forall₂ R c d) : List.Forall₂ R (a ++ c) (b ++ d) := by
  induction h1 with
  | nil => simpa using h2
  | cons h _ ih => exact List.Forall₂.cons h ih

theorem taskSteps_refl (l : List mysqla_task) : List.Forall₂ TaskStep l l := by
  induction l with
  | nil => exact List.Forall₂.nil
  | cons a l ih => exact List.Forall₂.cons (Or.inl rfl) ih

theorem connSteps_refl (l : List mysqla_connection) : List.Forall₂ ConnStep l l := by
  induction l with
  | nil => exact List.Forall₂.nil
  | cons a l ih => exact List.Forall₂.cons (Or.inl rfl) ih

theorem boundAddrs_append (a b : List mysqla_connection) :
    boundAddrs (a ++ b) = boundAddrs a ++ boundAddrs b := by
  simp [boundAddrs, List.filterMap_append]

theorem boundAddrs_cons_none (c : mysqla_connection) (l : List mysqla_connection)
    (h : c.task = none) : boundAddrs (c :: l) = boundAddrs l := by
  simp [boundAddrs, List.filterMap_cons, h]

theorem boundAddrs_cons_some (c : mysqla_connection) (l : List mysqla_connection) (a : Nat)
    (h : c.task = some a) : boundAddrs (c :: l) = a :: boundAddrs l := by
  simp [boundAddrs, List.filterMap_cons, h]

theorem runningAddrs_cons (t : mysqla_task) (q : List mysqla_task) :
    runningAddrs (t :: q) = if isRunning t then t.addr :: runningAddrs q else runningAddrs q := by
  by_cases h : isRunning t = true <;> simp [runningAddrs, List.filter_cons, h]

theorem runningAddrs_append (a b : List mysqla_task) :
    runningAddrs (a ++ b) = runningAddrs a ++ runningAddrs b := by
  simp [runningAddrs]

theorem handlerLoop_steps (pc : Nat → Int) (q : List mysqla_task) :
    ∀ (base : Nat) (conns : List mysqla_connection),
      List.Forall₂ TaskStep q (handlerLoop pc q base conns).1
      ∧ List.Forall₂ ConnStep conns (handlerLoop pc q base conns).2.1 := by
  induction q with
  | nil =>
    intro base conns
    exact ⟨List.Forall₂.nil, connSteps_refl _⟩
  | cons t ts ih =>
    intro base conns
    by_cases hs : t.started = true
    · simp only [handlerLoop, hs, if_true]
      exact ⟨List.Forall₂.cons (Or.inl rfl) (ih base conns).1, (ih base conns).2⟩
    · simp only [handlerLoop, hs]
      cases hsk : skipBusy conns with
      | mk busy rest =>
        cases rest with
        | nil =>
          exact ⟨taskSteps_refl _, connSteps_refl _⟩
        | cons c rest =>
          obtain ⟨hc, hconns, -⟩ := skipBusy_cons conns busy rest c hsk
          have hst : t.started = false := by simpa using hs
          have htask : TaskStep t { t with started := true } := Or.inr ⟨hst, rfl⟩
          have hconn : ConnStep c { c with task := some t.addr } := Or.inr ⟨hc, _, rfl⟩
          by_cases hp : pc (base + busy.length) = 0
          · simp only [hp, ne_eq, not_true_eq_false, if_false, Bool.false_eq_true]
            refine ⟨List.Forall₂.cons htask (ih _ _).1, ?_⟩
            rw [hconns]
            exact forall₂_append_of (connSteps_refl _) (List.Forall₂.cons hconn (ih _ _).2)
          · simp only [hp, ne_eq, not_false_eq_true, if_true, Bool.false_eq_true]
            refine ⟨List.Forall₂.cons htask (taskSteps_refl _), ?_⟩
            rw [hconns]
            exact forall₂_append_of (connSteps_refl _)
              (List.Forall₂.cons hconn (connSteps_refl _))

theorem boundAddrs_all_bound_perm (busy : List mysqla_connection) (x : Nat) (l : List Nat) :
    (boundAddrs busy ++ x :: l).Perm (x :: (boundAddrs busy ++ l)) :=
  List.perm_middle

theorem handlerLoop_matching (pc : Nat → Int) (q : List mysqla_task)
    (hfw : ∀ t ∈ q, t.done = true → t.started = true) :
    ∀ (base : Nat) (conns : List mysqla_connection),
      ∃ L : List Nat,
        (boundAddrs (handlerLoop pc q base conns).2.1).Perm (L ++ boundAddrs conns)
        ∧ (runningAddrs (handlerLoop pc q base conns).1).Perm (L ++ runningAddrs q) := by
  induction q with
  | nil => intro base conns; exact ⟨[], by simp [handlerLoop], by simp [handlerLoop]⟩
  | cons t ts ih =>
    have ih := ih (fun t ht => hfw t (List.mem_cons_of_mem _ ht))
    intro base conns
    by_cases hs : t.started = true
    · obtain ⟨L, h1, h2⟩ := ih base conns
      refine ⟨L, ?_, ?_⟩
      · simpa only [handlerLoop, hs, if_true] using h1
      · simp only [handlerLoop, hs, if_true, runningAddrs_cons]
        by_cases hr : isRunning t = true
        · simp only [hr, if_true]
          exact (List.Perm.cons _ h2).trans List.perm_middle.symm
        · simpa [hr] using h2
    · have hst : t.started = false := by simpa using hs
      have hnd : t.done = false := by
        cases hd : t.done with
        | false => rfl
        | true => exact absurd (hfw t (List.mem_cons_self _ _) hd) hs
      have hnr : isRunning t = false := by simp [isRunning, hst]
      have hr' : isRunning { t with started := true } = true := by simp [isRunning, hnd]
      simp only [handlerLoop, hs]
      cases hsk : skipBusy conns with
      | mk busy rest =>
        cases rest with
        | nil => exact ⟨[], by simp, by simp⟩
        | cons c rest =>
          obtain ⟨hc, hconns, -⟩ := skipBusy_cons conns busy rest c hsk
          have hB : boundAddrs conns = boundAddrs busy ++ boundAddrs rest := by
            rw [hconns, boundAddrs_append, boundAddrs_cons_none c rest hc]
          by_cases hp : pc (base + busy.length) = 0
          · simp only [hp, ne_eq, not_true_eq_false, if_false, Bool.false_eq_true]
            obtain ⟨L, h1, h2⟩ := ih (base + busy.length + 1) rest
            refine ⟨t.addr :: L, ?_, ?_⟩
            · rw [boundAddrs_append, boundAddrs_cons_some _ _ t.addr rfl, hB, List.cons_append]
              refine List.perm_middle.trans (List.Perm.cons _ ?_)
              exact (List.Perm.append_left _ h1).trans (List.perm_append_comm_assoc _ _ _)
            · rw [runningAddrs_cons, runningAddrs_cons, hr', hnr]
              exact List.Perm.cons _ h2
          · simp only [hp, ne_eq, not_false_eq_true, if_true, Bool.false_eq_true]
            refine ⟨[t.addr], ?_, ?_⟩
            · show (boundAddrs (busy ++ { c with task := some t.addr } :: rest)).Perm _
              rw [boundAddrs_append, boundAddrs_cons_some _ _ t.addr rfl, hB]
              exact List.perm_middle
            · show (runningAddrs ({ t with started := true } :: ts)).Perm _
              rw [runningAddrs_cons, runningAddrs_cons, hr', hnr]
              exact List.Perm.refl _

theorem get?_append_cons_length {α : Type} (busy : List α) (c : α) (rest : List α) :
    (busy ++ c :: rest).get? busy.length = some c := by
  induction busy with
  | nil => rfl
  | cons b bs ih => simpa using ih

theorem get?_append_cons_after {α : Type} (busy : List α) (c : α) (rest : List α) (k : Nat) :
    (busy ++ c :: rest).get? (busy.length + 1 + k) = rest.get? k := by
  induction busy with
  | nil => simp [Nat.add_comm]
  | cons b bs ih =>
    have : (b :: bs).length + 1 + k = (bs.length + 1 + k) + 1 := by simp; omega
    rw [this]
    simpa using ih

theorem handlerLoop_workers (pc : Nat → Int) (q : List mysqla_task) :
    ∀ (base : Nat) (conns : List mysqla_connection),
      (∀ i ∈ (handlerLoop pc q base conns).2.2, ∃ k c c', i = base + k
          ∧ conns.get? k = some c ∧ c.task = none
          ∧ (handlerLoop pc q base conns).2.1.get? k = some c' ∧ c'.task.isSome = true)
      ∧ (handlerLoop pc q base conns).2.2.Nodup := by
  induction q with
  | nil => intro base conns; simp [handlerLoop]
  | cons t ts ih =>
    intro base conns
    by_cases hs : t.started = true
    · simpa only [handlerLoop, hs, if_true] using ih base conns
    · simp only [handlerLoop, hs]
      cases hsk : skipBusy conns with
      | mk busy rest =>
        cases rest with
        | nil => simp
        | cons c rest =>
          obtain ⟨hc, hconns, -⟩ := skipBusy_cons conns busy rest c hsk
          by_cases hp : pc (base + busy.length) = 0
          · simp only [hp, ne_eq, not_true_eq_false, if_false, Bool.false_eq_true]
            obtain ⟨h1, h2⟩ := ih (base + busy.length + 1) rest
            refine ⟨?_, ?_⟩
            · intro i hi
              rcases List.mem_cons.1 hi with rfl | hi
              · exact ⟨busy.length, c, { c with task := some t.addr }, rfl,
                  by rw [hconns]; exact get?_append_cons_length _ _ _, hc,
                  get?_append_cons_length _ _ _, rfl⟩
              · obtain ⟨k, d, d', hk, hd1, hd2, hd3, hd4⟩ := h1 i hi
                refine ⟨busy.length + 1 + k, d, d', by omega, ?_, hd2, ?_, hd4⟩
                · rw [hconns, get?_append_cons_after]; exact hd1
                · rw [get?_append_cons_after]; exact hd3
            · refine List.nodup_cons.2 ⟨?_, h2⟩
              intro hi
              obtain ⟨k, _, _, hk, _⟩ := h1 _ hi
              omega
          · simp [hp]

theorem Inv_start : Inv State.start := by
  constructor <;> simp [State.start, liveAddrs, boundAddrs, runningAddrs]

theorem runningAddrs_map_of_same (f : mysqla_task → mysqla_task)
    (hf : ∀ t, (f t).addr = t.addr ∧ (f t).started = t.started ∧ (f t).done = t.done)
    (q : List mysqla_task) : runningAddrs (q.map f) = runningAddrs q := by
  induction q with
  | nil => rfl
  | cons t q ih =>
    have h : isRunning (f t) = isRunning t := by simp [isRunning, hf t]
    simp [runningAddrs_cons, h, ih, (hf t).1]

theorem Inv_enqueue (s : State) (h : Inv s) (addr : Nat) (sql : CString) (entity : Option Int)
    (save : Bool) (ha : addr ∉ liveAddrs s) :
    Inv (mysqla_query_initializer s addr sql entity save).1 := by
  obtain ⟨h1, h2, h3, h4, h5, h6⟩ := h
  simp only [liveAddrs] at ha h1
  constructor
  · simp only [liveAddrs, mysqla_query_initializer, linkAtTail_eq_append, List.map_append,
      List.map_cons, List.map_nil]
    exact List.Nodup.append h1 (List.nodup_singleton _) (by simpa using ha)
  · simpa [mysqla_query_initializer, linkAtTail_eq_append, runningAddrs_append,
      runningAddrs_cons, isRunning, runningAddrs] using h2
  · intro t ht
    simp only [mysqla_query_initializer, linkAtTail_eq_append, List.mem_append,
      List.mem_singleton] at ht
    rcases ht with ht | rfl
    · exact h3 t ht
    · simp
  · exact h4
  · exact h5
  · intro t ht
    simp only [mysqla_query_initializer, linkAtTail_eq_append, List.mem_append,
      List.mem_singleton] at ht
    rcases ht with ht | rfl
    · exact h6 t ht
    · simp

theorem Inv_ondisconnect (s : State) (h : Inv s) (num : Int) :
    Inv (gsc_mysqla_ondisconnect s num) := by
  obtain ⟨h1, h2, h3, h4, h5, h6⟩ := h
  have hf : ∀ t : mysqla_task,
      (if t.entity = some num then { t with entityDisconnected := true } else t).addr = t.addr
      ∧ (if t.entity = some num then { t with entityDisconnected := true } else t).started
          = t.started
      ∧ (if t.entity = some num then { t with entityDisconnected := true } else t).done
          = t.done := by
    intro t; split <;> simp
  constructor
  · simp only [liveAddrs, gsc_mysqla_ondisconnect, List.map_map]
    have : ((fun t : mysqla_task => t.addr) ∘ fun t : mysqla_task =>
        if t.entity = some num then { t with entityDisconnected := true } else t)
        = fun t => t.addr := by
      funext t; exact (hf t).1
    rw [this]; exact h1
  · simp only [gsc_mysqla_ondisconnect]
    rw [runningAddrs_map_of_same _ hf]; exact h2
  · intro t ht
    simp only [gsc_mysqla_ondisconnect, List.mem_map] at ht
    obtain ⟨u, hu, rfl⟩ := ht
    rw [(hf u).2.1, (hf u).2.2]; exact h3 u hu
  · exact h4
  · exact h5
  · intro t ht
    simp only [gsc_mysqla_ondisconnect, List.mem_map] at ht
    obtain ⟨u, hu, rfl⟩ := ht
    have := h6 u hu
    split <;> simpa using this

theorem runningAddrs_filter_not_done (q : List mysqla_task) :
    runningAddrs (q.filter fun t => !t.done) = runningAddrs q := by
  induction q with
  | nil => rfl
  | cons t q ih =>
    by_cases hd : t.done = true
    · have : isRunning t = false := by simp [isRunning, hd]
      simp [List.filter_cons, hd, runningAddrs_cons, this, ih]
    · simp [List.filter_cons, hd, runningAddrs_cons, ih]

theorem Inv_collect (s : State) (h : Inv s) : Inv (mysql_handle_result_callbacks s) := by
  by_cases hcb : s.mysql_result_callback = 0
  · simpa [mysql_handle_result_callbacks, hcb] using h
  obtain ⟨h1, h2, h3, h4, h5, h6⟩ := h
  have hq : (mysql_handle_result_callbacks s).first_async_task
      = s.first_async_task.filter fun t => !t.done := collector_keeps_not_done s hcb
  have hp : (mysql_handle_result_callbacks s).first_async_connection
      = s.first_async_connection := by simp [mysql_handle_result_callbacks, hcb]
  have hw : (mysql_handle_result_callbacks s).workers = s.workers := by
    simp [mysql_handle_result_callbacks, hcb]
  constructor
  · simp only [liveAddrs, hq]
    exact List.Nodup.sublist (List.Sublist.map _ (List.filter_sublist _)) h1
  · rw [hq, hp, runningAddrs_filter_not_done]; exact h2
  · intro t ht; rw [hq] at ht; exact h3 t (List.mem_of_mem_filter ht)
  · rw [hw]; exact h4
  · rw [hw, hp]; exact h5
  · intro t ht; rw [hq] at ht; exact h6 t (List.mem_of_mem_filter ht)

theorem boundAddrs_set_unbind (pool : List mysqla_connection) :
    ∀ (c : Nat) (conn : mysqla_connection) (p : Nat),
      pool.get? c = some conn → conn.task = some p →
      (boundAddrs pool).Perm (p :: boundAddrs (pool.set c { conn with task := none })) := by
  induction pool with
  | nil => intro c conn p h; simp at h
  | cons d ds ih =>
    intro c conn p h hp
    cases c with
    | zero =>
      simp only [List.get?_cons_zero, Option.some.injEq] at h
      subst h
      rw [List.set_cons_zero, boundAddrs_cons_some _ _ p hp, boundAddrs_cons_none _ _ rfl]
    | succ k =>
      simp only [List.get?_cons_succ] at h
      have := ih k conn p h hp
      rw [List.set_cons_succ]
      cases hd : d.task with
      | none =>
        rw [boundAddrs_cons_none _ _ hd, boundAddrs_cons_none _ _ hd]; exact this
      | some a =>
        rw [boundAddrs_cons_some _ _ a hd, boundAddrs_cons_some _ _ a hd]
        exact (List.Perm.cons a this).trans (List.Perm.swap p a _)

theorem updateTask_of_not_mem (p : Nat) (f : mysqla_task → mysqla_task) (q : List mysqla_task)
    (h : p ∉ q.map (·.addr)) : updateTask p f q = q := by
  induction q with
  | nil => rfl
  | cons t ts ih =>
    simp only [List.map_cons, List.mem_cons, not_or] at h
    have hne : ¬ t.addr = p := fun e => h.1 e.symm
    simp only [updateTask, List.map_cons, hne, if_false] at ih ⊢
    rw [ih h.2]

theorem updateTask_cons (p : Nat) (f : mysqla_task → mysqla_task) (t : mysqla_task)
    (q : List mysqla_task) :
    updateTask p f (t :: q) = (if t.addr = p then f t else t) :: updateTask p f q := rfl

theorem updateTask_map_addr (p : Nat) (f : mysqla_task → mysqla_task)
    (hf : ∀ t, (f t).addr = t.addr) (q : List mysqla_task) :
    (updateTask p f q).map (·.addr) = q.map (·.addr) := by
  induction q with
  | nil => rfl
  | cons t ts ih =>
    rw [updateTask_cons, List.map_cons, List.map_cons, ih]
    by_cases h : t.addr = p <;> simp [h, hf]

theorem updateTask_updateTask (p : Nat) (f g : mysqla_task → mysqla_task)
    (hf : ∀ t, (f t).addr = t.addr) (q : List mysqla_task) :
    updateTask p g (updateTask p f q) = updateTask p (fun t => g (f t)) q := by
  induction q with
  | nil => rfl
  | cons t ts ih =>
    rw [updateTask_cons, updateTask_cons, updateTask_cons, ih]
    by_cases h : t.addr = p
    · simp [h, hf]
    · simp [h]

theorem mem_updateTask (p : Nat) (f : mysqla_task → mysqla_task) (q : List mysqla_task)
    (u : mysqla_task) (h : u ∈ updateTask p f q) :
    ∃ t ∈ q, (t.addr ≠ p ∧ u = t) ∨ (t.addr = p ∧ u = f t) := by
  simp only [updateTask, List.mem_map] at h
  obtain ⟨t, ht, rfl⟩ := h
  refine ⟨t, ht, ?_⟩
  by_cases hp : t.addr = p
  · right; simp [hp]
  · left; simp [hp]

theorem runningAddrs_subset_addrs (q : List mysqla_task) :
    ∀ a ∈ runningAddrs q, a ∈ q.map (·.addr) := by
  intro a ha
  simp only [runningAddrs, List.mem_map, List.mem_filter] at ha
  obtain ⟨t, ⟨ht, _⟩, rfl⟩ := ha
  exact List.mem_map_of_mem _ ht

theorem runningAddrs_updateTask_done (p : Nat) (g : mysqla_task → mysqla_task)
    (hg : ∀ t, (g t).addr = t.addr ∧ (g t).done = true) (q : List mysqla_task)
    (hnd : (q.map (·.addr)).Nodup) (hp : p ∈ runningAddrs q) :
    (runningAddrs q).Perm (p :: runningAddrs (updateTask p g q)) := by
  induction q with
  | nil => simp [runningAddrs] at hp
  | cons t ts ih =>
    rw [List.map_cons, List.nodup_cons] at hnd
    rw [updateTask_cons]
    by_cases hta : t.addr = p
    · have hnot : p ∉ ts.map (·.addr) := hta ▸ hnd.1
      have hrun : isRunning t = true := by
        rw [runningAddrs_cons] at hp
        by_cases hr : isRunning t = true
        · exact hr
        · rw [if_neg hr] at hp
          exact absurd (runningAddrs_subset_addrs ts p hp) hnot
      have hg' : isRunning (g t) = false := by simp [isRunning, (hg t).2]
      rw [if_pos hta, updateTask_of_not_mem p g ts hnot, runningAddrs_cons, runningAddrs_cons,
        hrun, hg', hta]
      simp
    · have hp' : p ∈ runningAddrs ts := by
        rw [runningAddrs_cons] at hp
        by_cases hr : isRunning t = true
        · rw [if_pos hr] at hp
          rcases List.mem_cons.1 hp with h | h
          · exact absurd h.symm hta
          · exact h
        · rw [if_neg hr] at hp; exact hp
      have := ih hnd.2 hp'
      rw [if_neg hta, runningAddrs_cons, runningAddrs_cons]
      by_cases hr : isRunning t = true
      · rw [if_pos hr, if_pos hr]
        exact (List.Perm.cons _ this).trans (List.Perm.swap _ _ _)
      · rw [if_neg hr, if_neg hr]; exact this

theorem execute_query_eq (s : State) (c : Nat) (outcome : QueryOutcome) (fopenOk : Bool)
    (s' : State) (h : mysqla_execute_query s c outcome fopenOk = some s') :
    ∃ conn p task, s.first_async_connection.get? c = some conn ∧ conn.task = some p
      ∧ derefTask p s.first_async_task = some task
      ∧ s' = { s with
          first_async_task := updateTask p
            (fun t => { t with result := resultAfter outcome task.save t, done := true })
            s.first_async_task,
          first_async_connection := s.first_async_connection.set c { conn with task := none },
          errorLog := logAfter outcome fopenOk task.query s.errorLog,
          queries := s.queries ++ [(conn.connection, task.query)],
          workers := s.workers.erase c } := by
  unfold mysqla_execute_query at h
  cases hc : s.first_async_connection.get? c with
  | none => rw [hc] at h; simp at h
  | some conn =>
    rw [hc] at h
    cases hp : conn.task with
    | none => simp [hp] at h
    | some p =>
      cases ht : derefTask p s.first_async_task with
      | none => simp [hp, ht] at h
      | some task =>
        refine ⟨conn, p, task, rfl, hp, ht, ?_⟩
        simp only [hp, ht, Option.some.injEq] at h
        rw [← h]
        cases outcome with
        | failed e m =>
          simp only [resultAfter, logAfter]
        | succeeded stored =>
          by_cases hs : task.save = true
          · have hu := updateTask_updateTask p
              (fun t : mysqla_task => { t with result := stored })
              (fun t : mysqla_task => { t with done := true }) (fun _ => rfl) s.first_async_task
            simp only [hs, if_true, resultAfter, logAfter, hu]
          · simp [hs, resultAfter, logAfter]

theorem derefTask_some (p : Nat) (q : List mysqla_task) (task : mysqla_task)
    (h : derefTask p q = some task) : task ∈ q ∧ task.addr = p := by
  unfold derefTask at h
  exact ⟨List.mem_of_find?_eq_some h, by simpa using List.find?_some h⟩

theorem mem_boundAddrs (pool : List mysqla_connection) (c : Nat) (conn : mysqla_connection)
    (p : Nat) (hc : pool.get? c = some conn) (hp : conn.task = some p) : p ∈ boundAddrs pool := by
  simp only [boundAddrs, List.mem_filterMap]
  exact ⟨conn, List.get?_mem hc, hp⟩

theorem mem_runningAddrs (q : List mysqla_task) (p : Nat) (h : p ∈ runningAddrs q) :
    ∃ t ∈ q, t.addr = p ∧ t.started = true ∧ t.done = false := by
  simp only [runningAddrs, List.mem_map, List.mem_filter, isRunning, Bool.and_eq_true,
    Bool.not_eq_true'] at h
  obtain ⟨t, ⟨ht, h1, h2⟩, h3⟩ := h
  exact ⟨t, ht, h3, h1, h2⟩

theorem Inv_execute_query (s : State) (h : Inv s) (c : Nat) (outcome : QueryOutcome)
    (fopenOk : Bool) (s' : State) (hs : mysqla_execute_query s c outcome fopenOk = some s') :
    Inv s' := by
  obtain ⟨conn, p, task, hc, hp, ht, rfl⟩ := execute_query_eq s c outcome fopenOk s' hs
  obtain ⟨h1, h2, h3, h4, h5, h6⟩ := h
  simp only [liveAddrs] at h1
  obtain ⟨htq, hta⟩ := derefTask_some p _ task ht
  have hpb : p ∈ boundAddrs s.first_async_connection := mem_boundAddrs _ c conn p hc hp
  have hpr : p ∈ runningAddrs s.first_async_task := (List.Perm.mem_iff h2).1 hpb
  obtain ⟨t0, ht0, ht0a, ht0s, ht0d⟩ := mem_runningAddrs _ p hpr
  have huniq : ∀ t ∈ s.first_async_task, t.addr = p → t = t0 := fun t ht hta' =>
    List.inj_on_of_nodup_map h1 ht ht0 (hta'.trans ht0a.symm)
  constructor
  · simp only [liveAddrs]
    have e := updateTask_map_addr p
      (fun t : mysqla_task => { t with result := resultAfter outcome task.save t, done := true })
      (fun _ => rfl) s.first_async_task
    rw [e]; exact h1
  · have hA := boundAddrs_set_unbind s.first_async_connection c conn p hc hp
    have hB := runningAddrs_updateTask_done p
      (fun t => { t with result := resultAfter outcome task.save t, done := true })
      (fun _ => ⟨rfl, rfl⟩) s.first_async_task h1 hpr
    exact List.Perm.cons_inv ((hA.symm.trans h2).trans hB)
  · intro u hu hdone
    obtain ⟨t, htq', hcase⟩ := mem_updateTask _ _ _ u hu
    rcases hcase with ⟨_, rfl⟩ | ⟨hta', rfl⟩
    · exact h3 u htq' hdone
    · show t.started = true
      rw [huniq t htq' hta']; exact ht0s
  · exact h4.erase c
  · intro c' hc'
    obtain ⟨hne, hmem⟩ := (List.Nodup.mem_erase_iff h4).1 hc'
    obtain ⟨conn', hg, hb⟩ := h5 c' hmem
    refine ⟨conn', ?_, hb⟩
    show (s.first_async_connection.set c _).get? c' = some conn'
    rw [List.get?_eq_getElem?] at hg ⊢
    rw [List.getElem?_set_ne (Ne.symm hne)]; exact hg
  · intro u hu hsave
    obtain ⟨t, htq', hcase⟩ := mem_updateTask _ _ _ u hu
    rcases hcase with ⟨_, rfl⟩ | ⟨hta', rfl⟩
    · exact h6 u htq' hsave
    · have e1 : t = t0 := huniq t htq' hta'
      have e2 : task = t0 := huniq task htq hta
      have hsave' : t.save = false := hsave
      have hres : t.result = none := h6 t htq' hsave'
      show resultAfter outcome task.save t = none
      rw [e2, ← e1, hsave']
      cases outcome <;> simp [resultAfter, hres]

theorem taskSteps_map_addr {q q' : List mysqla_task} (h : List.Forall₂ TaskStep q q') :
    q'.map (·.addr) = q.map (·.addr) := by
  induction h with
  | nil => rfl
  | cons hst _ ih =>
    rw [List.map_cons, List.map_cons, ih]
    rcases hst with rfl | ⟨_, rfl⟩ <;> rfl

theorem taskSteps_mem {q q' : List mysqla_task} (h : List.Forall₂ TaskStep q q')
    (u : mysqla_task) (hu : u ∈ q') : ∃ t ∈ q, TaskStep t u := by
  induction h with
  | nil => simp at hu
  | cons hst _ ih =>
    rcases List.mem_cons.1 hu with rfl | hu
    · exact ⟨_, List.mem_cons_self _ _, hst⟩
    · obtain ⟨t, ht, hs⟩ := ih hu
      exact ⟨t, List.mem_cons_of_mem _ ht, hs⟩

theorem connSteps_bound {conns conns' : List mysqla_connection}
    (h : List.Forall₂ ConnStep conns conns') :
    ∀ (k : Nat) (c : mysqla_connection), conns.get? k = some c → c.task.isSome = true →
      ∃ c', conns'.get? k = some c' ∧ c'.task.isSome = true := by
  induction h with
  | nil => intro k c hk; simp at hk
  | cons hst _ ih =>
    intro k c hk hb
    cases k with
    | zero =>
      simp only [List.get?_cons_zero, Option.some.injEq] at hk
      subst hk
      rcases hst with rfl | ⟨hnone, _⟩
      · exact ⟨_, rfl, hb⟩
      · rw [hnone] at hb; simp at hb
    | succ k =>
      simp only [List.get?_cons_succ] at hk ⊢
      exact ih k c hk hb

theorem Inv_handlerCycle (s : State) (h : Inv s) (pc : Nat → Int) : Inv (handlerCycle s pc) := by
  obtain ⟨h1, h2, h3, h4, h5, h6⟩ := h
  obtain ⟨hT, hC⟩ := handlerLoop_steps pc s.first_async_task 0 s.first_async_connection
  obtain ⟨L, hL1, hL2⟩ := handlerLoop_matching pc s.first_async_task h3 0 s.first_async_connection
  obtain ⟨hW1, hW2⟩ := handlerLoop_workers pc s.first_async_task 0 s.first_async_connection
  constructor
  · simp only [liveAddrs, handlerCycle]
    rw [taskSteps_map_addr hT]; exact h1
  · exact (hL1.trans (List.Perm.append_left L h2)).trans hL2.symm
  · intro u hu hd
    obtain ⟨t, ht, hst⟩ := taskSteps_mem hT u hu
    rcases hst with rfl | ⟨_, rfl⟩
    · exact h3 _ ht hd
    · rfl
  · show (s.workers ++ _).Nodup
    refine List.Nodup.append h4 hW2 ?_
    intro i hi1 hi2
    obtain ⟨conn, hc, hb⟩ := h5 i hi1
    obtain ⟨k, c, c', hk, hg, hnone, _, _⟩ := hW1 i hi2
    have : k = i := by omega
    subst this
    rw [hg] at hc
    injection hc with hc
    subst hc
    rw [hnone] at hb; simp at hb
  · intro i hi
    rcases List.mem_append.1 hi with hi | hi
    · obtain ⟨conn, hc, hb⟩ := h5 i hi
      exact connSteps_bound hC i conn hc hb
    · obtain ⟨k, c, c', hk, _, _, hg', hb'⟩ := hW1 i hi
      have : k = i := by omega
      subst this
      exact ⟨c', hg', hb'⟩
  · intro u hu hsave
    obtain ⟨t, ht, hst⟩ := taskSteps_mem hT u hu
    rcases hst with rfl | ⟨_, rfl⟩
    · exact h6 _ ht hsave
    · exact h6 t ht hsave

theorem initConnections_idle (env : InitEnv) (n : Nat) :
    ∀ (i : Nat) (pool pool' : List mysqla_connection), (∀ c ∈ pool, c.task = none) →
      initConnections env n i pool = some pool' → ∀ c ∈ pool', c.task = none := by
  induction n with
  | zero =>
    intro i pool pool' h hp
    simp only [initConnections, Option.some.injEq] at hp
    subst hp; exact h
  | succ n ih =>
    intro i pool pool' h hp
    simp only [initConnections] at hp
    cases hc : env.mysql_real_connect i with
    | none => rw [hc] at hp; simp at hp
    | some handle =>
      rw [hc] at hp
      refine ih _ _ _ ?_ hp
      intro c hc
      rcases List.mem_cons.1 hc with rfl | hc
      · rfl
      · exact h c hc

theorem initConnections_length (env : InitEnv) (n : Nat) :
    ∀ (i : Nat) (pool pool' : List mysqla_connection),
      initConnections env n i pool = some pool' → pool'.length = n + pool.length := by
  induction n with
  | zero =>
    intro i pool pool' hp
    simp only [initConnections, Option.some.injEq] at hp
    subst hp; simp
  | succ n ih =>
    intro i pool pool' hp
    simp only [initConnections] at hp
    cases hc : env.mysql_real_connect i with
    | none => rw [hc] at hp; simp at hp
    | some handle =>
      rw [hc] at hp
      rw [ih _ _ _ hp]; simp; omega

/-- The connection loop returns exactly when every connect succeeds. -/
theorem initConnections_isSome (env : InitEnv) (n : Nat) :
    ∀ (i : Nat) (pool : List mysqla_connection),
      (initConnections env n i pool).isSome = true ↔
        ∀ j, j < n → (env.mysql_real_connect (i + j)).isSome = true := by
  induction n with
  | zero => intro i pool; simp [initConnections]
  | succ n ih =>
    intro i pool
    simp only [initConnections]
    cases hc : env.mysql_real_connect i with
    | none =>
      simp only [Option.isSome_none, Bool.false_eq_true, false_iff, not_forall]
      exact ⟨0, by omega, by simp [hc]⟩
    | some handle =>
      simp only []
      rw [ih]
      constructor
      · intro h j hj
        cases j with
        | zero => simp [hc]
        | succ j =>
          have := h j (by omega)
          rwa [show i + (j + 1) = i + 1 + j by omega]
      · intro h j hj
        have := h (j + 1) (by omega)
        rwa [show i + (j + 1) = i + 1 + j by omega] at this

/-- What a returning `gsc_mysqla_initializer` has done: nothing, or set the
callback only, or also built a pool of idle connections on an empty list and
possibly started the handler. -/
theorem initializer_cases (s : State) (args : InitArgs) (env : InitEnv)
    (r : State × List HostCall) (h : gsc_mysqla_initializer s args env = some r) :
    r.1 = s ∨ r.1 = { s with mysql_result_callback := args.callback } ∨
      ∃ pool s2, s.first_async_connection = [] ∧
        initConnections env args.connection_count.toNat 0 [] = some pool ∧
        s2 = { s with mysql_result_callback := args.callback, first_async_connection := pool } ∧
        (r.1 = s2 ∨ r.1 = mysqla_query_handler s2) := by
  unfold gsc_mysqla_initializer at h
  by_cases h0 : s.first_async_connection ≠ []
  · rw [if_pos h0, Option.some.injEq] at h; subst h; exact Or.inl rfl
  rw [if_neg h0] at h
  by_cases h1 : env.lockInit ≠ 0
  · rw [if_pos h1, Option.some.injEq] at h; subst h; exact Or.inl rfl
  rw [if_neg h1] at h
  by_cases h2 : env.fileLockInit ≠ 0
  · rw [if_pos h2, Option.some.injEq] at h; subst h; exact Or.inl rfl
  rw [if_neg h2] at h
  by_cases h3 : args.callback = -1
  · rw [if_pos h3, Option.some.injEq] at h; subst h; exact Or.inl rfl
  rw [if_neg h3] at h
  by_cases h4 : args.connection_count ≤ 0
  · simp only [h4, if_true, Option.some.injEq] at h
    subst h; exact Or.inr (Or.inl rfl)
  simp only [h4, if_false] at h
  have hpool : s.first_async_connection = [] := by simpa using h0
  rw [hpool] at h
  cases hp : initConnections env args.connection_count.toNat 0 [] with
  | none => rw [hp] at h; simp at h
  | some pool =>
    rw [hp] at h
    refine Or.inr (Or.inr ⟨pool, _, hpool, rfl, rfl, ?_⟩)
    by_cases h5 : env.handlerCreate ≠ 0
    · simp only [] at h
      rw [if_pos h5, Option.some.injEq] at h
      subst h; exact Or.inl rfl
    · simp only [] at h
      rw [if_neg h5, Option.some.injEq] at h
      subst h; exact Or.inr rfl

/-- An initialisation step is a returning call of `gsc_mysqla_initializer`. -/
theorem initializer_step (s s' : State) (args : InitArgs) (env : InitEnv)
    (hs : step s (Action.initializer args env) = some s') :
    ∃ calls, gsc_mysqla_initializer s args env = some (s', calls) := by
  simp only [step] at hs
  cases hr : gsc_mysqla_initializer s args env with
  | none => rw [hr] at hs; simp at hs
  | some r =>
    rw [hr, Option.map_some', Option.some.injEq] at hs
    subst hs; exact ⟨r.2, rfl⟩

theorem boundAddrs_of_idle (pool : List mysqla_connection) (h : ∀ c ∈ pool, c.task = none) :
    boundAddrs pool = [] := by
  induction pool with
  | nil => rfl
  | cons c cs ih =>
    rw [boundAddrs_cons_none c cs (h c (List.mem_cons_self _ _))]
    exact ih fun d hd => h d (List.mem_cons_of_mem _ hd)

theorem Inv_of_same (s s' : State) (h : Inv s)
    (h1 : s'.first_async_task = s.first_async_task)
    (h2 : s'.first_async_connection = s.first_async_connection)
    (h3 : s'.workers = s.workers) : Inv s' := by
  obtain ⟨a, b, c, d, e, f⟩ := h
  constructor
  · simpa [liveAddrs, h1] using a
  · rw [h1, h2]; exact b
  · rw [h1]; exact c
  · rw [h3]; exact d
  · rw [h3, h2]; exact e
  · rw [h1]; exact f

/-- The entry of the handler changes the started flag only. -/
theorem query_handler_frame (x : State) :
    (mysqla_query_handler x).first_async_task = x.first_async_task ∧
    (mysqla_query_handler x).first_async_connection = x.first_async_connection ∧
    (mysqla_query_handler x).workers = x.workers ∧
    (mysqla_query_handler x).mysql_result_callback = x.mysql_result_callback ∧
    (mysqla_query_handler x).host = x.host ∧
    (mysqla_query_handler x).errorLog = x.errorLog ∧
    (mysqla_query_handler x).queries = x.queries ∧
    (mysqla_query_handler x).queryId = x.queryId := by
  unfold mysqla_query_handler
  split
  · exact ⟨rfl, rfl, rfl, rfl, rfl, rfl, rfl, rfl⟩
  · split <;> exact ⟨rfl, rfl, rfl, rfl, rfl, rfl, rfl, rfl⟩

theorem Inv_initializer (s : State) (h : Inv s) (args : InitArgs) (env : InitEnv)
    (r : State × List HostCall) (hr : gsc_mysqla_initializer s args env = some r) :
    Inv r.1 := by
  rcases initializer_cases s args env r hr with h0 | h0 | ⟨pool, s2, hpool, hp, hs2, h0⟩
  · rw [h0]; exact h
  · rw [h0]; exact Inv_of_same s _ h rfl rfl rfl
  have hidle : ∀ c ∈ pool, c.task = none :=
    initConnections_idle env _ 0 [] pool (by simp) hp
  obtain ⟨a, b, c, d, e, f⟩ := h
  have hrun : runningAddrs s.first_async_task = [] := by
    rw [hpool] at b
    exact List.Perm.eq_nil (b.symm)
  have hw : s.workers = [] := by
    cases hws : s.workers with
    | nil => rfl
    | cons w ws =>
      obtain ⟨conn, hc, _⟩ := e w (by rw [hws]; exact List.mem_cons_self _ _)
      rw [hpool] at hc; simp at hc
  have key : Inv s2 := by
    subst hs2
    constructor
    · exact a
    · show (boundAddrs pool).Perm (runningAddrs s.first_async_task)
      rw [boundAddrs_of_idle _ hidle, hrun]
    · exact c
    · exact d
    · intro w hw'
      have hw2 : w ∈ s.workers := hw'
      rw [hw] at hw2
      simp at hw2
    · exact f
  rcases h0 with h0 | h0
  · rw [h0]; exact key
  · rw [h0]
    obtain ⟨q1, q2, q3, _⟩ := query_handler_frame s2
    exact Inv_of_same _ _ key q1 q2 q3

theorem Inv_step (s s' : State) (a : Action) (h : Inv s) (hs : step s a = some s') : Inv s' := by
  cases a with
  | initializer args env =>
    obtain ⟨calls, hr⟩ := initializer_step s s' args env hs
    exact Inv_initializer s h args env _ hr
  | create_level_query addr query saveResult =>
    simp only [step] at hs
    by_cases hm : addr ∈ liveAddrs s
    · simp [hm] at hs
    · simp only [hm, if_false, Option.some.injEq] at hs
      subst hs; exact Inv_enqueue s h _ _ _ _ hm
  | create_entity_query addr num query saveResult =>
    simp only [step] at hs
    by_cases hm : addr ∈ liveAddrs s
    · simp [hm] at hs
    · simp only [hm, if_false, Option.some.injEq] at hs
      subst hs; exact Inv_enqueue s h _ _ _ _ hm
  | handler_cycle pc =>
    simp only [step] at hs
    by_cases hst : s.started = true
    · simp only [hst, if_true, Option.some.injEq] at hs
      subst hs; exact Inv_handlerCycle s h pc
    · simp [hst] at hs
  | execute_query c outcome fopenOk =>
    simp only [step] at hs
    by_cases hm : c ∈ s.workers
    · simp only [hm, if_true] at hs
      exact Inv_execute_query s h c outcome fopenOk s' hs
    · simp [hm] at hs
  | handle_result_callbacks =>
    simp only [step, Option.some.injEq] at hs
    subst hs; exact Inv_collect s h
  | ondisconnect num =>
    simp only [step, Option.some.injEq] at hs
    subst hs; exact Inv_ondisconnect s h num

theorem Inv_run (acts : List Action) :
    ∀ (s s' : State), Inv s → run s acts = some s' → Inv s' := by
  induction acts with
  | nil => intro s s' h hr; simp only [run, Option.some.injEq] at hr; subst hr; exact h
  | cons a rest ih =>
    intro s s' h hr
    simp only [run] at hr
    cases hst : step s a with
    | none => rw [hst] at hr; simp at hr
    | some s1 =>
      rw [hst] at hr
      exact ih s1 s' (Inv_step s s1 a h hst) hr

theorem Inv_of_reachable (s : State) (h : Reachable s) : Inv s := by
  obtain ⟨acts, hr⟩ := h
  exact Inv_run acts State.start s Inv_start hr

theorem demoState_run : run State.start demoActs = some demoState := by decide

theorem demoState_shape :
    demoState.first_async_connection.map (·.task) = [some 100, some 101]
    ∧ demoState.first_async_task.map (fun t => (t.addr, t.taskId, t.started, t.done))
        = [(100, 1, true, false), (101, 2, true, false)]
    ∧ demoState.workers = [0, 1] := by decide

/-- C1: one cycle of `mysqla_query_handler` in which every `pthread_create`
succeeds marks as started exactly the first `min p i` not yet started tasks in
queue order, `p` being the number of not yet started tasks and `i` the number
of connections without a task before the cycle, and changes no other task. -/
theorem handler_cycle_starts_oldest_pending (s : State) (pthread_create : Nat → Int)
    (hspawn : ∀ i, pthread_create i = 0) :
    (handlerCycle s pthread_create).first_async_task
      = startFirst (min (pendingCount s.first_async_task) (idleCount s.first_async_connection))
          s.first_async_task :=
  handlerLoop_tasks_of_spawns_ok pthread_create hspawn s.first_async_task 0
    s.first_async_connection

/-- Scenario of C1: with a pool of one connection and the pending tasks 1, 2, 3
the cycles start task 1, then task 2, then task 3, one per cycle. -/
theorem handler_cycle_starts_oldest_pending_witness :
    (∀ i : Nat, (fun _ : Nat => (0 : Int)) i = 0)
    ∧ (handlerCycle scenarioState fun _ => 0).first_async_task
        = startFirst (min (pendingCount scenarioState.first_async_task)
            (idleCount scenarioState.first_async_connection)) scenarioState.first_async_task
    ∧ startedIds scenarioState = []
    ∧ (run scenarioState [Action.handler_cycle fun _ => 0]).map startedIds = some [1]
    ∧ (run scenarioState (scenarioRound ++ [Action.handler_cycle fun _ => 0])).map startedIds
        = some [1, 2]
    ∧ (run scenarioState (scenarioRound ++ scenarioRound ++ [Action.handler_cycle fun _ => 0])).map
        startedIds = some [1, 2, 3] :=
  ⟨fun _ => rfl, handler_cycle_starts_oldest_pending scenarioState (fun _ => 0) (fun _ => rfl),
    by decide, by decide, by decide, by decide⟩

theorem length_runningAddrs (q : List mysqla_task) :
    (runningAddrs q).length = (q.filter fun t => t.started && !t.done).length := by
  simp only [runningAddrs, List.length_map]
  rfl

/-- C2: in every reachable state the number of tasks that are started and not
done is at most the number of connections of the pool. -/
theorem running_tasks_le_pool (s : State) (h : Reachable s) :
    (s.first_async_task.filter fun t => t.started && !t.done).length
      ≤ s.first_async_connection.length := by
  have hinv := Inv_of_reachable s h
  rw [← length_runningAddrs, ← hinv.matching.length_eq]
  exact List.length_filterMap_le _ _

/-- Instance of C2: after the run `demoActs` two tasks run on a pool of two. -/
theorem running_tasks_le_pool_witness :
    Reachable demoState
    ∧ (demoState.first_async_task.filter fun t => t.started && !t.done).length
        ≤ demoState.first_async_connection.length :=
  ⟨⟨demoActs, demoState_run⟩, running_tasks_le_pool demoState ⟨demoActs, demoState_run⟩⟩

theorem boundAddrs_nodup_tail (d : mysqla_connection) (ds : List mysqla_connection)
    (h : (boundAddrs (d :: ds)).Nodup) : (boundAddrs ds).Nodup := by
  cases hd : d.task with
  | none => rwa [boundAddrs_cons_none d ds hd] at h
  | some a =>
    rw [boundAddrs_cons_some d ds a hd] at h
    exact (List.nodup_cons.1 h).2

theorem boundAddrs_head_not_mem (d : mysqla_connection) (ds : List mysqla_connection) (p : Nat)
    (h : (boundAddrs (d :: ds)).Nodup) (hd : d.task = some p) : p ∉ boundAddrs ds := by
  rw [boundAddrs_cons_some d ds p hd] at h
  exact (List.nodup_cons.1 h).1

theorem boundAddrs_index_unique (pool : List mysqla_connection) :
    (boundAddrs pool).Nodup →
    ∀ (i j : Nat) (ci cj : mysqla_connection) (p : Nat),
      pool.get? i = some ci → pool.get? j = some cj → ci.task = some p → cj.task = some p →
      i = j := by
  induction pool with
  | nil => intro _ i j ci cj p hi; simp at hi
  | cons d ds ih =>
    intro hnd i j ci cj p hi hj hci hcj
    cases i with
    | zero =>
      cases j with
      | zero => rfl
      | succ j =>
        simp only [List.get?_cons_zero, Option.some.injEq] at hi
        simp only [List.get?_cons_succ] at hj
        subst hi
        exact absurd (mem_boundAddrs ds j cj p hj hcj) (boundAddrs_head_not_mem _ ds p hnd hci)
    | succ i =>
      cases j with
      | zero =>
        simp only [List.get?_cons_zero, Option.some.injEq] at hj
        simp only [List.get?_cons_succ] at hi
        subst hj
        exact absurd (mem_boundAddrs ds i ci p hi hci) (boundAddrs_head_not_mem _ ds p hnd hcj)
      | succ j =>
        simp only [List.get?_cons_succ] at hi hj
        rw [ih (boundAddrs_nodup_tail d ds hnd) i j ci cj p hi hj hci hcj]

theorem runningAddrs_nodup (q : List mysqla_task) (h : (q.map (·.addr)).Nodup) :
    (runningAddrs q).Nodup :=
  List.Nodup.sublist (List.Sublist.map _ (List.filter_sublist _)) h

theorem mem_collected_of_not_done (s : State) (t : mysqla_task) (ht : t ∈ s.first_async_task)
    (hd : t.done = false) : t ∈ (mysql_handle_result_callbacks s).first_async_task := by
  by_cases hcb : s.mysql_result_callback = 0
  · simpa [mysql_handle_result_callbacks, hcb] using ht
  · rw [collector_keeps_not_done s hcb]
    exact List.mem_filter.2 ⟨ht, by simp [hd]⟩

/-- C3: in every reachable state no two connections are bound to the same
task, the live task records have pairwise different addresses, and the task a
connection is bound to is in the queue, started and not done, so that a
collector pass leaves it in the queue. -/
theorem bound_pairs_form_matching (s : State) (h : Reachable s) :
    (∀ (i j : Nat) (ci cj : mysqla_connection) (p : Nat),
      s.first_async_connection.get? i = some ci → s.first_async_connection.get? j = some cj →
      ci.task = some p → cj.task = some p → i = j)
    ∧ (liveAddrs s).Nodup
    ∧ (∀ (i : Nat) (ci : mysqla_connection) (p : Nat),
      s.first_async_connection.get? i = some ci → ci.task = some p →
      ∃ t, t ∈ s.first_async_task ∧ t.addr = p ∧ t.started = true ∧ t.done = false
        ∧ t ∈ (mysql_handle_result_callbacks s).first_async_task) := by
  have hinv := Inv_of_reachable s h
  have hnd : (boundAddrs s.first_async_connection).Nodup :=
    (List.Perm.nodup_iff hinv.matching).2 (runningAddrs_nodup _ hinv.addrs_nodup)
  refine ⟨boundAddrs_index_unique _ hnd, hinv.addrs_nodup, ?_⟩
  intro i ci p hi hci
  have hp : p ∈ runningAddrs s.first_async_task :=
    (List.Perm.mem_iff hinv.matching).1 (mem_boundAddrs _ i ci p hi hci)
  obtain ⟨t, ht, hta, hts, htd⟩ := mem_runningAddrs _ p hp
  exact ⟨t, ht, hta, hts, htd, mem_collected_of_not_done s t ht htd⟩

/-- Instance of C3: the state after the run `demoActs`, in which both
connections are bound. -/
theorem bound_pairs_form_matching_witness :
    Reachable demoState
    ∧ (∀ (i j : Nat) (ci cj : mysqla_connection) (p : Nat),
      demoState.first_async_connection.get? i = some ci →
      demoState.first_async_connection.get? j = some cj →
      ci.task = some p → cj.task = some p → i = j)
    ∧ (liveAddrs demoState).Nodup
    ∧ (∀ (i : Nat) (ci : mysqla_connection) (p : Nat),
      demoState.first_async_connection.get? i = some ci → ci.task = some p →
      ∃ t, t ∈ demoState.first_async_task ∧ t.addr = p ∧ t.started = true ∧ t.done = false
        ∧ t ∈ (mysql_handle_result_callbacks demoState).first_async_task) :=
  ⟨⟨demoActs, demoState_run⟩, bound_pairs_form_matching demoState ⟨demoActs, demoState_run⟩⟩

/-- C5: a collector pass with a registered callback leaves in the queue exactly
the tasks that were not done, in their order and unchanged, and removes every
done task, whether or not its callback was invoked. -/
theorem collector_removes_exactly_done (s : State) (h : s.mysql_result_callback ≠ 0) :
    (mysql_handle_result_callbacks s).first_async_task
      = s.first_async_task.filter fun t => !t.done := by
  simp [mysql_handle_result_callbacks, h, collectLoop_fst]

/-- Instance of C5: of the five tasks of `collectDemo` only the running one
stays, the done task of the disconnected entity included in the removal. -/
theorem collector_removes_exactly_done_witness :
    collectDemo.mysql_result_callback ≠ 0
    ∧ (mysql_handle_result_callbacks collectDemo).first_async_task
        = collectDemo.first_async_task.filter (fun t => !t.done)
    ∧ (mysql_handle_result_callbacks collectDemo).first_async_task
        = [mkTask 101 2 none false false none] :=
  ⟨by decide, collector_removes_exactly_done collectDemo (by decide), by decide⟩

/-- C6: the callback invocations of one collector pass are, in queue order, one
per done task that has no target or whose disconnected flag is unset: in
global scope without a target, on the target otherwise, with the two arguments
result-or-undefined and task id; a done task of a disconnected target causes
none, and tasks that are not done are skipped. -/
theorem collector_invocations_in_queue_order (s : State) (h : s.mysql_result_callback ≠ 0)
    (engine : Host) :
    (mysql_handle_result_callbacks s).host
        = s.host ++ (collectLoop s.mysql_result_callback s.first_async_task).2
    ∧ (engine.run (collectLoop s.mysql_result_callback s.first_async_task).2).invoked
        = engine.invoked ++
          (s.first_async_task.filter fun t => t.done).filterMap
            (invocationOf s.mysql_result_callback) := by
  refine ⟨?_, run_collectLoop _ _ engine⟩
  simp [mysql_handle_result_callbacks, h]

/-- Instance of C6: the pass over `collectDemo` calls the callback for the
tasks 1 (global scope), 3 (entity 3) and 5 (global scope, with its rows) and
not for task 4. -/
theorem collector_invocations_in_queue_order_witness :
    collectDemo.mysql_result_callback ≠ 0
    ∧ ((mysql_handle_result_callbacks collectDemo).host
        = collectDemo.host ++
            (collectLoop collectDemo.mysql_result_callback collectDemo.first_async_task).2
      ∧ (Host.run { stack := [], invoked := [] }
            (collectLoop collectDemo.mysql_result_callback
              collectDemo.first_async_task).2).invoked
          = [] ++ (collectDemo.first_async_task.filter fun t => t.done).filterMap
              (invocationOf collectDemo.mysql_result_callback))
    ∧ (collectDemo.first_async_task.filter fun t => t.done).filterMap
          (invocationOf collectDemo.mysql_result_callback)
        = [{ target := none, callback := 7, args := [ScrValue.undefined, ScrValue.int 1] },
           { target := some 3, callback := 7, args := [ScrValue.undefined, ScrValue.int 3] },
           { target := none, callback := 7,
             args := [ScrValue.array
                        [ScrValue.array [ScrValue.string "a".toList, ScrValue.undefined],
                         ScrValue.array [ScrValue.string [], ScrValue.string "b".toList]],
                      ScrValue.int 5] }] :=
  ⟨by decide,
    collector_invocations_in_queue_order collectDemo (by decide) { stack := [], invoked := [] },
    rfl⟩

theorem toInt32_succ (z : Int) : toInt32 (toInt32 z + 1) = toInt32 (z + 1) := by
  unfold toInt32; omega

theorem toInt32_of_lt (k : Int) (h0 : 0 ≤ k) (h1 : k < 2147483648) : toInt32 k = k := by
  unfold toInt32; omega

theorem toInt32_wrap (z : Int) : toInt32 (z + 4294967296) = toInt32 z := by
  unfold toInt32; omega

theorem toInt32_inj_of_close (a b : Int) (h : toInt32 a = toInt32 b)
    (h1 : a - b < 4294967296) (h2 : b - a < 4294967296) : a = b := by
  unfold toInt32 at h; omega

theorem issuedIds_succ (n : Nat) : issuedIds (n + 1) = issuedIds n ++ [toInt32 ((n : Int) + 1)] := by
  simp [issuedIds, List.range_succ]

theorem issuedIds_nodup (n : Nat) (h : n ≤ 4294967296) : (issuedIds n).Nodup := by
  unfold issuedIds
  refine List.Nodup.map_on ?_ (List.nodup_range n)
  intro x hx y hy hxy
  have hx' := List.mem_range.1 hx
  have hy' := List.mem_range.1 hy
  have := toInt32_inj_of_close ((x : Int) + 1) ((y : Int) + 1) hxy (by omega) (by omega)
  omega

theorem pushedIds_append (a b : List HostCall) :
    pushedIds (a ++ b) = pushedIds a ++ pushedIds b := by
  simp [pushedIds]

theorem pushedIds_cons (x : HostCall) (l : List HostCall) :
    pushedIds (x :: l) = (pushedInt x).toList ++ pushedIds l := by
  cases h : pushedInt x <;> simp [pushedIds, List.filterMap_cons, h]

theorem pushedIds_nil : pushedIds [] = [] := rfl

theorem pushedIds_pushResultFields (row : List (Option CString)) (n : Nat) :
    ∀ j, pushedIds (pushResultFields row n j) = [] := by
  induction n with
  | zero => intro j; rfl
  | succ n ih =>
    intro j
    simp only [pushResultFields, pushedIds_cons, ih]
    cases row.get? j with
    | none => rfl
    | some f => cases f <;> rfl

theorem pushedIds_pushResultRowsLoop (nf : Int) (rows : List (List (Option CString))) :
    pushedIds (pushResultRowsLoop nf rows) = [] := by
  induction rows with
  | nil => rfl
  | cons row rows ih =>
    simp only [pushResultRowsLoop, pushedIds_cons, pushedIds_append, pushedIds_pushResultFields,
      ih]
    rfl

theorem pushedIds_pushResultRows (r : MYSQL_RES) : pushedIds (pushResultRows r) = [] := by
  unfold pushResultRows
  rw [pushedIds_cons, pushedIds_pushResultRowsLoop]
  rfl

theorem pushedIds_handleDoneTask (cb : Int) (t : mysqla_task) :
    pushedIds (handleDoneTask cb t) = [t.taskId] := by
  cases t with
  | mk addr taskId result entity entityDisconnected done started save query =>
    unfold handleDoneTask
    rw [pushedIds_append, pushedIds_cons]
    cases result <;> cases entity <;> cases entityDisconnected <;>
      simp [pushedIds_pushResultRows, pushedIds_cons, pushedIds_nil, pushedInt]

theorem pushedIds_collectLoop (cb : Int) (q : List mysqla_task) :
    pushedIds (collectLoop cb q).2 = (q.filter fun t => t.done).map (·.taskId) := by
  induction q with
  | nil => rfl
  | cons t rest ih =>
    by_cases hd : t.done = true
    · simp only [collectLoop, hd, if_true, pushedIds_append, pushedIds_handleDoneTask, ih,
        List.filter_cons, List.map_cons]
      rfl
    · simpa [collectLoop, hd] using ih

theorem initializer_frame (s : State) (args : InitArgs) (env : InitEnv)
    (r : State × List HostCall) (h : gsc_mysqla_initializer s args env = some r) :
    r.1.first_async_task = s.first_async_task
    ∧ r.1.queryId = s.queryId
    ∧ r.1.host = s.host
    ∧ r.1.errorLog = s.errorLog
    ∧ r.1.queries = s.queries := by
  rcases initializer_cases s args env r h with h0 | h0 | ⟨pool, s2, _, _, hs2, h0⟩
  · rw [h0]; exact ⟨rfl, rfl, rfl, rfl, rfl⟩
  · rw [h0]; exact ⟨rfl, rfl, rfl, rfl, rfl⟩
  · obtain ⟨q1, _, _, _, q5, q6, q7, q8⟩ := query_handler_frame s2
    rcases h0 with h0 | h0
    · rw [h0, hs2]; exact ⟨rfl, rfl, rfl, rfl, rfl⟩
    · rw [h0, q1, q5, q6, q7, q8, hs2]; exact ⟨rfl, rfl, rfl, rfl, rfl⟩

/-- An initialisation step leaves the queue, the counter, the host, the error
log and the query record as they are. -/
theorem initializer_step_frame (s s' : State) (args : InitArgs) (env : InitEnv)
    (hs : step s (Action.initializer args env) = some s') :
    s'.first_async_task = s.first_async_task
    ∧ s'.queryId = s.queryId
    ∧ s'.host = s.host
    ∧ s'.errorLog = s.errorLog
    ∧ s'.queries = s.queries := by
  obtain ⟨calls, hr⟩ := initializer_step s s' args env hs
  exact initializer_frame s args env _ hr

/-- With a pool in place an initialisation step changes nothing. -/
theorem initializer_step_of_pool (s s' : State) (args : InitArgs) (env : InitEnv)
    (hpool : s.first_async_connection ≠ [])
    (hs : step s (Action.initializer args env) = some s') : s' = s := by
  obtain ⟨calls, hr⟩ := initializer_step s s' args env hs
  unfold gsc_mysqla_initializer at hr
  rw [if_pos hpool, Option.some.injEq, Prod.mk.injEq] at hr
  exact hr.1.symm

theorem taskSteps_map_taskId {q q' : List mysqla_task} (h : List.Forall₂ TaskStep q q') :
    q'.map (·.taskId) = q.map (·.taskId) := by
  induction h with
  | nil => rfl
  | cons hst _ ih =>
    rw [List.map_cons, List.map_cons, ih]
    rcases hst with rfl | ⟨_, rfl⟩ <;> rfl

theorem updateTask_map_taskId (p : Nat) (f : mysqla_task → mysqla_task)
    (hf : ∀ t, (f t).taskId = t.taskId) (q : List mysqla_task) :
    (updateTask p f q).map (·.taskId) = q.map (·.taskId) := by
  induction q with
  | nil => rfl
  | cons t ts ih =>
    rw [updateTask_cons, List.map_cons, List.map_cons, ih]
    by_cases h : t.addr = p <;> simp [h, hf]

theorem ondisconnect_map_taskId (s : State) (num : Int) :
    (gsc_mysqla_ondisconnect s num).first_async_task.map (·.taskId)
      = s.first_async_task.map (·.taskId) := by
  simp only [gsc_mysqla_ondisconnect, List.map_map]
  congr 1
  funext t
  simp only [Function.comp]
  split <;> rfl

theorem IdInv_enqueue (n : Nat) (s : State) (h : IdInv n s) (addr : Nat) (sql : CString)
    (entity : Option Int) (save : Bool) :
    IdInv (n + 1) (mysqla_query_initializer s addr sql entity save).1 := by
  obtain ⟨h1, h2⟩ := h
  have hid : toInt32 (s.queryId + 1) = toInt32 ((n : Int) + 1) := by
    rw [h1]; exact toInt32_succ _
  constructor
  · show toInt32 (s.queryId + 1) = toInt32 ((n + 1 : Nat) : Int)
    rw [hid]; norm_cast
  · show (pushedIds s.host ++ (linkAtTail _ s.first_async_task).map (·.taskId)).Perm _
    rw [linkAtTail_eq_append, List.map_append, ← List.append_assoc, issuedIds_succ]
    simp only [List.map_cons, List.map_nil, hid]
    exact List.Perm.append_right _ h2

theorem IdInv_collect (n : Nat) (s : State) (h : IdInv n s) :
    IdInv n (mysql_handle_result_callbacks s) := by
  by_cases hcb : s.mysql_result_callback = 0
  · simpa [mysql_handle_result_callbacks, hcb] using h
  obtain ⟨h1, h2⟩ := h
  constructor
  · simpa [mysql_handle_result_callbacks, hcb] using h1
  · rw [collector_keeps_not_done s hcb]
    have hh : (mysql_handle_result_callbacks s).host
        = s.host ++ (collectLoop s.mysql_result_callback s.first_async_task).2 := by
      simp [mysql_handle_result_callbacks, hcb]
    rw [hh, pushedIds_append, pushedIds_collectLoop, List.append_assoc, ← List.map_append]
    refine (List.Perm.append_left _ (List.Perm.map _ ?_)).trans h2
    have := List.filter_append_perm (fun t : mysqla_task => t.done) s.first_async_task
    simpa using this

theorem IdInv_step (n : Nat) (s s' : State) (a : Action) (h : IdInv n s)
    (hs : step s a = some s') : IdInv (n + (if isCreate a then 1 else 0)) s' := by
  cases a with
  | initializer args env =>
    obtain ⟨f1, f2, f3, _, _⟩ := initializer_step_frame s s' args env hs
    exact ⟨by rw [f2]; exact h.counter, by rw [f1, f3]; exact h.ids⟩
  | create_level_query addr query saveResult =>
    simp only [step] at hs
    by_cases hm : addr ∈ liveAddrs s
    · simp [hm] at hs
    · simp only [hm, if_false, Option.some.injEq] at hs
      subst hs; exact IdInv_enqueue n s h _ _ _ _
  | create_entity_query addr num query saveResult =>
    simp only [step] at hs
    by_cases hm : addr ∈ liveAddrs s
    · simp [hm] at hs
    · simp only [hm, if_false, Option.some.injEq] at hs
      subst hs; exact IdInv_enqueue n s h _ _ _ _
  | handler_cycle pc =>
    simp only [step] at hs
    by_cases hst : s.started = true
    · simp only [hst, if_true, Option.some.injEq] at hs
      subst hs
      refine ⟨h.counter, ?_⟩
      show (pushedIds s.host ++ (handlerLoop pc _ 0 _).1.map (·.taskId)).Perm _
      rw [taskSteps_map_taskId (handlerLoop_steps pc s.first_async_task 0 _).1]
      exact h.ids
    · simp [hst] at hs
  | execute_query c outcome fopenOk =>
    simp only [step] at hs
    by_cases hm : c ∈ s.workers
    · simp only [hm, if_true] at hs
      obtain ⟨conn, p, task, _, _, _, rfl⟩ := execute_query_eq s c outcome fopenOk s' hs
      refine ⟨h.counter, ?_⟩
      show (pushedIds s.host ++ (updateTask p _ s.first_async_task).map (·.taskId)).Perm _
      have e := updateTask_map_taskId p
        (fun t : mysqla_task => { t with result := resultAfter outcome task.save t, done := true })
        (fun _ => rfl) s.first_async_task
      rw [e]
      exact h.ids
    · simp [hm] at hs
  | handle_result_callbacks =>
    simp only [step, Option.some.injEq] at hs
    subst hs; exact IdInv_collect n s h
  | ondisconnect num =>
    simp only [step, Option.some.injEq] at hs
    subst hs
    refine ⟨h.counter, ?_⟩
    rw [ondisconnect_map_taskId]
    exact h.ids

theorem countCreates_cons (a : Action) (rest : List Action) :
    countCreates (a :: rest) = (if isCreate a then 1 else 0) + countCreates rest := by
  by_cases h : isCreate a = true <;> simp [countCreates, List.filter_cons, h]; omega

theorem IdInv_run (acts : List Action) :
    ∀ (n : Nat) (s s' : State), IdInv n s → run s acts = some s' →
      IdInv (n + countCreates acts) s' := by
  induction acts with
  | nil =>
    intro n s s' h hr
    simp only [run, Option.some.injEq] at hr
    subst hr; exact h
  | cons a rest ih =>
    intro n s s' h hr
    simp only [run] at hr
    cases hst : step s a with
    | none => rw [hst] at hr; simp at hr
    | some s1 =>
      rw [hst] at hr
      have := ih _ s1 s' (IdInv_step n s s1 a h hst) hr
      rw [countCreates_cons, ← Nat.add_assoc]
      exact this

theorem IdInv_start : IdInv 0 State.start := by
  constructor <;> simp [State.start, toInt32, pushedIds, issuedIds]

theorem queue_ids_nodup (n : Nat) (s : State) (h : IdInv n s) (hn : n ≤ 4294967296) :
    (pushedIds s.host ++ s.first_async_task.map (·.taskId)).Nodup :=
  (List.Perm.nodup_iff h.ids).2 (issuedIds_nodup n hn)

/-- C10: the `k`-th call of `mysqla_query_initializer` since process start
returns the 32-bit value of `k`, which is `k` itself, positive, for `k` below
2^31, and stores it as the id of the new task at the tail; as long as at most
2^32 tasks were created the ids in the queue are pairwise distinct, and the
call number `k + 2^32` gets the same id as the call number `k`. -/
theorem enqueue_returns_call_number (acts : List Action) (s : State)
    (h : run State.start acts = some s) (addr : Nat) (sql : CString) (entity : Option Int)
    (save : Bool) :
    (mysqla_query_initializer s addr sql entity save).2
        = toInt32 ((countCreates acts : Int) + 1)
    ∧ ((countCreates acts : Int) + 1 < 2147483648 →
        (mysqla_query_initializer s addr sql entity save).2 = (countCreates acts : Int) + 1
        ∧ 0 < (mysqla_query_initializer s addr sql entity save).2)
    ∧ ((mysqla_query_initializer s addr sql entity save).1.first_async_task.getLast?).map
        (·.taskId) = some (mysqla_query_initializer s addr sql entity save).2
    ∧ (countCreates acts + 1 ≤ 4294967296 →
        ((mysqla_query_initializer s addr sql entity save).1.first_async_task.map
          (·.taskId)).Nodup)
    ∧ toInt32 ((countCreates acts : Int) + 1 + 4294967296)
        = toInt32 ((countCreates acts : Int) + 1) := by
  have hid := IdInv_run acts 0 State.start s IdInv_start h
  rw [Nat.zero_add] at hid
  have hret : (mysqla_query_initializer s addr sql entity save).2
      = toInt32 ((countCreates acts : Int) + 1) := by
    show toInt32 (s.queryId + 1) = _
    rw [hid.counter]; exact toInt32_succ _
  refine ⟨hret, ?_, ?_, ?_, toInt32_wrap _⟩
  · intro hk
    rw [hret, toInt32_of_lt _ (by omega) hk]
    exact ⟨rfl, by omega⟩
  · show ((linkAtTail _ s.first_async_task).getLast?).map (·.taskId) = _
    rw [linkAtTail_eq_append]
    simp [mysqla_query_initializer]
  · intro hk
    have := queue_ids_nodup _ _ (IdInv_enqueue _ s hid addr sql entity save) hk
    exact List.Nodup.of_append_right this

/-- Instance of C10: after the two creations of `demoActs` the next call
returns 3. -/
theorem enqueue_returns_call_number_witness :
    run State.start demoActs = some demoState
    ∧ (mysqla_query_initializer demoState 102 "SELECT 2".toList none true).2
        = toInt32 ((countCreates demoActs : Int) + 1)
    ∧ (mysqla_query_initializer demoState 102 "SELECT 2".toList none true).2 = 3 :=
  ⟨demoState_run,
    (enqueue_returns_call_number demoActs demoState demoState_run 102 "SELECT 2".toList none
      true).1,
    by decide⟩

theorem uncapturedState_run : run State.start uncapturedActs = some uncapturedState := by
  decide

theorem getLast?_linkAtTail (n : mysqla_task) (q : List mysqla_task) :
    (linkAtTail n q).getLast? = some n := by
  rw [linkAtTail_eq_append]; simp

/-- C7: a task created with `saveResult <= 0` has its capture flag unset and no
result; in every reachable state, hence also once it is done and whatever the
outcome of its query was or will be, a queued task with the capture flag unset
has no result, and what the collector pushes first for it, the first argument
of its callback, is undefined. -/
theorem capture_disabled_delivers_undefined (s : State) (h : Reachable s) (t : mysqla_task)
    (ht : t ∈ s.first_async_task) (hsave : t.save = false) (callback : Int) :
    t.result = none
    ∧ resultValue t = ScrValue.undefined
    ∧ (handleDoneTask callback t).head? = some HostCall.stackPushUndefined
    ∧ (∀ inv, invocationOf callback t = some inv →
        inv.args = [ScrValue.undefined, ScrValue.int t.taskId])
    ∧ (∀ (c : Nat) (outcome : QueryOutcome) (fopenOk : Bool) (s' : State),
        mysqla_execute_query s c outcome fopenOk = some s' →
        ∀ u ∈ s'.first_async_task, u.save = false → u.result = none)
    ∧ (∀ (s0 : State) (addr : Nat) (num : Int) (query : CString) (saveResult : Int),
        saveResult ≤ 0 →
        ((gsc_mysqla_create_level_query s0 addr query saveResult).1.first_async_task.getLast?).map
            (fun u => (u.save, u.result)) = some (false, none)
        ∧ ((gsc_mysqla_create_entity_query s0 addr num query
              saveResult).1.first_async_task.getLast?).map
            (fun u => (u.save, u.result)) = some (false, none)) := by
  have hinv := Inv_of_reachable s h
  have hres : t.result = none := hinv.unsaved t ht hsave
  have hval : resultValue t = ScrValue.undefined := by simp [resultValue, hres]
  refine ⟨hres, hval, ?_, ?_, ?_, ?_⟩
  · simp [handleDoneTask, hres]
  · intro inv hinvoc
    unfold invocationOf at hinvoc
    cases he : t.entity with
    | none =>
      rw [he] at hinvoc
      simp only [Option.some.injEq] at hinvoc
      rw [← hinvoc, hval]
    | some e =>
      rw [he] at hinvoc
      by_cases hd : t.entityDisconnected = true
      · simp [hd] at hinvoc
      · simp only [hd, Bool.false_eq_true, if_false, Option.some.injEq] at hinvoc
        rw [← hinvoc, hval]
  · intro c outcome fopenOk s' hs'
    exact (Inv_execute_query s hinv c outcome fopenOk s' hs').unsaved
  · intro s0 addr num query saveResult hle
    have hdec : decide (saveResult > 0) = false := by simp; omega
    constructor
    · show ((linkAtTail _ s0.first_async_task).getLast?).map _ = _
      rw [getLast?_linkAtTail]; simp [hdec]
    · show ((linkAtTail _ s0.first_async_task).getLast?).map _ = _
      rw [getLast?_linkAtTail]; simp [hdec]

/-- Instance of C7: in `uncapturedActs` the database returns a row, and the
done task still has no result. -/
theorem capture_disabled_delivers_undefined_witness :
    Reachable uncapturedState ∧ uncapturedTask ∈ uncapturedState.first_async_task
    ∧ uncapturedTask.save = false
    ∧ uncapturedTask.result = none
    ∧ invocationOf 7 uncapturedTask
        = some { target := some 3, callback := 7,
                 args := [ScrValue.undefined, ScrValue.int 1] } :=
  ⟨⟨uncapturedActs, uncapturedState_run⟩, by decide, rfl,
    (capture_disabled_delivers_undefined uncapturedState ⟨uncapturedActs, uncapturedState_run⟩
      uncapturedTask (by decide) rfl 7).1,
    rfl⟩

theorem Fresh_step (s s' : State) (a : Action) (h : Fresh s) (hs : step s a = some s') :
    Fresh s' := by
  cases a with
  | initializer args env =>
    intro t ht; rw [(initializer_step_frame s s' args env hs).1] at ht; exact h t ht
  | create_level_query addr query saveResult =>
    simp only [step] at hs
    by_cases hm : addr ∈ liveAddrs s
    · simp [hm] at hs
    · simp only [hm, if_false, Option.some.injEq] at hs
      subst hs
      intro t ht
      have ht' : t ∈ linkAtTail _ s.first_async_task := ht
      rw [linkAtTail_eq_append, List.mem_append, List.mem_singleton] at ht'
      rcases ht' with ht' | rfl
      · exact h t ht'
      · intro _; rfl
  | create_entity_query addr num query saveResult =>
    simp only [step] at hs
    by_cases hm : addr ∈ liveAddrs s
    · simp [hm] at hs
    · simp only [hm, if_false, Option.some.injEq] at hs
      subst hs
      intro t ht
      have ht' : t ∈ linkAtTail _ s.first_async_task := ht
      rw [linkAtTail_eq_append, List.mem_append, List.mem_singleton] at ht'
      rcases ht' with ht' | rfl
      · exact h t ht'
      · intro _; rfl
  | handler_cycle pc =>
    simp only [step] at hs
    by_cases hst : s.started = true
    · simp only [hst, if_true, Option.some.injEq] at hs
      subst hs
      intro u hu
      obtain ⟨t, ht, hstep⟩ :=
        taskSteps_mem (handlerLoop_steps pc s.first_async_task 0 s.first_async_connection).1 u hu
      rcases hstep with rfl | ⟨_, rfl⟩
      · exact h _ ht
      · exact h t ht
    · simp [hst] at hs
  | execute_query c outcome fopenOk =>
    simp only [step] at hs
    by_cases hm : c ∈ s.workers
    · simp only [hm, if_true] at hs
      obtain ⟨conn, p, task, _, _, _, rfl⟩ := execute_query_eq s c outcome fopenOk s' hs
      intro u hu hd
      obtain ⟨t, ht, hcase⟩ := mem_updateTask _ _ _ u hu
      rcases hcase with ⟨_, rfl⟩ | ⟨_, rfl⟩
      · exact h u ht hd
      · exact absurd hd (by simp)
    · simp [hm] at hs
  | handle_result_callbacks =>
    simp only [step, Option.some.injEq] at hs
    subst hs
    by_cases hcb : s.mysql_result_callback = 0
    · simpa [mysql_handle_result_callbacks, hcb] using h
    · intro t ht
      rw [collector_keeps_not_done s hcb] at ht
      exact h t (List.mem_of_mem_filter ht)
  | ondisconnect num =>
    simp only [step, Option.some.injEq] at hs
    subst hs
    intro u hu
    simp only [gsc_mysqla_ondisconnect, List.mem_map] at hu
    obtain ⟨t, ht, rfl⟩ := hu
    have := h t ht
    split <;> simpa using this

theorem Fresh_run (acts : List Action) :
    ∀ (s s' : State), Fresh s → run s acts = some s' → Fresh s' := by
  induction acts with
  | nil => intro s s' h hr; simp only [run, Option.some.injEq] at hr; subst hr; exact h
  | cons a rest ih =>
    intro s s' h hr
    simp only [run] at hr
    cases hst : step s a with
    | none => rw [hst] at hr; simp at hr
    | some s1 =>
      rw [hst] at hr
      exact ih s1 s' (Fresh_step s s1 a h hst) hr

theorem Fresh_of_reachable (s : State) (h : Reachable s) : Fresh s := by
  obtain ⟨acts, hr⟩ := h
  exact Fresh_run acts State.start s (by intro t ht; simp [State.start] at ht) hr

theorem derefTask_of_mem (p : Nat) (q : List mysqla_task) (t : mysqla_task) (ht : t ∈ q)
    (hp : t.addr = p) : ∃ task, derefTask p q = some task := by
  unfold derefTask
  cases hf : q.find? fun t => t.addr = p with
  | some task => exact ⟨task, rfl⟩
  | none =>
    rw [List.find?_eq_none] at hf
    exact absurd (by simpa using hp) (hf t ht)

theorem execute_query_defined (s : State) (c : Nat) (conn : mysqla_connection) (p : Nat)
    (task : mysqla_task) (outcome : QueryOutcome) (fopenOk : Bool)
    (hc : s.first_async_connection.get? c = some conn) (hp : conn.task = some p)
    (ht : derefTask p s.first_async_task = some task) :
    mysqla_execute_query s c outcome fopenOk = some { s with
      first_async_task := updateTask p
        (fun t => { t with result := resultAfter outcome task.save t, done := true })
        s.first_async_task,
      first_async_connection := s.first_async_connection.set c { conn with task := none },
      errorLog := logAfter outcome fopenOk task.query s.errorLog,
      queries := s.queries ++ [(conn.connection, task.query)],
      workers := s.workers.erase c } := by
  cases hq : mysqla_execute_query s c outcome fopenOk with
  | none =>
    unfold mysqla_execute_query at hq
    rw [hc] at hq
    simp [hp, ht] at hq
  | some s' =>
    obtain ⟨conn', p', task', hc', hp', ht', rfl⟩ := execute_query_eq s c outcome fopenOk s' hq
    rw [hc] at hc'
    injection hc' with hc'
    subst hc'
    rw [hp] at hp'
    injection hp' with hp'
    subst hp'
    rw [ht] at ht'
    injection ht' with ht'
    subst ht'
    rfl

theorem query_infix_logEntry (query : CString) (error : Int) (strError : CString) :
    query <:+: logEntry query error strError
    ∧ fmtInt error <:+: logEntry query error strError := by
  constructor
  · exact ⟨"Query \"".toList,
      "\" caused error ".toList ++ fmtInt error ++ " (".toList ++ strError ++ ")\n".toList,
      by simp [logEntry, List.append_assoc]⟩
  · exact ⟨"Query \"".toList ++ query ++ "\" caused error ".toList,
      " (".toList ++ strError ++ ")\n".toList, by simp [logEntry, List.append_assoc]⟩

theorem failState_run : run State.start failActs = some failState := by decide

/-- C8, as the code has it: for a connection bound to a task in a reachable
state the thread function returns, marks exactly the task at the bound address
done, unbinds exactly that connection and issues exactly one `mysql_query`;
after a failed query the task has no result, the error log gains exactly the
one entry with the query text and the error code if the log file could be
opened and is unchanged otherwise, and the task is then delivered with
undefined and removed by the next collector pass with a registered callback. -/
theorem worker_finishes_bound_pair (s : State) (h : Reachable s) (c : Nat)
    (conn : mysqla_connection) (p : Nat)
    (hc : s.first_async_connection.get? c = some conn) (hp : conn.task = some p)
    (outcome : QueryOutcome) (fopenOk : Bool) :
    ∃ task s', task ∈ s.first_async_task ∧ task.addr = p
      ∧ (∀ u ∈ s.first_async_task, u.addr = p → u = task)
      ∧ mysqla_execute_query s c outcome fopenOk = some s'
      ∧ s'.first_async_connection = s.first_async_connection.set c { conn with task := none }
      ∧ s'.first_async_task = s.first_async_task.map (fun u =>
          if u.addr = p then { u with result := resultAfter outcome task.save u, done := true }
          else u)
      ∧ s'.queries = s.queries ++ [(conn.connection, task.query)]
      ∧ (∀ error strError, outcome = QueryOutcome.failed error strError →
          s'.errorLog = (if fopenOk then s.errorLog ++ logEntry task.query error strError
                         else s.errorLog)
          ∧ task.query <:+: logEntry task.query error strError
          ∧ fmtInt error <:+: logEntry task.query error strError
          ∧ { task with result := none, done := true } ∈ s'.first_async_task
          ∧ resultValue { task with result := none, done := true } = ScrValue.undefined
          ∧ (s'.mysql_result_callback ≠ 0 →
              ∀ u ∈ (mysql_handle_result_callbacks s').first_async_task, u.addr ≠ p)) := by
  have hinv := Inv_of_reachable s h
  have hpr : p ∈ runningAddrs s.first_async_task :=
    (List.Perm.mem_iff hinv.matching).1 (mem_boundAddrs _ c conn p hc hp)
  obtain ⟨t0, ht0, ht0a, _, ht0d⟩ := mem_runningAddrs _ p hpr
  obtain ⟨task, ht⟩ := derefTask_of_mem p _ t0 ht0 ht0a
  obtain ⟨htq, hta⟩ := derefTask_some p _ task ht
  have huniq : ∀ u ∈ s.first_async_task, u.addr = p → u = task := fun u hu hua =>
    List.inj_on_of_nodup_map hinv.addrs_nodup hu htq (hua.trans hta.symm)
  have hdef := execute_query_defined s c conn p task outcome fopenOk hc hp ht
  have htask0 : task.done = false := by rw [← huniq t0 ht0 ht0a]; exact ht0d
  have hres0 : task.result = none := Fresh_of_reachable s h task htq htask0
  refine ⟨task, _, htq, hta, huniq, hdef, rfl, rfl, rfl, ?_⟩
  intro error strError hout
  subst hout
  have hmem : ({ task with result := none, done := true } : mysqla_task)
      ∈ updateTask p (fun t => { t with
          result := resultAfter (QueryOutcome.failed error strError) task.save t,
          done := true }) s.first_async_task := by
    simp only [updateTask, List.mem_map]
    exact ⟨task, htq, by simp [hta, resultAfter, hres0]⟩
  refine ⟨?_, (query_infix_logEntry _ _ _).1, (query_infix_logEntry _ _ _).2, hmem, rfl, ?_⟩
  · show logAfter (QueryOutcome.failed error strError) fopenOk task.query s.errorLog
      = if fopenOk = true then s.errorLog ++ logEntry task.query error strError else s.errorLog
    rfl
  · intro hcb u hu hua
    rw [collector_keeps_not_done _ hcb] at hu
    obtain ⟨hu1, hu2⟩ := List.mem_filter.1 hu
    obtain ⟨t, _, hcase⟩ := mem_updateTask _ _ _ u hu1
    rcases hcase with ⟨hne, rfl⟩ | ⟨_, rfl⟩
    · exact hne hua
    · simp at hu2

/-- Instance of C8: the query `SELEC 1` fails on connection 0 and the log file
can be opened. -/
theorem worker_finishes_bound_pair_witness :
    Reachable failState
    ∧ failState.first_async_connection.get? 0 = some { task := some 101, connection := some 1 }
    ∧ (mysqla_execute_query failState 0 syntaxError true).map (fun s' => s'.errorLog)
        = some "Query \"SELEC 1\" caused error 1064 (syntax error)\n".toList
    ∧ ∃ task s', task ∈ failState.first_async_task ∧ task.addr = 101
      ∧ (∀ u ∈ failState.first_async_task, u.addr = 101 → u = task)
      ∧ mysqla_execute_query failState 0 syntaxError true = some s'
      ∧ s'.first_async_connection = failState.first_async_connection.set 0
          { task := none, connection := some 1 }
      ∧ s'.first_async_task = failState.first_async_task.map (fun u =>
          if u.addr = 101 then
            { u with result := resultAfter syntaxError task.save u, done := true }
          else u)
      ∧ s'.queries = failState.queries ++ [(some 1, task.query)]
      ∧ (∀ error strError, syntaxError = QueryOutcome.failed error strError →
          s'.errorLog = (if true then failState.errorLog ++ logEntry task.query error strError
                         else failState.errorLog)
          ∧ task.query <:+: logEntry task.query error strError
          ∧ fmtInt error <:+: logEntry task.query error strError
          ∧ { task with result := none, done := true } ∈ s'.first_async_task
          ∧ resultValue { task with result := none, done := true } = ScrValue.undefined
          ∧ (s'.mysql_result_callback ≠ 0 →
              ∀ u ∈ (mysql_handle_result_callbacks s').first_async_task, u.addr ≠ 101)) :=
  ⟨⟨failActs, failState_run⟩, by decide, by decide,
    worker_finishes_bound_pair failState ⟨failActs, failState_run⟩ 0
      { task := some 101, connection := some 1 } 101 (by decide) rfl syntaxError true⟩

/-- Counterexample to C8 as stated: the query `SELEC 1` fails on the bound
connection 0 of the reachable state `failState` while the log file cannot be
opened, and the error log stays as it was, so no entry is appended. -/
theorem worker_log_entry_counterexample :
    Reachable failState
    ∧ failState.first_async_connection.get? 0 = some { task := some 101, connection := some 1 }
    ∧ (mysqla_execute_query failState 0 syntaxError false).map (fun s' => s'.errorLog)
        = some failState.errorLog
    ∧ ¬ ∃ entry : CString, entry ≠ []
        ∧ (mysqla_execute_query failState 0 syntaxError false).map (fun s' => s'.errorLog)
          = some (failState.errorLog ++ entry) := by
  refine ⟨⟨failActs, failState_run⟩, by decide, by decide, ?_⟩
  rintro ⟨entry, hne, heq⟩
  have h0 : (mysqla_execute_query failState 0 syntaxError false).map (fun s' => s'.errorLog)
      = some [] := by decide
  rw [h0] at heq
  have hl : failState.errorLog = [] := by decide
  rw [hl] at heq
  simp only [Option.some.injEq, List.nil_append] at heq
  exact hne heq.symm

theorem removedBy_nil_of_subset (s s' : State)
    (h : ∀ t ∈ s.first_async_task, t.addr ∈ liveAddrs s') : removedBy s s' = [] := by
  unfold removedBy
  rw [List.filter_eq_nil_iff]
  intro t ht
  simpa using h t ht

theorem removedBy_nil_of_eq (s s' : State) (h : liveAddrs s' = liveAddrs s) :
    removedBy s s' = [] := by
  apply removedBy_nil_of_subset
  intro t ht
  rw [h]
  exact List.mem_map_of_mem _ ht

theorem ondisconnect_liveAddrs (s : State) (num : Int) :
    liveAddrs (gsc_mysqla_ondisconnect s num) = liveAddrs s := by
  simp only [liveAddrs, gsc_mysqla_ondisconnect, List.map_map]
  congr 1
  funext t
  simp only [Function.comp]
  split <;> rfl

theorem removedBy_collect (s : State) (hnd : (liveAddrs s).Nodup)
    (hcb : s.mysql_result_callback ≠ 0) :
    removedBy s (mysql_handle_result_callbacks s) = s.first_async_task.filter fun t => t.done := by
  unfold removedBy
  apply List.filter_congr
  intro t ht
  simp only [liveAddrs, collector_keeps_not_done s hcb]
  by_cases hd : t.done = true
  · rw [hd]
    simp only [decide_eq_true_eq, List.mem_map, List.mem_filter, not_exists, not_and]
    rintro u ⟨hu, hud⟩ hua
    have : u = t := List.inj_on_of_nodup_map hnd hu ht hua
    subst this
    simp [hd] at hud
  · have hd' : t.done = false := by simpa using hd
    rw [hd']
    simp only [decide_eq_false_iff_not, not_not, List.mem_map, List.mem_filter]
    exact ⟨t, ⟨ht, by simp [hd']⟩, rfl⟩

theorem step_removal (s s' : State) (a : Action) (hinv : Inv s) (hs : step s a = some s') :
    pushedIds s'.host = pushedIds s.host ++ (removedBy s s').map (·.taskId)
    ∧ (∀ t ∈ removedBy s s', t.done = true)
    ∧ (removedBy s s' ≠ [] → a = Action.handle_result_callbacks) := by
  have frame : ∀ (x : State), x.host = s.host → (∀ t ∈ s.first_async_task, t.addr ∈ liveAddrs x) →
      pushedIds x.host = pushedIds s.host ++ (removedBy s x).map (·.taskId)
      ∧ (∀ t ∈ removedBy s x, t.done = true)
      ∧ (removedBy s x ≠ [] → a = Action.handle_result_callbacks) := by
    intro x hx hsub
    rw [removedBy_nil_of_subset s x hsub, hx]
    simp
  cases a with
  | initializer args env =>
    obtain ⟨f1, _, f3, _, _⟩ := initializer_step_frame s s' args env hs
    exact frame _ f3 (fun t ht => by
      simp only [liveAddrs, f1]; exact List.mem_map_of_mem _ ht)
  | create_level_query addr query saveResult =>
    simp only [step] at hs
    by_cases hm : addr ∈ liveAddrs s
    · simp [hm] at hs
    · simp only [hm, if_false, Option.some.injEq] at hs
      subst hs
      refine frame _ rfl (fun t ht => ?_)
      show t.addr ∈ (linkAtTail _ s.first_async_task).map (·.addr)
      rw [linkAtTail_eq_append, List.map_append]
      exact List.mem_append_left _ (List.mem_map_of_mem _ ht)
  | create_entity_query addr num query saveResult =>
    simp only [step] at hs
    by_cases hm : addr ∈ liveAddrs s
    · simp [hm] at hs
    · simp only [hm, if_false, Option.some.injEq] at hs
      subst hs
      refine frame _ rfl (fun t ht => ?_)
      show t.addr ∈ (linkAtTail _ s.first_async_task).map (·.addr)
      rw [linkAtTail_eq_append, List.map_append]
      exact List.mem_append_left _ (List.mem_map_of_mem _ ht)
  | handler_cycle pc =>
    simp only [step] at hs
    by_cases hst : s.started = true
    · simp only [hst, if_true, Option.some.injEq] at hs
      subst hs
      refine frame _ rfl (fun t ht => ?_)
      show t.addr ∈ (handlerLoop pc _ 0 _).1.map (·.addr)
      rw [taskSteps_map_addr (handlerLoop_steps pc s.first_async_task 0 _).1]
      exact List.mem_map_of_mem _ ht
    · simp [hst] at hs
  | execute_query c outcome fopenOk =>
    simp only [step] at hs
    by_cases hm : c ∈ s.workers
    · simp only [hm, if_true] at hs
      obtain ⟨conn, p, task, _, _, _, rfl⟩ := execute_query_eq s c outcome fopenOk s' hs
      refine frame _ rfl (fun t ht => ?_)
      have e := updateTask_map_addr p
        (fun t : mysqla_task => { t with result := resultAfter outcome task.save t, done := true })
        (fun _ => rfl) s.first_async_task
      show t.addr ∈ (updateTask p _ s.first_async_task).map (·.addr)
      rw [e]
      exact List.mem_map_of_mem _ ht
    · simp [hm] at hs
  | handle_result_callbacks =>
    simp only [step, Option.some.injEq] at hs
    subst hs
    by_cases hcb : s.mysql_result_callback = 0
    · have e : mysql_handle_result_callbacks s = s := by simp [mysql_handle_result_callbacks, hcb]
      rw [e]
      exact frame s rfl (fun t ht => List.mem_map_of_mem _ ht)
    · rw [removedBy_collect s hinv.addrs_nodup hcb]
      refine ⟨?_, fun t ht => (List.mem_filter.1 ht).2, fun _ => rfl⟩
      have hh : (mysql_handle_result_callbacks s).host
          = s.host ++ (collectLoop s.mysql_result_callback s.first_async_task).2 := by
        simp [mysql_handle_result_callbacks, hcb]
      rw [hh, pushedIds_append, pushedIds_collectLoop]
  | ondisconnect num =>
    simp only [step, Option.some.injEq] at hs
    subst hs
    refine frame _ rfl (fun t ht => ?_)
    rw [ondisconnect_liveAddrs]
    exact List.mem_map_of_mem _ ht

theorem step_host (s s' : State) (a : Action) (hs : step s a = some s') :
    s'.host = s.host ∨ s' = mysql_handle_result_callbacks s := by
  cases a with
  | initializer args env =>
    exact Or.inl (initializer_step_frame s s' args env hs).2.2.1
  | create_level_query addr query saveResult =>
    simp only [step] at hs
    by_cases hm : addr ∈ liveAddrs s
    · simp [hm] at hs
    · simp only [hm, if_false, Option.some.injEq] at hs
      subst hs; exact Or.inl rfl
  | create_entity_query addr num query saveResult =>
    simp only [step] at hs
    by_cases hm : addr ∈ liveAddrs s
    · simp [hm] at hs
    · simp only [hm, if_false, Option.some.injEq] at hs
      subst hs; exact Or.inl rfl
  | handler_cycle pc =>
    simp only [step] at hs
    by_cases hst : s.started = true
    · simp only [hst, if_true, Option.some.injEq] at hs
      subst hs; exact Or.inl rfl
    · simp [hst] at hs
  | execute_query c outcome fopenOk =>
    simp only [step] at hs
    by_cases hm : c ∈ s.workers
    · simp only [hm, if_true] at hs
      obtain ⟨conn, p, task, _, _, _, rfl⟩ := execute_query_eq s c outcome fopenOk s' hs
      exact Or.inl rfl
    · simp [hm] at hs
  | handle_result_callbacks =>
    simp only [step, Option.some.injEq] at hs
    exact Or.inr hs.symm
  | ondisconnect num =>
    simp only [step, Option.some.injEq] at hs
    subst hs; exact Or.inl rfl

theorem invocationOf_args (cb : Int) (t : mysqla_task) (inv : Invocation)
    (h : invocationOf cb t = some inv) : inv.args = [resultValue t, ScrValue.int t.taskId] := by
  unfold invocationOf at h
  cases he : t.entity with
  | none =>
    rw [he] at h
    simp only [Option.some.injEq] at h
    rw [← h]
  | some e =>
    rw [he] at h
    by_cases hd : t.entityDisconnected = true
    · simp [hd] at h
    · simp only [hd, Bool.false_eq_true, if_false, Option.some.injEq] at h
      rw [← h]

theorem invocationId_of_args (inv : Invocation) (v : ScrValue) (i : Int)
    (h : inv.args = [v, ScrValue.int i]) : invocationId inv = some i := by
  simp [invocationId, h]

theorem delivered_ids_sublist (cb : Int) (l : List mysqla_task) :
    ((l.filterMap (invocationOf cb)).filterMap invocationId).Sublist (l.map (·.taskId)) := by
  induction l with
  | nil => exact List.Sublist.slnil
  | cons t l ih =>
    cases hi : invocationOf cb t with
    | none =>
      rw [List.filterMap_cons_none hi, List.map_cons]
      exact List.Sublist.cons _ ih
    | some inv =>
      rw [List.filterMap_cons_some hi,
        List.filterMap_cons_some (invocationId_of_args inv _ _ (invocationOf_args cb t inv hi)),
        List.map_cons]
      exact List.Sublist.cons₂ _ ih

theorem Delivered_nil : Delivered [] [] :=
  ⟨fun engine => by simp [Host.run_nil], fun inv h => by simp at h, List.Sublist.slnil⟩

theorem Delivered_collect (s : State) (I : List Invocation) (h : Delivered s.host I) :
    ∃ I', Delivered (mysql_handle_result_callbacks s).host I' := by
  by_cases hcb : s.mysql_result_callback = 0
  · exact ⟨I, by simpa [mysql_handle_result_callbacks, hcb] using h⟩
  obtain ⟨h1, h2, h3⟩ := h
  have hh : (mysql_handle_result_callbacks s).host
      = s.host ++ (collectLoop s.mysql_result_callback s.first_async_task).2 := by
    simp [mysql_handle_result_callbacks, hcb]
  refine ⟨I ++ (s.first_async_task.filter fun t => t.done).filterMap
    (invocationOf s.mysql_result_callback), ?_, ?_, ?_⟩
  · intro engine
    rw [hh, Host.run_append, run_collectLoop, h1, List.append_assoc]
  · intro inv hinv
    rcases List.mem_append.1 hinv with hinv | hinv
    · exact h2 inv hinv
    · obtain ⟨t, _, ht⟩ := List.mem_filterMap.1 hinv
      exact ⟨_, _, invocationOf_args _ t inv ht⟩
  · rw [hh, pushedIds_append, pushedIds_collectLoop, List.filterMap_append]
    exact List.Sublist.append h3 (delivered_ids_sublist _ _)

theorem Delivered_run (acts : List Action) :
    ∀ (s s' : State), (∃ I, Delivered s.host I) → run s acts = some s' →
      ∃ I, Delivered s'.host I := by
  induction acts with
  | nil => intro s s' h hr; simp only [run, Option.some.injEq] at hr; subst hr; exact h
  | cons a rest ih =>
    intro s s' h hr
    simp only [run] at hr
    cases hst : step s a with
    | none => rw [hst] at hr; simp at hr
    | some s1 =>
      rw [hst] at hr
      refine ih s1 s' ?_ hr
      obtain ⟨I, hI⟩ := h
      rcases step_host s s1 a hst with e | e
      · exact ⟨I, by rw [e]; exact hI⟩
      · rw [e]; exact Delivered_collect s I hI

theorem length_filterMap_of_isSome {α β : Type} (f : α → Option β) (l : List α)
    (h : ∀ a ∈ l, ∃ b, f a = some b) : (l.filterMap f).length = l.length := by
  induction l with
  | nil => rfl
  | cons a l ih =>
    obtain ⟨b, hb⟩ := h a (List.mem_cons_self _ _)
    rw [List.filterMap_cons_some hb, List.length_cons, List.length_cons,
      ih fun x hx => h x (List.mem_cons_of_mem _ hx)]

/-- C4: over every run from process start with fewer than 2^32 task creations
the callback is invoked at most once for each task id; the ids of the removed
tasks, each pushed by the collector when it removes the task, and the ids in
the queue are pairwise distinct, so a task is removed once and does not come
back; and a step removes tasks only in a collector pass and only done ones. -/
theorem tasks_delivered_and_removed_once (acts : List Action) (s : State)
    (h : run State.start acts = some s) (hn : countCreates acts < 4294967296) :
    (∃ I : List Invocation,
        (∀ engine : Host, (engine.run s.host).invoked = engine.invoked ++ I)
        ∧ (I.filterMap invocationId).length = I.length
        ∧ (I.filterMap invocationId).Nodup)
    ∧ (pushedIds s.host ++ s.first_async_task.map (·.taskId)).Nodup
    ∧ (∀ (a : Action) (s' : State), step s a = some s' →
        pushedIds s'.host = pushedIds s.host ++ (removedBy s s').map (·.taskId)
        ∧ (∀ t ∈ removedBy s s', t.done = true)
        ∧ (removedBy s s' ≠ [] → a = Action.handle_result_callbacks)) := by
  have hid := IdInv_run acts 0 State.start s IdInv_start h
  rw [Nat.zero_add] at hid
  have hnd := queue_ids_nodup _ s hid (by omega)
  have hinv := Inv_run acts State.start s Inv_start h
  obtain ⟨I, h1, h2, h3⟩ := Delivered_run acts State.start s ⟨[], Delivered_nil⟩ h
  refine ⟨⟨I, h1, ?_, ?_⟩, hnd, fun a s' hs => step_removal s s' a hinv hs⟩
  · apply length_filterMap_of_isSome
    intro inv hinv'
    obtain ⟨v, i, hvi⟩ := h2 inv hinv'
    exact ⟨i, invocationId_of_args inv v i hvi⟩
  · exact List.Sublist.nodup h3 (List.Nodup.of_append_left hnd)

theorem deliveredState_run : run State.start deliveredActs = some deliveredState := by decide

theorem tasks_delivered_and_removed_once_witness :
    run State.start deliveredActs = some deliveredState
    ∧ countCreates deliveredActs < 4294967296
    ∧ pushedIds deliveredState.host = [1]
    ∧ ((∃ I : List Invocation,
        (∀ engine : Host, (engine.run deliveredState.host).invoked = engine.invoked ++ I)
        ∧ (I.filterMap invocationId).length = I.length
        ∧ (I.filterMap invocationId).Nodup)
      ∧ (pushedIds deliveredState.host
          ++ deliveredState.first_async_task.map (·.taskId)).Nodup
      ∧ (∀ (a : Action) (s' : State), step deliveredState a = some s' →
        pushedIds s'.host
          = pushedIds deliveredState.host ++ (removedBy deliveredState s').map (·.taskId)
        ∧ (∀ t ∈ removedBy deliveredState s', t.done = true)
        ∧ (removedBy deliveredState s' ≠ [] → a = Action.handle_result_callbacks))) :=
  ⟨deliveredState_run, by decide, by decide,
    tasks_delivered_and_removed_once deliveredActs deliveredState deliveredState_run (by decide)⟩

theorem markDisconnected_eq (e : Int) (t : mysqla_task) :
    (if t.entity = some e then { t with entityDisconnected := true } else t)
      = markDisconnected e t := by
  cases t with
  | mk addr taskId result entity entityDisconnected done started save query =>
    by_cases h : entity = some e <;> simp [markDisconnected, h]

theorem markDisconnected_idem (e : Int) (t : mysqla_task) :
    markDisconnected e (markDisconnected e t) = markDisconnected e t := by
  cases t with
  | mk addr taskId result entity entityDisconnected done started save query =>
    by_cases h : entity = some e <;> simp [markDisconnected, h]

theorem markDisconnected_of_ne (e : Int) (t : mysqla_task) (h : t.entity ≠ some e) :
    markDisconnected e t = t := by
  cases t with
  | mk addr taskId result entity entityDisconnected done started save query =>
    simp only at h
    simp [markDisconnected, h]

theorem ondisconnect_eq (s : State) (e : Int) :
    gsc_mysqla_ondisconnect s e
      = { s with first_async_task := s.first_async_task.map (markDisconnected e) } := by
  unfold gsc_mysqla_ondisconnect
  congr 1
  exact List.map_congr_left fun t _ => markDisconnected_eq e t

theorem digitChar_ne_newline (d : Nat) (h : d < 10) : Nat.digitChar d ≠ '\n' := by
  interval_cases d <;> decide

theorem toDigitsCore_ne_newline (fuel : Nat) : ∀ (n : Nat) (ds : List Char),
    (∀ ch ∈ ds, ch ≠ '\n') → ∀ ch ∈ Nat.toDigitsCore 10 fuel n ds, ch ≠ '\n' := by
  induction fuel with
  | zero => intro n ds h; simpa [Nat.toDigitsCore] using h
  | succ fuel ih =>
    intro n ds h
    have hcons : ∀ ch ∈ Nat.digitChar (n % 10) :: ds, ch ≠ '\n' := by
      intro ch hch
      rcases List.mem_cons.1 hch with rfl | hch
      · exact digitChar_ne_newline _ (Nat.mod_lt _ (by decide))
      · exact h _ hch
    simp only [Nat.toDigitsCore]
    split_ifs
    · exact hcons
    · exact ih _ _ hcons

theorem repr_ne_newline (n : Nat) : ∀ ch ∈ (Nat.repr n).toList, ch ≠ '\n' := by
  show ∀ ch ∈ Nat.toDigits 10 n, ch ≠ '\n'
  exact toDigitsCore_ne_newline _ _ _ (by simp)

theorem int_toString_ne_newline (i : Int) : ∀ ch ∈ (toString i).toList, ch ≠ '\n' := by
  cases i with
  | ofNat n => exact repr_ne_newline n
  | negSucc n =>
    show ∀ ch ∈ ("-" ++ Nat.repr (n + 1)).toList, ch ≠ '\n'
    intro ch hch
    rw [String.toList, String.data_append] at hch
    rcases List.mem_append.1 hch with h | h
    · simp at h; subst h; decide
    · exact repr_ne_newline _ ch h

/-- C11: the query text stored in the task that `mysqla_query_initializer`
appends is the first `min (length sql) 1024` characters of `sql`: the whole of
`sql` if it has at most 1024 characters and exactly its first 1024 otherwise.
The function is total, and both GSC entry points are instances of it. -/
theorem enqueue_stores_truncated_query (s : State) (addr : Nat) (sql : CString)
    (entity : Option Int) (save : Bool) :
    (∃ t, (mysqla_query_initializer s addr sql entity save).1.first_async_task
          = s.first_async_task ++ [t]
        ∧ t.query = sql.take (min sql.length 1024)
        ∧ t.query.length = min sql.length 1024
        ∧ (sql.length ≤ 1024 → t.query = sql)
        ∧ (1024 < sql.length → t.query = sql.take 1024 ∧ t.query.length = 1024))
    ∧ (∀ saveResult : Int, gsc_mysqla_create_level_query s addr sql saveResult
        = mysqla_query_initializer s addr sql none (decide (saveResult > 0)))
    ∧ (∀ (num saveResult : Int), gsc_mysqla_create_entity_query s addr num sql saveResult
        = mysqla_query_initializer s addr sql (some num) (decide (saveResult > 0))) := by
  refine ⟨⟨_, linkAtTail_eq_append _ _, ?_, ?_, ?_, ?_⟩, fun _ => rfl, fun _ _ => rfl⟩
  · show sql.take (1024 + 1 - 1) = _
    rw [List.take_eq_take]
    omega
  · show (sql.take (1024 + 1 - 1)).length = _
    rw [List.length_take]
    exact Nat.min_comm _ _
  · intro h
    show sql.take (1024 + 1 - 1) = _
    exact List.take_of_length_le (by simpa using h)
  · intro h
    refine ⟨rfl, ?_⟩
    show (sql.take (1024 + 1 - 1)).length = _
    rw [List.length_take]
    simp; omega

/-- C13: when a pool already exists, `gsc_mysqla_initializer` returns the state
it was called in, whatever its arguments and whatever the environment answers:
the pool, the registered callback and the task queue are as they were. -/
theorem second_initialize_changes_nothing (s : State) (args : InitArgs) (env : InitEnv)
    (h : s.first_async_connection ≠ []) :
    gsc_mysqla_initializer s args env = some (s, [HostCall.stackPushUndefined])
    ∧ step s (Action.initializer args env) = some s := by
  have e : gsc_mysqla_initializer s args env = some (s, [HostCall.stackPushUndefined]) := by
    unfold gsc_mysqla_initializer
    rw [if_pos h]
  refine ⟨e, ?_⟩
  show (gsc_mysqla_initializer s args env).map (·.1) = some s
  rw [e]; rfl

theorem second_initialize_changes_nothing_witness :
    demoState.first_async_connection ≠ []
    ∧ gsc_mysqla_initializer demoState (poolArgs 5) okEnv
        = some (demoState, [HostCall.stackPushUndefined])
    ∧ step demoState (Action.initializer (poolArgs 5) okEnv) = some demoState :=
  ⟨by decide, second_initialize_changes_nothing demoState (poolArgs 5) okEnv (by decide)⟩

/-- C16: `gsc_mysqla_ondisconnect` replaces the disconnected flag of every task
by (old flag or the task's entity is the given one) and changes nothing else:
the other fields of each task, the length and order of the queue and the rest
of the state are as before. Calling it twice equals calling it once, and it is
the identity when no queued task is on that entity. -/
theorem ondisconnect_sets_flag_only (s : State) (e : Int) :
    gsc_mysqla_ondisconnect s e
      = { s with first_async_task := s.first_async_task.map fun t =>
            { t with entityDisconnected := t.entityDisconnected || decide (t.entity = some e) } }
    ∧ (gsc_mysqla_ondisconnect s e).first_async_task.length = s.first_async_task.length
    ∧ (gsc_mysqla_ondisconnect s e).first_async_task.map (·.addr)
        = s.first_async_task.map (·.addr)
    ∧ gsc_mysqla_ondisconnect (gsc_mysqla_ondisconnect s e) e = gsc_mysqla_ondisconnect s e
    ∧ ((∀ t ∈ s.first_async_task, t.entity ≠ some e) → gsc_mysqla_ondisconnect s e = s) := by
  refine ⟨ondisconnect_eq s e, ?_, ?_, ?_, ?_⟩
  · rw [ondisconnect_eq]; simp
  · rw [ondisconnect_eq]
    show (s.first_async_task.map (markDisconnected e)).map (·.addr) = _
    rw [List.map_map]
    exact List.map_congr_left fun t _ => rfl
  · rw [ondisconnect_eq, ondisconnect_eq]
    show ({ s with first_async_task :=
        (s.first_async_task.map (markDisconnected e)).map (markDisconnected e) } : State) = _
    rw [List.map_map]
    congr 1
    exact List.map_congr_left fun t _ => markDisconnected_idem e t
  · intro h
    rw [ondisconnect_eq]
    have : s.first_async_task.map (markDisconnected e) = s.first_async_task := by
      conv_rhs => rw [← List.map_id s.first_async_task]
      exact List.map_congr_left fun t ht => markDisconnected_of_ne e t (h t ht)
    rw [this]

/-- C18, as the code has it: when the log file can be opened for appending,
`log_mysql_error` leaves its content in place and appends the text
`Query "q" caused error c (m)` with `c` in decimal, followed by a newline; that
text is a single line when neither `q` nor `m` contains a newline. When the
file cannot be opened it is left as it is. -/
theorem log_mysql_error_appends_entry (file q : CString) (c : Int) (m : CString) :
    log_mysql_error file true q c m = file ++ logLine q c m ++ ['\n']
    ∧ ((∀ ch ∈ q, ch ≠ '\n') → (∀ ch ∈ m, ch ≠ '\n') → ∀ ch ∈ logLine q c m, ch ≠ '\n')
    ∧ log_mysql_error file false q c m = file := by
  refine ⟨?_, ?_, ?_⟩
  · simp [log_mysql_error, logEntry, logLine, fmtInt]
  · intro hq hm ch hch
    unfold logLine at hch
    simp only [List.mem_append] at hch
    rcases hch with ((((((h | h) | h) | h) | h) | h) | h)
    · intro e; subst e; revert h; decide
    · exact hq ch h
    · intro e; subst e; revert h; decide
    · exact int_toString_ne_newline c ch h
    · intro e; subst e; revert h; decide
    · exact hm ch h
    · intro e; subst e; revert h; decide
  · simp [log_mysql_error]

/-- C18 fails as stated: when `fopen` returns NULL nothing is written. -/
theorem log_mysql_error_counterexample :
    log_mysql_error "old\n".toList false "SELEC 1".toList 1064 "syntax error".toList
      = "old\n".toList
    ∧ log_mysql_error "old\n".toList false "SELEC 1".toList 1064 "syntax error".toList
      ≠ "old\n".toList ++ "Query \"SELEC 1\" caused error 1064 (syntax error)\n".toList := by
  decide

theorem initializer_accepts (s : State) (args : InitArgs) (env : InitEnv)
    (hpool : s.first_async_connection = []) (hl : env.lockInit = 0) (hf : env.fileLockInit = 0)
    (hcb : args.callback ≠ -1) (hn : 0 < args.connection_count) :
    (∀ pool, initConnections env args.connection_count.toNat 0 [] = some pool →
      ∃ r, gsc_mysqla_initializer s args env = some r
        ∧ r.1.mysql_result_callback = args.callback
        ∧ r.1.first_async_connection = pool
        ∧ HostCall.stackPushUndefined ∉ r.2)
    ∧ (initConnections env args.connection_count.toNat 0 [] = none →
        gsc_mysqla_initializer s args env = none) := by
  have hn' : ¬ args.connection_count ≤ 0 := not_le.2 hn
  constructor
  · intro pool hp
    unfold gsc_mysqla_initializer
    simp only [hpool, hl, hf, hcb, hn', hp, ne_eq, not_true_eq_false, if_false]
    by_cases h5 : env.handlerCreate = 0
    · simp only [h5, not_true_eq_false, if_false]
      obtain ⟨_, q2, _, q4, _⟩ := query_handler_frame
        { s with mysql_result_callback := args.callback, first_async_connection := pool }
      exact ⟨_, rfl, q4, q2, by simp⟩
    · simp only [h5, not_false_eq_true, if_true]
      exact ⟨_, rfl, rfl, rfl, by simp⟩
  · intro hp
    unfold gsc_mysqla_initializer
    simp only [hpool, hl, hf, hcb, hn', hp, ne_eq, not_true_eq_false, if_false]

theorem initializer_rejects (s : State) (args : InitArgs) (env : InitEnv)
    (h : s.first_async_connection ≠ [] ∨ env.lockInit ≠ 0 ∨ env.fileLockInit ≠ 0
      ∨ args.callback = -1 ∨ args.connection_count ≤ 0) :
    ∃ r, gsc_mysqla_initializer s args env = some r
      ∧ HostCall.stackPushUndefined ∈ r.2
      ∧ r.1.first_async_connection = s.first_async_connection := by
  unfold gsc_mysqla_initializer
  by_cases h0 : s.first_async_connection ≠ []
  · rw [if_pos h0]; exact ⟨_, rfl, by simp, rfl⟩
  rw [if_neg h0]
  by_cases h1 : env.lockInit ≠ 0
  · rw [if_pos h1]; exact ⟨_, rfl, by simp, rfl⟩
  rw [if_neg h1]
  by_cases h2 : env.fileLockInit ≠ 0
  · rw [if_pos h2]; exact ⟨_, rfl, by simp, rfl⟩
  rw [if_neg h2]
  by_cases h3 : args.callback = -1
  · rw [if_pos h3]; exact ⟨_, rfl, by simp, rfl⟩
  rw [if_neg h3]
  by_cases h4 : args.connection_count ≤ 0
  · simp only [h4, if_true]; exact ⟨_, rfl, by simp, rfl⟩
  · exfalso; tauto

/-- C12, as the code has it: `gsc_mysqla_initializer` is rejected if and only
if a pool already exists, or one of the two lock initialisations fails, or no
callback is supplied (`callback == -1`), or `connection_count <= 0`. In every
other case in which every connection opens, it returns, registers the given
callback and creates exactly `connection_count` connection records, none of
which has a bound task. -/
theorem initializer_rejects_or_creates_pool (s : State) (args : InitArgs) (env : InitEnv) :
    (initRejected s args env = true ↔
      (s.first_async_connection ≠ [] ∨ env.lockInit ≠ 0 ∨ env.fileLockInit ≠ 0
        ∨ args.callback = -1 ∨ args.connection_count ≤ 0))
    ∧ (initRejected s args env = false →
        (∀ i, i < args.connection_count.toNat → (env.mysql_real_connect i).isSome = true) →
        ∃ r, gsc_mysqla_initializer s args env = some r
          ∧ r.1.mysql_result_callback = args.callback
          ∧ (r.1.first_async_connection.length : Int) = args.connection_count
          ∧ ∀ c ∈ r.1.first_async_connection, c.task = none) := by
  have yes : (s.first_async_connection ≠ [] ∨ env.lockInit ≠ 0 ∨ env.fileLockInit ≠ 0
        ∨ args.callback = -1 ∨ args.connection_count ≤ 0) → initRejected s args env = true := by
    intro h
    obtain ⟨r, hr, hmem, _⟩ := initializer_rejects s args env h
    unfold initRejected
    rw [hr]
    exact decide_eq_true hmem
  have no : ¬ (s.first_async_connection ≠ [] ∨ env.lockInit ≠ 0 ∨ env.fileLockInit ≠ 0
        ∨ args.callback = -1 ∨ args.connection_count ≤ 0) →
      initRejected s args env = false
      ∧ ((∀ i, i < args.connection_count.toNat → (env.mysql_real_connect i).isSome = true) →
        ∃ r, gsc_mysqla_initializer s args env = some r
          ∧ r.1.mysql_result_callback = args.callback
          ∧ (r.1.first_async_connection.length : Int) = args.connection_count
          ∧ ∀ c ∈ r.1.first_async_connection, c.task = none) := by
    intro h
    simp only [not_or, ne_eq, not_not, not_le] at h
    obtain ⟨hpool, hl, hf, hcb, hn⟩ := h
    obtain ⟨acc, flt⟩ := initializer_accepts s args env hpool hl hf hcb hn
    constructor
    · cases hp : initConnections env args.connection_count.toNat 0 [] with
      | none =>
        unfold initRejected
        rw [flt hp]
      | some pool =>
        obtain ⟨r, hr, _, _, hnot⟩ := acc pool hp
        unfold initRejected
        rw [hr]
        exact decide_eq_false hnot
    · intro hall
      have hsome := (initConnections_isSome env args.connection_count.toNat 0 []).2
        (fun j hj => by rw [Nat.zero_add]; exact hall j hj)
      obtain ⟨pool, hp⟩ := Option.isSome_iff_exists.1 hsome
      obtain ⟨r, hr, h1, h2, _⟩ := acc pool hp
      refine ⟨r, hr, h1, ?_, ?_⟩
      · rw [h2, initConnections_length env _ 0 [] pool hp, List.length_nil, Nat.add_zero]
        exact Int.toNat_of_nonneg (le_of_lt hn)
      · rw [h2]
        exact initConnections_idle env _ 0 [] pool (fun c hc => by simp at hc) hp
  constructor
  · constructor
    · intro h
      by_contra hno
      rw [(no hno).1] at h
      exact Bool.false_ne_true h
    · exact yes
  · intro h
    have hno : ¬ (s.first_async_connection ≠ [] ∨ env.lockInit ≠ 0 ∨ env.fileLockInit ≠ 0
        ∨ args.callback = -1 ∨ args.connection_count ≤ 0) := by
      intro hyes
      rw [yes hyes] at h
      exact Bool.false_ne_true h.symm
    exact (no hno).2

theorem initializer_rejects_or_creates_pool_witness :
    initRejected State.start (poolArgs 2) okEnv = false
    ∧ (∀ i, i < (poolArgs 2).connection_count.toNat → (okEnv.mysql_real_connect i).isSome = true)
    ∧ ∃ r, gsc_mysqla_initializer State.start (poolArgs 2) okEnv = some r
        ∧ r.1.mysql_result_callback = (poolArgs 2).callback
        ∧ (r.1.first_async_connection.length : Int) = (poolArgs 2).connection_count
        ∧ ∀ c ∈ r.1.first_async_connection, c.task = none :=
  ⟨by decide, fun _ _ => rfl,
    (initializer_rejects_or_creates_pool State.start (poolArgs 2) okEnv).2 (by decide)
      (fun _ _ => rfl)⟩

/-- C12 fails as stated: with no pool, a callback and a positive count the
call is still rejected when the lock cannot be initialised. -/
theorem initializer_rejected_counterexample :
    State.start.first_async_connection = [] ∧ (poolArgs 2).callback ≠ -1
    ∧ ¬ (poolArgs 2).connection_count ≤ 0
    ∧ initRejected State.start (poolArgs 2) lockFailEnv = true
    ∧ gsc_mysqla_initializer State.start (poolArgs 2) lockFailEnv
        = some (State.start, [HostCall.stackPushUndefined]) := by
  decide

/-- C14, as the code has it: when `gsc_mysqla_initializer` gets past the pool
and lock checks and is rejected because no callback is supplied, the state is
unchanged; when it is rejected because `connection_count <= 0`, the pool stays
empty and the only part of the state that changes is the registered callback,
which is already the supplied one. -/
theorem rejected_initialize_frame (s : State) (args : InitArgs) (env : InitEnv)
    (hpool : s.first_async_connection = []) (hl : env.lockInit = 0)
    (hf : env.fileLockInit = 0) :
    (args.callback = -1 → ∃ r, gsc_mysqla_initializer s args env = some r ∧ r.1 = s)
    ∧ (args.callback ≠ -1 → args.connection_count ≤ 0 →
        ∃ r, gsc_mysqla_initializer s args env = some r
          ∧ r.1 = { s with mysql_result_callback := args.callback }
          ∧ r.1.first_async_connection = []) := by
  constructor
  · intro hcb
    unfold gsc_mysqla_initializer
    simp [hpool, hl, hf, hcb]
  · intro hcb hn
    unfold gsc_mysqla_initializer
    simp [hpool, hl, hf, hcb, hn]

theorem rejected_initialize_frame_witness :
    (State.start.first_async_connection = [] ∧ okEnv.lockInit = 0 ∧ okEnv.fileLockInit = 0)
    ∧ ((poolArgs 0).callback = -1 →
        ∃ r, gsc_mysqla_initializer State.start (poolArgs 0) okEnv = some r ∧ r.1 = State.start)
    ∧ ((poolArgs 0).callback ≠ -1 → (poolArgs 0).connection_count ≤ 0 →
        ∃ r, gsc_mysqla_initializer State.start (poolArgs 0) okEnv = some r
          ∧ r.1 = { State.start with mysql_result_callback := (poolArgs 0).callback }
          ∧ r.1.first_async_connection = []) :=
  ⟨⟨rfl, rfl, rfl⟩, rejected_initialize_frame State.start (poolArgs 0) okEnv rfl rfl rfl⟩

/-- C14 fails as stated: a call rejected for `connection_count = 0` has
already replaced the registered callback. -/
theorem rejected_initialize_counterexample :
    initRejected State.start (poolArgs 0) okEnv = true
    ∧ State.start.mysql_result_callback = 0
    ∧ (gsc_mysqla_initializer State.start (poolArgs 0) okEnv).map
        (fun r => r.1.mysql_result_callback) = some 7 := by
  decide

/-- The connection loop of `gsc_mysqla_initializer` does not return when a
connect fails, whatever the state and the other answers of the environment. -/
theorem initializer_faults_on_failed_connect (s : State) (args : InitArgs) (env : InitEnv)
    (hpool : s.first_async_connection = []) (hl : env.lockInit = 0) (hf : env.fileLockInit = 0)
    (hcb : args.callback ≠ -1) (hn : 0 < args.connection_count)
    (i : Nat) (hi : i < args.connection_count.toNat) (hfail : env.mysql_real_connect i = none) :
    gsc_mysqla_initializer s args env = none
    ∧ step s (Action.initializer args env) = none := by
  have hnone : initConnections env args.connection_count.toNat 0 [] = none := by
    cases hp : initConnections env args.connection_count.toNat 0 [] with
    | none => rfl
    | some pool =>
      have := (initConnections_isSome env args.connection_count.toNat 0 []).1
        (by rw [hp]; rfl) i hi
      rw [Nat.zero_add, hfail] at this
      exact absurd this (by simp)
  have e := (initializer_accepts s args env hpool hl hf hcb hn).2 hnone
  refine ⟨e, ?_⟩
  show (gsc_mysqla_initializer s args env).map (·.1) = none
  rw [e]; rfl

/-- C15 fails in the code: when the second of two connects fails,
`gsc_mysqla_initializer` hands the NULL to `mysql_options` and the process
dies there, so no pool with the one open connection ever exists; with both
connects answered the same call builds the pool of two. -/
theorem failed_connect_ends_process :
    gsc_mysqla_initializer State.start (poolArgs 2) connectFailEnv = none
    ∧ run State.start [Action.initializer (poolArgs 2) connectFailEnv] = none
    ∧ (gsc_mysqla_initializer State.start (poolArgs 2) okEnv).map
        (fun r => r.1.first_async_connection)
      = some [{ task := none, connection := some 2 }, { task := none, connection := some 1 }] := by
  decide

theorem step_forward (s s' : State) (a : Action) (hs : step s a = some s') :
    ∀ u ∈ s'.first_async_task, u.addr ∉ liveAddrs s
      ∨ ∃ t ∈ s.first_async_task, t.addr = u.addr
          ∧ (t.started = true → u.started = true) ∧ (t.done = true → u.done = true) := by
  have same : ∀ u ∈ s.first_async_task, u.addr ∉ liveAddrs s
      ∨ ∃ t ∈ s.first_async_task, t.addr = u.addr
          ∧ (t.started = true → u.started = true) ∧ (t.done = true → u.done = true) :=
    fun u hu => Or.inr ⟨u, hu, rfl, id, id⟩
  have enqueue : ∀ (addr : Nat) (sql : CString) (entity : Option Int) (save : Bool),
      addr ∉ liveAddrs s →
      ∀ u ∈ (mysqla_query_initializer s addr sql entity save).1.first_async_task,
        u.addr ∉ liveAddrs s
        ∨ ∃ t ∈ s.first_async_task, t.addr = u.addr
          ∧ (t.started = true → u.started = true) ∧ (t.done = true → u.done = true) := by
    intro addr sql entity save hfresh u hu
    have hq : (mysqla_query_initializer s addr sql entity save).1.first_async_task
        = s.first_async_task ++ [_] := linkAtTail_eq_append _ _
    rw [hq] at hu
    rcases List.mem_append.1 hu with hu | hu
    · exact same u hu
    · rw [List.mem_singleton] at hu
      subst hu
      exact Or.inl hfresh
  cases a with
  | initializer args env =>
    rw [(initializer_step_frame s s' args env hs).1]
    exact same
  | create_level_query addr query saveResult =>
    simp only [step] at hs
    by_cases hm : addr ∈ liveAddrs s
    · simp [hm] at hs
    · simp only [hm, if_false, Option.some.injEq] at hs
      subst hs
      exact enqueue addr query none _ hm
  | create_entity_query addr num query saveResult =>
    simp only [step] at hs
    by_cases hm : addr ∈ liveAddrs s
    · simp [hm] at hs
    · simp only [hm, if_false, Option.some.injEq] at hs
      subst hs
      exact enqueue addr query (some num) _ hm
  | handler_cycle pc =>
    simp only [step] at hs
    by_cases hst : s.started = true
    · simp only [hst, if_true, Option.some.injEq] at hs
      subst hs
      intro u hu
      obtain ⟨t, ht, hstep⟩ := taskSteps_mem
        (handlerLoop_steps pc s.first_async_task 0 s.first_async_connection).1 u hu
      refine Or.inr ⟨t, ht, ?_⟩
      rcases hstep with rfl | ⟨_, rfl⟩
      · exact ⟨rfl, id, id⟩
      · exact ⟨rfl, fun _ => rfl, id⟩
    · simp [hst] at hs
  | execute_query c outcome fopenOk =>
    simp only [step] at hs
    by_cases hm : c ∈ s.workers
    · simp only [hm, if_true] at hs
      obtain ⟨conn, p, task, _, _, _, rfl⟩ := execute_query_eq s c outcome fopenOk s' hs
      intro u hu
      obtain ⟨t, ht, h | h⟩ := mem_updateTask _ _ _ u hu
      · obtain ⟨_, rfl⟩ := h
        exact same u ht
      · obtain ⟨_, rfl⟩ := h
        exact Or.inr ⟨t, ht, rfl, id, fun _ => rfl⟩
    · simp [hm] at hs
  | handle_result_callbacks =>
    simp only [step, Option.some.injEq] at hs
    subst hs
    by_cases hcb : s.mysql_result_callback = 0
    · simpa [mysql_handle_result_callbacks, hcb] using same
    · rw [collector_keeps_not_done s hcb]
      intro u hu
      exact same u (List.mem_filter.1 hu).1
  | ondisconnect num =>
    simp only [step, Option.some.injEq] at hs
    subst hs
    intro u hu
    simp only [gsc_mysqla_ondisconnect, List.mem_map] at hu
    obtain ⟨t, ht, rfl⟩ := hu
    refine Or.inr ⟨t, ht, ?_⟩
    by_cases he : t.entity = some num
    · rw [if_pos he]; exact ⟨rfl, id, id⟩
    · rw [if_neg he]; exact ⟨rfl, id, id⟩

/-- C17: in every reachable state a queued task that is done is started, and
no step turns the started flag or the done flag of a task record that is still
in the queue afterwards from true to false. -/
theorem task_state_moves_forward (s : State) (h : Reachable s) :
    (∀ t ∈ s.first_async_task, t.done = true → t.started = true)
    ∧ ∀ (a : Action) (s' : State), step s a = some s' →
        ∀ t ∈ s.first_async_task, ∀ u ∈ s'.first_async_task, u.addr = t.addr →
          (t.started = true → u.started = true) ∧ (t.done = true → u.done = true) := by
  have hinv := Inv_of_reachable s h
  refine ⟨hinv.forward, ?_⟩
  intro a s' hs t ht u hu hut
  rcases step_forward s s' a hs u hu with hno | ⟨t0, ht0, hadd, hmono⟩
  · exact absurd (List.mem_map.2 ⟨t, ht, hut.symm⟩) hno
  · have : t0 = t :=
      List.inj_on_of_nodup_map hinv.addrs_nodup ht0 ht (hadd.trans hut)
    subst this
    exact hmono

theorem task_state_moves_forward_witness :
    Reachable demoState
    ∧ (∀ t ∈ demoState.first_async_task, t.done = true → t.started = true)
    ∧ ∀ (a : Action) (s' : State), step demoState a = some s' →
        ∀ t ∈ demoState.first_async_task, ∀ u ∈ s'.first_async_task, u.addr = t.addr →
          (t.started = true → u.started = true) ∧ (t.done = true → u.done = true) :=
  ⟨⟨demoActs, demoState_run⟩, task_state_moves_forward demoState ⟨demoActs, demoState_run⟩⟩

theorem fieldValues_eq_map (row : List (Option CString)) :
    ∀ (n j : Nat), j + n = row.length → fieldValues row n j = (row.drop j).map fieldValue := by
  intro n
  induction n with
  | zero =>
    intro j h
    rw [List.drop_of_length_le (by omega)]
    rfl
  | succ n ih =>
    intro j h
    have hj : j < row.length := by omega
    rw [List.drop_eq_getElem_cons hj, List.map_cons]
    simp only [fieldValues]
    rw [ih (j + 1) (by omega), List.get?_eq_getElem?, List.getElem?_eq_getElem hj]
    congr 1
    cases row[j] <;> rfl

theorem toNat_toInt32_of_lt (n : Nat) (h : n < 2147483648) : (toInt32 (n : Int)).toNat = n := by
  unfold toInt32
  omega

theorem rowsValue_of_wellFormed (result : MYSQL_RES) (h : WellFormed result) :
    rowsValue result = deliveredValue (some result) := by
  obtain ⟨hr, hn, hf⟩ := h
  unfold rowsValue deliveredValue
  rw [toNat_toInt32_of_lt _ hr, toNat_toInt32_of_lt _ hn, List.take_of_length_le (le_refl _)]
  congr 1
  apply List.map_congr_left
  intro row hrow
  rw [fieldValues_eq_map row _ 0 (by rw [hf row hrow, Nat.zero_add]), List.drop_zero]

theorem resultValue_eq_delivered (t : mysqla_task)
    (h : ∀ result, t.result = some result → WellFormed result) :
    resultValue t = deliveredValue t.result := by
  unfold resultValue
  cases ht : t.result with
  | none => rfl
  | some result => exact rowsValue_of_wellFormed result (h result ht)

theorem rowsTask_wellFormed : ∀ result, rowsTask.result = some result → WellFormed result := by
  intro result h
  have e : result
      = { num_fields := 2, rows := [[some "a".toList, none], [some [], some "b".toList]] } := by
    simp only [rowsTask, mkTask, Option.some.injEq] at h
    exact h.symm
  subst e
  unfold WellFormed
  decide

/-- C19: for a task whose captured result set, if any, has `r` rows of `f`
fields (with `r` and `f` below 2^31), the calls of `pushResultRows` leave on the
engine's stack the sequence of the `r` rows in result order, each the sequence
of its `f` field values in field order, a NULL field being the no-value
sentinel and any other field, the empty string included, that string; a task
without a result gets a single no-value sentinel. That value is the first
argument of the invocation the collector makes for the task. -/
theorem result_delivered_as_rows (cb : Int) (t : mysqla_task)
    (h : ∀ result, t.result = some result → WellFormed result) :
    (∀ result, t.result = some result → ∀ engine : Host,
        engine.run (pushResultRows result)
          = { engine with stack :=
                ScrValue.array (result.rows.map fun row => ScrValue.array (row.map fieldValue))
                  :: engine.stack })
    ∧ (t.result = none → deliveredValue t.result = ScrValue.undefined)
    ∧ (∀ engine : Host, engine.run (handleDoneTask cb t)
        = { stack := if (invocationOf cb t).isSome then engine.stack
                     else ScrValue.int t.taskId :: deliveredValue t.result :: engine.stack,
            invoked := engine.invoked ++ (invocationOf cb t).toList })
    ∧ (∀ inv, invocationOf cb t = some inv →
        inv.args = [deliveredValue t.result, ScrValue.int t.taskId]) := by
  refine ⟨?_, ?_, ?_, ?_⟩
  · intro result ht engine
    rw [run_pushResultRows, rowsValue_of_wellFormed result (h result ht)]
    rfl
  · intro ht
    rw [ht]
    rfl
  · intro engine
    rw [run_handleDoneTask, resultValue_eq_delivered t h]
  · intro inv hinv
    rw [invocationOf_args cb t inv hinv, resultValue_eq_delivered t h]

theorem result_delivered_as_rows_witness :
    (∀ result, rowsTask.result = some result → WellFormed result)
    ∧ (∀ inv, invocationOf 7 rowsTask = some inv →
        inv.args
          = [ScrValue.array
              [ScrValue.array [ScrValue.string "a".toList, ScrValue.undefined],
               ScrValue.array [ScrValue.string [], ScrValue.string "b".toList]],
             ScrValue.int 5]) :=
  ⟨rowsTask_wellFormed, (result_delivered_as_rows 7 rowsTask rowsTask_wellFormed).2.2.2⟩

theorem handlerLoop_spawned (pc : Nat → Int) (hpc : ∀ i, pc i = 0) (q : List mysqla_task) :
    ∀ (base : Nat) (conns : List mysqla_connection) (k : Nat) (c' : mysqla_connection),
      (handlerLoop pc q base conns).2.1.get? k = some c' → c'.task.isSome = true →
      (∃ c, conns.get? k = some c ∧ c.task.isSome = true)
        ∨ base + k ∈ (handlerLoop pc q base conns).2.2 := by
  induction q with
  | nil =>
    intro base conns k c' h1 h2
    exact Or.inl ⟨c', h1, h2⟩
  | cons t ts ih =>
    intro base conns k c'
    by_cases hs : t.started = true
    · simpa only [handlerLoop, hs, if_true] using ih base conns k c'
    · simp only [handlerLoop, hs]
      cases hsk : skipBusy conns with
      | mk busy rest =>
        cases rest with
        | nil =>
          intro h1 h2
          exact Or.inl ⟨c', h1, h2⟩
        | cons c rest =>
          obtain ⟨hc, hconns, hbusy⟩ := skipBusy_cons conns busy rest c hsk
          simp only [hpc, ne_eq, not_true_eq_false, if_false, Bool.false_eq_true]
          intro h1 h2
          rcases Nat.lt_trichotomy k busy.length with hk | hk | hk
          · left
            rw [List.get?_eq_getElem?, List.getElem?_append_left hk] at h1
            refine ⟨c', ?_, h2⟩
            rw [hconns, List.get?_eq_getElem?, List.getElem?_append_left hk]
            exact h1
          · right
            subst hk
            exact List.mem_cons_self _ _
          · obtain ⟨j, rfl⟩ : ∃ j, k = busy.length + 1 + j := ⟨k - busy.length - 1, by omega⟩
            rw [get?_append_cons_after] at h1
            rcases ih (base + busy.length + 1) rest j c' h1 h2 with ⟨d, hd1, hd2⟩ | hmem
            · left
              refine ⟨d, ?_, hd2⟩
              rw [hconns, get?_append_cons_after]
              exact hd1
            · right
              refine List.mem_cons_of_mem _ ?_
              have e : base + (busy.length + 1 + j) = base + busy.length + 1 + j := by omega
              rw [e]
              exact hmem

theorem NoLostWorker_handlerCycle (s : State) (h : NoLostWorker s) (pc : Nat → Int)
    (hpc : ∀ i, pc i = 0) : NoLostWorker (handlerCycle s pc) := by
  intro k c' h1 h2
  show k ∈ s.workers ++ _
  rcases handlerLoop_spawned pc hpc s.first_async_task 0 s.first_async_connection k c' h1 h2
    with ⟨c, hc1, hc2⟩ | hmem
  · exact List.mem_append_left _ (h k c hc1 hc2)
  · rw [Nat.zero_add] at hmem
    exact List.mem_append_right _ hmem

theorem updateTask_map_of {β : Type} (g : mysqla_task → β) (p : Nat)
    (f : mysqla_task → mysqla_task) (hf : ∀ t, g (f t) = g t) (q : List mysqla_task) :
    (updateTask p f q).map g = q.map g := by
  induction q with
  | nil => rfl
  | cons t ts ih =>
    rw [updateTask_cons, List.map_cons, List.map_cons, ih]
    by_cases h : t.addr = p <;> simp [h, hf]

theorem NoLostWorker_of_idle (s : State) (h : ∀ c ∈ s.first_async_connection, c.task = none) :
    NoLostWorker s := by
  intro c conn hc hb
  rw [h conn (List.get?_mem hc)] at hb
  simp at hb

theorem Undispatched_step (a : Nat) (s s' : State) (act : Action) (h : Undispatched a s)
    (hs : step s act = some s') : Undispatched a s' := by
  obtain ⟨h1, h2, h3, h4, h5⟩ := h
  cases act with
  | initializer args env =>
    rw [initializer_step_of_pool s s' args env h2 hs]
    exact ⟨h1, h2, h3, h4, h5⟩
  | create_level_query addr query saveResult =>
    simp only [step] at hs
    by_cases hm : addr ∈ liveAddrs s
    · simp [hm] at hs
    · simp only [hm, if_false, Option.some.injEq] at hs
      subst hs
      refine ⟨h1, h2, h3, ?_, ?_⟩
      · show a ∈ (linkAtTail _ s.first_async_task).map (·.addr)
        rw [linkAtTail_eq_append, List.map_append]
        exact List.mem_append_left _ h4
      · intro t ht
        change t ∈ linkAtTail _ s.first_async_task at ht
        rw [linkAtTail_eq_append] at ht
        rcases List.mem_append.1 ht with ht | ht
        · exact h5 t ht
        · rw [List.mem_singleton] at ht; subst ht; rfl
  | create_entity_query addr num query saveResult =>
    simp only [step] at hs
    by_cases hm : addr ∈ liveAddrs s
    · simp [hm] at hs
    · simp only [hm, if_false, Option.some.injEq] at hs
      subst hs
      refine ⟨h1, h2, h3, ?_, ?_⟩
      · show a ∈ (linkAtTail _ s.first_async_task).map (·.addr)
        rw [linkAtTail_eq_append, List.map_append]
        exact List.mem_append_left _ h4
      · intro t ht
        change t ∈ linkAtTail _ s.first_async_task at ht
        rw [linkAtTail_eq_append] at ht
        rcases List.mem_append.1 ht with ht | ht
        · exact h5 t ht
        · rw [List.mem_singleton] at ht; subst ht; rfl
  | handler_cycle pc =>
    simp [step, h1] at hs
  | execute_query c outcome fopenOk =>
    simp [step, h3] at hs
  | handle_result_callbacks =>
    simp only [step, Option.some.injEq] at hs
    subst hs
    by_cases hcb : s.mysql_result_callback = 0
    · simpa [mysql_handle_result_callbacks, hcb] using
        (⟨h1, h2, h3, h4, h5⟩ : Undispatched a s)
    · have hq : (mysql_handle_result_callbacks s).first_async_task = s.first_async_task := by
        rw [collector_keeps_not_done s hcb]
        exact List.filter_eq_self.2 fun t ht => by simp [h5 t ht]
      have hrest : (mysql_handle_result_callbacks s).started = s.started
          ∧ (mysql_handle_result_callbacks s).first_async_connection = s.first_async_connection
          ∧ (mysql_handle_result_callbacks s).workers = s.workers := by
        simp [mysql_handle_result_callbacks, hcb]
      refine ⟨hrest.1.trans h1, by rw [hrest.2.1]; exact h2, hrest.2.2.trans h3, ?_, ?_⟩
      · show a ∈ (mysql_handle_result_callbacks s).first_async_task.map (·.addr)
        rw [hq]; exact h4
      · rw [hq]; exact h5
  | ondisconnect num =>
    simp only [step, Option.some.injEq] at hs
    subst hs
    refine ⟨h1, h2, h3, ?_, ?_⟩
    · rw [ondisconnect_liveAddrs]; exact h4
    · intro t ht
      simp only [gsc_mysqla_ondisconnect, List.mem_map] at ht
      obtain ⟨u, hu, rfl⟩ := ht
      by_cases he : u.entity = some num
      · rw [if_pos he]; exact h5 u hu
      · rw [if_neg he]; exact h5 u hu

theorem Undispatched_run (a : Nat) (acts : List Action) :
    ∀ (s s' : State), Undispatched a s → run s acts = some s' → Undispatched a s' := by
  induction acts with
  | nil => intro s s' h hr; simp only [run, Option.some.injEq] at hr; subst hr; exact h
  | cons x rest ih =>
    intro s s' h hr
    simp only [run] at hr
    cases hst : step s x with
    | none => rw [hst] at hr; simp at hr
    | some s1 =>
      rw [hst] at hr
      exact ih s1 s' (Undispatched_step a s s1 x h hst) hr

theorem undispatchedState_run :
    run State.start undispatchedActs = some undispatchedState := by decide

/-- C20 fails as stated: when the handler thread could not be created the pool
has an idle connection, and whatever happens afterwards the enqueued task is
never done. -/
theorem tasks_never_done_counterexample :
    run State.start undispatchedActs = some undispatchedState
    ∧ idleCount undispatchedState.first_async_connection = 1
    ∧ liveAddrs undispatchedState = [100]
    ∧ ∀ (acts : List Action) (s' : State), run undispatchedState acts = some s' →
        ∃ t ∈ s'.first_async_task, t.addr = 100 ∧ t.done = false := by
  refine ⟨undispatchedState_run, by decide, by decide, ?_⟩
  intro acts s' hr
  have h0 : Undispatched 100 undispatchedState :=
    ⟨by decide, by decide, by decide, by decide, by decide⟩
  obtain ⟨-, -, -, h4, h5⟩ := Undispatched_run 100 acts undispatchedState s' h0 hr
  obtain ⟨t, ht, hta⟩ := List.mem_map.1 h4
  exact ⟨t, ht, hta, h5 t ht⟩

/-- C24 does not hold of the code: for a done task whose entity has
disconnected the collector makes no invocation, yet it has already pushed the
result value and the task id, and both stay on the engine's argument stack. -/
theorem suppressed_delivery_pushes_values :
    handleDoneTask 7 suppressedTask
      = [HostCall.stackPushUndefined, HostCall.stackPushInt 4]
    ∧ invocationOf 7 suppressedTask = none
    ∧ (Host.run { stack := [], invoked := [] } (handleDoneTask 7 suppressedTask)).stack
        = [ScrValue.int 4, ScrValue.undefined] := by
  refine ⟨by decide, rfl, rfl⟩

theorem callback_step (s s' : State) (a : Action) (hpool : s.first_async_connection ≠ [])
    (hs : step s a = some s') :
    s'.mysql_result_callback = s.mysql_result_callback ∧ s'.first_async_connection ≠ [] := by
  cases a with
  | initializer args env =>
    rw [initializer_step_of_pool s s' args env hpool hs]
    exact ⟨rfl, hpool⟩
  | create_level_query addr query saveResult =>
    simp only [step] at hs
    by_cases hm : addr ∈ liveAddrs s
    · simp [hm] at hs
    · simp only [hm, if_false, Option.some.injEq] at hs
      subst hs; exact ⟨rfl, hpool⟩
  | create_entity_query addr num query saveResult =>
    simp only [step] at hs
    by_cases hm : addr ∈ liveAddrs s
    · simp [hm] at hs
    · simp only [hm, if_false, Option.some.injEq] at hs
      subst hs; exact ⟨rfl, hpool⟩
  | handler_cycle pc =>
    simp only [step] at hs
    by_cases hst : s.started = true
    · simp only [hst, if_true, Option.some.injEq] at hs
      subst hs
      refine ⟨rfl, ?_⟩
      have hlen := (handlerLoop_steps pc s.first_async_task 0 s.first_async_connection).2.length_eq
      apply List.length_pos.1
      show 0 < (handlerLoop pc s.first_async_task 0 s.first_async_connection).2.1.length
      rw [← hlen]
      exact List.length_pos.2 hpool
    · simp [hst] at hs
  | execute_query c outcome fopenOk =>
    simp only [step] at hs
    by_cases hm : c ∈ s.workers
    · simp only [hm, if_true] at hs
      obtain ⟨conn, p, task, _, _, _, rfl⟩ := execute_query_eq s c outcome fopenOk s' hs
      refine ⟨rfl, ?_⟩
      apply List.length_pos.1
      show 0 < (s.first_async_connection.set c { conn with task := none }).length
      rw [List.length_set]
      exact List.length_pos.2 hpool
    · simp [hm] at hs
  | handle_result_callbacks =>
    simp only [step, Option.some.injEq] at hs
    subst hs
    by_cases hcb : s.mysql_result_callback = 0
    · simpa [mysql_handle_result_callbacks, hcb] using hpool
    · simpa [mysql_handle_result_callbacks, hcb] using hpool
  | ondisconnect num =>
    simp only [step, Option.some.injEq] at hs
    subst hs; exact ⟨rfl, hpool⟩

theorem callback_run (acts : List Action) :
    ∀ (s s' : State), s.first_async_connection ≠ [] → run s acts = some s' →
      s'.mysql_result_callback = s.mysql_result_callback := by
  induction acts with
  | nil => intro s s' _ hr; simp only [run, Option.some.injEq] at hr; subst hr; rfl
  | cons x rest ih =>
    intro s s' h hr
    simp only [run] at hr
    cases hst : step s x with
    | none => rw [hst] at hr; simp at hr
    | some s1 =>
      rw [hst] at hr
      obtain ⟨h1, h2⟩ := callback_step s s1 x h hst
      rw [ih s1 s' h2 hr, h1]

theorem initializer_accepted (s : State) (args : InitArgs) (env : InitEnv)
    (h : initRejected s args env = false) (r : State × List HostCall)
    (hr : gsc_mysqla_initializer s args env = some r) :
    r.1.mysql_result_callback = args.callback ∧ r.1.first_async_connection ≠ [] := by
  have hno : ¬ (s.first_async_connection ≠ [] ∨ env.lockInit ≠ 0 ∨ env.fileLockInit ≠ 0
        ∨ args.callback = -1 ∨ args.connection_count ≤ 0) := by
    intro hyes
    obtain ⟨r', hr', hmem, _⟩ := initializer_rejects s args env hyes
    unfold initRejected at h
    rw [hr'] at h
    exact absurd hmem (of_decide_eq_false h)
  simp only [not_or, ne_eq, not_not, not_le] at hno
  obtain ⟨hpool, hl, hf, hcb, hn⟩ := hno
  obtain ⟨acc, flt⟩ := initializer_accepts s args env hpool hl hf hcb hn
  cases hp : initConnections env args.connection_count.toNat 0 [] with
  | none => rw [flt hp] at hr; simp at hr
  | some pool =>
    obtain ⟨r', hr', h1, h2, _⟩ := acc pool hp
    rw [hr, Option.some.injEq] at hr'
    subst hr'
    refine ⟨h1, ?_⟩
    apply List.length_pos.1
    rw [h2, initConnections_length env _ 0 [] pool hp]
    have : 0 < args.connection_count.toNat := by omega
    omega

/-- C27, as the code has it: a callback handle other than 0 that
`gsc_mysqla_initializer` accepts stays registered in every state reached
afterwards, and a collector pass in such a state does not take the early
return: it removes the done tasks and makes the calls for them. -/
theorem accepted_callback_is_registered (s : State) (args : InitArgs) (env : InitEnv)
    (hacc : initRejected s args env = false) (hcb : args.callback ≠ 0)
    (acts : List Action) (s' : State)
    (hr : run s (Action.initializer args env :: acts) = some s') :
    s'.mysql_result_callback = args.callback
    ∧ (mysql_handle_result_callbacks s').first_async_task
        = s'.first_async_task.filter (fun t => !t.done)
    ∧ (mysql_handle_result_callbacks s').host
        = s'.host ++ (collectLoop args.callback s'.first_async_task).2 := by
  simp only [run] at hr
  cases hst : step s (Action.initializer args env) with
  | none => rw [hst] at hr; simp at hr
  | some s0 =>
    rw [hst] at hr
    obtain ⟨calls, hinit⟩ := initializer_step s s0 args env hst
    obtain ⟨h1, h2⟩ := initializer_accepted s args env hacc _ hinit
    have hc : s'.mysql_result_callback = args.callback := by
      rw [callback_run acts _ s' h2 hr]; exact h1
    have hne : s'.mysql_result_callback ≠ 0 := by rw [hc]; exact hcb
    refine ⟨hc, collector_keeps_not_done s' hne, ?_⟩
    unfold mysql_handle_result_callbacks
    rw [if_neg hne, hc]

theorem accepted_callback_is_registered_witness :
    (initRejected State.start (poolArgs 1) okEnv = false ∧ (poolArgs 1).callback ≠ 0
      ∧ run State.start (Action.initializer (poolArgs 1) okEnv :: uncapturedActs.drop 1)
          = some uncapturedState)
    ∧ uncapturedState.mysql_result_callback = (poolArgs 1).callback
    ∧ (mysql_handle_result_callbacks uncapturedState).first_async_task
        = uncapturedState.first_async_task.filter (fun t => !t.done)
    ∧ (mysql_handle_result_callbacks uncapturedState).host
        = uncapturedState.host
          ++ (collectLoop (poolArgs 1).callback uncapturedState.first_async_task).2 :=
  ⟨⟨by decide, by decide, by decide⟩,
    accepted_callback_is_registered State.start (poolArgs 1) okEnv (by decide) (by decide)
      (uncapturedActs.drop 1) uncapturedState (by decide)⟩

/-- C27 fails as stated: the callback handle 0 is accepted by
`gsc_mysqla_initializer`, and the collector then takes its early return: the
done task stays in the queue and no call is made. -/
theorem zero_callback_counterexample :
    initRejected State.start zeroCallbackArgs okEnv = false
    ∧ run State.start zeroCallbackActs = some zeroCallbackState
    ∧ zeroCallbackState.first_async_task.map (fun t => (t.taskId, t.done)) = [(1, true)]
    ∧ mysql_handle_result_callbacks zeroCallbackState = zeroCallbackState := by
  decide

theorem findIdle_append_bound (l : List mysqla_connection)
    (hl : ∀ b ∈ l, b.task.isSome = true) (r : List mysqla_connection) :
    findIdle (l ++ r) = (findIdle r).map (· + l.length) := by
  induction l with
  | nil => simp
  | cons b l ih =>
    have hb : b.task.isSome = true := hl b (List.mem_cons_self _ _)
    have ih' := ih fun x hx => hl x (List.mem_cons_of_mem _ hx)
    show findIdle (b :: (l ++ r)) = _
    have e : findIdle (b :: (l ++ r)) = (findIdle (l ++ r)).map (· + 1) := by
      simp only [findIdle, hb, if_true]
    rw [e, ih', Option.map_map, List.length_cons]
    congr 1

theorem findIdle_of_bound (l : List mysqla_connection) (hl : ∀ b ∈ l, b.task.isSome = true) :
    findIdle l = none := by
  have := findIdle_append_bound l hl []
  simpa [findIdle] using this

theorem bindAt_append (l r : List mysqla_connection) (k a : Nat) :
    bindAt (l ++ r) (l.length + k) a = l ++ bindAt r k a := by
  induction l with
  | nil => simp
  | cons b l ih =>
    have e : (b :: l).length + k = (l.length + k) + 1 := by simp; omega
    rw [e]
    show bindAt (b :: (l ++ r)) (l.length + k + 1) a = b :: (l ++ bindAt r k a)
    rw [← ih]
    rfl

theorem skipBusy_nil (conns busy : List mysqla_connection) (h : skipBusy conns = (busy, [])) :
    ∀ b ∈ conns, b.task.isSome = true := by
  induction conns generalizing busy with
  | nil => intro b hb; simp at hb
  | cons c cs ih =>
    by_cases hc : c.task.isSome = true
    · simp only [skipBusy, hc, if_true, Prod.mk.injEq] at h
      intro b hb
      rcases List.mem_cons.1 hb with rfl | hb
      · exact hc
      · exact ih (skipBusy cs).1 (Prod.ext rfl h.2) b hb
    · simp [skipBusy, hc] at h

theorem bindIdle_append_bound (l : List mysqla_connection)
    (hl : ∀ b ∈ l, b.task.isSome = true) (as : List Nat) (r : List mysqla_connection) :
    bindIdle as (l ++ r) = l ++ bindIdle as r := by
  induction l with
  | nil => simp
  | cons b l ih =>
    have hb : b.task.isSome = true := hl b (List.mem_cons_self _ _)
    have ih' := ih fun x hx => hl x (List.mem_cons_of_mem _ hx)
    cases as with
    | nil => simp [bindIdle]
    | cons a as =>
      show bindIdle (a :: as) (b :: (l ++ r)) = b :: (l ++ bindIdle (a :: as) r)
      rw [← ih']
      simp only [bindIdle, hb, if_true]

theorem newlyStarted_self (q : List mysqla_task) : newlyStarted q q = [] := by
  induction q with
  | nil => rfl
  | cons t ts ih =>
    cases hs : t.started <;> simp [newlyStarted, hs, ih]

theorem handlerLoop_eq_dispatchFresh (pc : Nat → Int) (q : List mysqla_task) :
    ∀ (pre conns : List mysqla_connection), (∀ b ∈ pre, b.task.isSome = true) →
      dispatchFresh pc q (pre ++ conns)
        = ((handlerLoop pc q pre.length conns).1,
           pre ++ (handlerLoop pc q pre.length conns).2.1,
           (handlerLoop pc q pre.length conns).2.2) := by
  induction q with
  | nil => intro pre conns _; rfl
  | cons t ts ih =>
    intro pre conns hpre
    by_cases hs : t.started = true
    · simp only [dispatchFresh, handlerLoop, hs, if_true, ih pre conns hpre]
    · simp only [dispatchFresh, handlerLoop, hs]
      cases hsk : skipBusy conns with
      | mk busy rest =>
        cases rest with
        | nil =>
          have hall : ∀ b ∈ pre ++ conns, b.task.isSome = true := by
            intro b hb
            rcases List.mem_append.1 hb with hb | hb
            · exact hpre b hb
            · exact skipBusy_nil conns busy hsk b hb
          rw [findIdle_of_bound _ hall]
          simp
        | cons c rest =>
          obtain ⟨hc, hconns, hbusy⟩ := skipBusy_cons conns busy rest c hsk
          have hpb : ∀ b ∈ pre ++ busy, b.task.isSome = true := by
            intro b hb
            rcases List.mem_append.1 hb with hb | hb
            · exact hpre b hb
            · exact hbusy b hb
          have hci : ¬ c.task.isSome = true := by rw [hc]; simp
          have hfind : findIdle (pre ++ conns) = some (pre.length + busy.length) := by
            rw [hconns, ← List.append_assoc, findIdle_append_bound _ hpb]
            simp [findIdle, hci]
          have hbind : bindAt (pre ++ conns) (pre.length + busy.length) t.addr
              = (pre ++ busy ++ [{ c with task := some t.addr }]) ++ rest := by
            rw [hconns, ← List.append_assoc]
            have := bindAt_append (pre ++ busy) (c :: rest) 0 t.addr
            rw [List.length_append, Nat.add_zero] at this
            rw [this]
            simp [bindAt]
          have hpre' : ∀ b ∈ pre ++ busy ++ [{ c with task := some t.addr }],
              b.task.isSome = true := by
            intro b hb
            rcases List.mem_append.1 hb with hb | hb
            · exact hpb b hb
            · rw [List.mem_singleton] at hb; subst hb; rfl
          have hlen : (pre ++ busy ++ [{ c with task := some t.addr }]).length
              = pre.length + busy.length + 1 := by
            rw [List.length_append, List.length_append]; rfl
          have ih' := ih _ rest hpre'
          rw [hlen] at ih'
          rw [hfind]
          simp only [hbind, ih']
          by_cases hp : pc (pre.length + busy.length) = 0
          · simp [hp]
          · simp [hp]

theorem handlerLoop_bindIdle (pc : Nat → Int) (q : List mysqla_task) :
    ∀ (base : Nat) (conns : List mysqla_connection),
      (handlerLoop pc q base conns).2.1
        = bindIdle (newlyStarted q (handlerLoop pc q base conns).1) conns := by
  induction q with
  | nil => intro base conns; simp [handlerLoop, newlyStarted, bindIdle]
  | cons t ts ih =>
    intro base conns
    by_cases hs : t.started = true
    · simp only [handlerLoop, hs, if_true, newlyStarted, Bool.not_true, Bool.false_and,
        Bool.false_eq_true, if_false]
      exact ih base conns
    · have hsf : t.started = false := by simpa using hs
      simp only [handlerLoop, hs, Bool.false_eq_true, if_false]
      cases hsk : skipBusy conns with
      | mk busy rest =>
        cases rest with
        | nil =>
          simp [newlyStarted_self, bindIdle]
        | cons c rest =>
          obtain ⟨hc, hconns, hbusy⟩ := skipBusy_cons conns busy rest c hsk
          have hci : ¬ c.task.isSome = true := by rw [hc]; simp
          by_cases hp : pc (base + busy.length) = 0
          · simp only [hp, ne_eq, not_true_eq_false, if_false, if_true, Bool.false_eq_true,
              newlyStarted, hsf, Bool.not_false, Bool.and_self]
            rw [hconns, bindIdle_append_bound busy hbusy]
            simp only [bindIdle, hci, Bool.false_eq_true, if_false]
            rw [← ih]
          · simp only [hp, ne_eq, not_false_eq_true, if_true, if_false, Bool.false_eq_true,
              newlyStarted, hsf, Bool.not_false, Bool.and_self, newlyStarted_self]
            rw [hconns, bindIdle_append_bound busy hbusy]
            simp only [bindIdle, hci, Bool.false_eq_true, if_false]

/-- C26: the task loop of a handler cycle, with its connection cursor that only
moves forward, computes what the loop with a fresh `findIdle` scan of the whole
pool for every pending task computes: the same tasks, the same bindings and the
same threads. The pool it leaves is the one in which the idle connections, in
pool order, are bound to the newly started tasks, in queue order. -/
theorem cursor_refines_fresh_scan (pc : Nat → Int) (q : List mysqla_task)
    (pool : List mysqla_connection) :
    handlerLoop pc q 0 pool = dispatchFresh pc q pool
    ∧ (handlerLoop pc q 0 pool).2.1
        = bindIdle (newlyStarted q (handlerLoop pc q 0 pool).1) pool := by
  refine ⟨?_, handlerLoop_bindIdle pc q 0 pool⟩
  have := handlerLoop_eq_dispatchFresh pc q [] pool (fun b hb => by simp at hb)
  simp only [List.nil_append, List.length_nil] at this
  rw [this]

/-- C21 does not hold of the code: `gsc_mysqls_fetch_field` pushes undefined
whatever `mysql_fetch_field` returns, also when the result has a next field. -/
theorem fetch_field_always_undefined :
    gsc_mysqls_fetch_field (some "id".toList) = [HostCall.stackPushUndefined]
    ∧ ∀ field : Option CString, gsc_mysqls_fetch_field field = [HostCall.stackPushUndefined] :=
  ⟨rfl, fun _ => rfl⟩

/-- C28 does not hold of the code at 0: `Gsc_Utils_IntToHexString` gives
`00000000` for 0 and `Gsc_Utils_HexStringToInt` returns undefined for it, as for
every text that denotes zero; at -1 and at 2^31 - 1 the round trip works. -/
theorem hex_round_trip_fails_at_zero :
    Gsc_Utils_IntToHexString 0 = [HostCall.stackPushString "00000000".toList]
    ∧ Gsc_Utils_HexStringToInt (some "00000000".toList) = [HostCall.stackPushUndefined]
    ∧ Gsc_Utils_HexStringToInt (some "0".toList) = [HostCall.stackPushUndefined]
    ∧ Gsc_Utils_IntToHexString (-1) = [HostCall.stackPushString "ffffffff".toList]
    ∧ Gsc_Utils_HexStringToInt (some "ffffffff".toList) = [HostCall.stackPushInt (-1)]
    ∧ Gsc_Utils_IntToHexString 2147483647 = [HostCall.stackPushString "7fffffff".toList]
    ∧ Gsc_Utils_HexStringToInt (some "7fffffff".toList) = [HostCall.stackPushInt 2147483647] := by
  decide

theorem setAt_same {α : Type} (f : Nat → α) (i : Nat) (v : α) : setAt f i v i = v := by
  simp [setAt]

theorem setAt_other {α : Type} (f : Nat → α) (i j : Nat) (v : α) (h : j ≠ i) :
    setAt f i v j = f j := by
  simp [setAt, h]

theorem selectLoop_code (chain : List osjh_save) :
    ∀ k : Int, (selectLoop chain k).2 = 0 ∨
      ((selectLoop chain k).2 = 2 ∧ (selectLoop chain k).1 = chain.getLast?.toList) := by
  induction chain with
  | nil => intro k; right; exact ⟨rfl, rfl⟩
  | cons node older ih =>
    intro k
    by_cases hk : k = 0
    · left; cases older <;> simp [selectLoop, hk]
    · cases older with
      | nil => right; simp [selectLoop, hk]
      | cons prev rest =>
        simp only [selectLoop, hk, if_false]
        rcases ih (toInt32 (k - 1)) with h | ⟨h1, h2⟩
        · exact Or.inl h
        · exact Or.inr ⟨h1, by rw [h2]; simp [List.getLast?_cons_cons]⟩

theorem selectsave_eq (s : SaveState) (id : Nat) (k : Int) (h : s.playersaves id ≠ []) :
    (gsc_saveposition_selectsave s id k).1.playersaves = s.playersaves
    ∧ (gsc_saveposition_selectsave s id k).1.playersaves_selected
        = setAt s.playersaves_selected id (selectLoop (s.playersaves id) k).1
    ∧ (gsc_saveposition_selectsave s id k).2 = GscValue.int (selectLoop (s.playersaves id) k).2 := by
  unfold gsc_saveposition_selectsave
  cases hs : s.playersaves id with
  | nil => exact absurd hs h
  | cons node older => exact ⟨rfl, rfl, rfl⟩

theorem selectsave_empty (s : SaveState) (id : Nat) (k : Int) (h : s.playersaves id = []) :
    gsc_saveposition_selectsave s id k = (s, GscValue.int 1) := by
  unfold gsc_saveposition_selectsave
  rw [h]

/-- C30, as the code has it: `gsc_saveposition_selectsave` never changes a save
stack or another player's selection; when it returns 1 the state is unchanged;
when it returns 2 the player's selected save has become the oldest save of the
player. -/
theorem failed_selectsave_frame (s : SaveState) (id : Nat) (k : Int) :
    (gsc_saveposition_selectsave s id k).1.playersaves = s.playersaves
    ∧ (∀ j, j ≠ id →
        (gsc_saveposition_selectsave s id k).1.playersaves_selected j
          = s.playersaves_selected j)
    ∧ ((gsc_saveposition_selectsave s id k).2 = GscValue.int 1 →
        (gsc_saveposition_selectsave s id k).1 = s)
    ∧ ((gsc_saveposition_selectsave s id k).2 = GscValue.int 2 →
        (gsc_saveposition_selectsave s id k).1.playersaves_selected id
          = (s.playersaves id).getLast?.toList) := by
  by_cases he : s.playersaves id = []
  · rw [selectsave_empty s id k he]
    refine ⟨rfl, fun _ _ => rfl, fun _ => rfl, fun h => ?_⟩
    simp at h
  · obtain ⟨e1, e2, e3⟩ := selectsave_eq s id k he
    refine ⟨e1, fun j hj => by rw [e2]; exact setAt_other _ _ _ _ hj, ?_, ?_⟩
    · intro h
      rw [e3] at h
      simp only [GscValue.int.injEq] at h
      rcases selectLoop_code (s.playersaves id) k with h0 | ⟨h2, -⟩
      · rw [h0] at h; exact absurd h (by decide)
      · rw [h2] at h; exact absurd h (by decide)
    · intro h
      rw [e3] at h
      simp only [GscValue.int.injEq] at h
      rw [e2, setAt_same]
      rcases selectLoop_code (s.playersaves id) k with h0 | ⟨-, h2⟩
      · rw [h0] at h; exact absurd h (by decide)
      · exact h2

/-- C30 fails as stated: with the most recent of two saves selected, a call
that reaches past the oldest save returns 2 and leaves the oldest save
selected. -/
theorem failed_selectsave_counterexample :
    selectedState.playersaves_selected 0 = [newsave saveTwo, newsave saveOne]
    ∧ (gsc_saveposition_selectsave selectedState 0 5).2 = GscValue.int 2
    ∧ (gsc_saveposition_selectsave selectedState 0 5).1.playersaves_selected 0
        = [newsave saveOne] := by
  decide

theorem findSetting_position (l : List setting_t) (n : CString) :
    ∀ (i : Nat) (c : setting_t), findSetting l n = some (i, c) →
      l.get? i = some c ∧ c.name = n := by
  induction l with
  | nil => intro i c h; simp [findSetting] at h
  | cons d ds ih =>
    intro i c h
    simp only [findSetting] at h
    by_cases hn : n = d.name
    · rw [if_pos hn, Option.some.injEq, Prod.mk.injEq] at h
      obtain ⟨rfl, rfl⟩ := h
      exact ⟨rfl, hn.symm⟩
    · rw [if_neg hn] at h
      cases hf : findSetting ds n with
      | none => rw [hf] at h; simp at h
      | some r =>
        rw [hf, Option.map_some', Option.some.injEq, Prod.mk.injEq] at h
        obtain ⟨rfl, rfl⟩ := h
        exact ih r.1 r.2 hf

theorem findSetting_set (l : List setting_t) (n : CString) (new : setting_t) :
    ∀ (i : Nat) (c : setting_t), findSetting l n = some (i, c) → new.name = c.name →
      findSetting (l.set i new) n = some (i, new) := by
  induction l with
  | nil => intro i c h; simp [findSetting] at h
  | cons d ds ih =>
    intro i c h hname
    simp only [findSetting] at h
    by_cases hn : n = d.name
    · rw [if_pos hn, Option.some.injEq, Prod.mk.injEq] at h
      obtain ⟨rfl, rfl⟩ := h
      simp only [List.set_cons_zero, findSetting]
      rw [if_pos (hn.trans hname.symm)]
    · rw [if_neg hn] at h
      cases hf : findSetting ds n with
      | none => rw [hf] at h; simp at h
      | some r =>
        rw [hf, Option.map_some', Option.some.injEq, Prod.mk.injEq] at h
        obtain ⟨rfl, rfl⟩ := h
        simp only [List.set_cons_succ, findSetting]
        rw [if_neg hn, ih r.1 r.2 hf hname]
        rfl

theorem get?_set_same (cells : List setting_t) (i : Nat) (old new : setting_t)
    (hi : cells.get? i = some old) : (cells.set i new).get? i = some new := by
  induction cells generalizing i with
  | nil => simp at hi
  | cons c cs ih =>
    cases i with
    | zero => rfl
    | succ i =>
      simp only [List.get?_cons_succ] at hi
      simpa using ih i hi

theorem validate_int_apply (libc : LibC) (name : CString) (b : setting_int_t) (v : Int) :
    validateAndApplySetting libc { name := name, u := setting_union.s_int b } (NewVal.int v) false
      = if b.minVal ≤ v ∧ v ≤ b.maxVal then
          some { name := name, u := setting_union.s_int { b with val := v } }
        else none := by
  by_cases h1 : v < b.minVal
  · have : ¬ (b.minVal ≤ v ∧ v ≤ b.maxVal) := fun h => absurd h.1 (not_le.2 h1)
    simp [validateAndApplySetting, validateInt, h1, this]
  · by_cases h2 : v > b.maxVal
    · have : ¬ (b.minVal ≤ v ∧ v ≤ b.maxVal) := fun h => absurd h.2 (not_le.2 h2)
      simp [validateAndApplySetting, validateInt, h1, h2, this]
    · have : b.minVal ≤ v ∧ v ≤ b.maxVal := ⟨not_lt.1 h1, not_lt.1 h2⟩
      simp [validateAndApplySetting, validateInt, h1, h2, this]

theorem set_int_eq (libc : LibC) (s : SettingsState) (id : Nat) (p : GscParams) (i : Nat)
    (name : CString) (b : setting_int_t) (v : Int)
    (hfind : getSettingPtr (s.settingsPerPlayer id) (p.string 0)
      = some (i, { name := name, u := setting_union.s_int b }))
    (harg : (p.isString 1 = false ∧ p.int 1 = v)
      ∨ (p.isString 1 = true ∧ libc.strtol (p.string 1) = some v)) :
    Gsc_SetSetting libc s id p
      = applyOrUndefined libc s id i { name := name, u := setting_union.s_int b }
          (NewVal.int v) (GscValue.int v) := by
  unfold Gsc_SetSetting
  rw [hfind]
  rcases harg with ⟨h1, h2⟩ | ⟨h1, h2⟩
  · simp [h1, h2]
  · simp [h1, h2]

/-- C22 does not hold of the code: the loop that looks for an existing setting
compares the new name with the first setting only, so with the settings `a`
and `b` in place a second `a` is rejected but a second `b` is accepted and
added, and the names are no longer distinct. -/
theorem duplicate_setting_accepted :
    (twoSettings.settingsPerPlayer 0).map (·.name) = ["a".toList, "b".toList]
    ∧ (createInt twoSettings "a".toList).2 = [GscValue.undefined]
    ∧ ((createInt twoSettings "a".toList).1.settingsPerPlayer 0).map (·.name)
        = ["a".toList, "b".toList]
    ∧ (createInt twoSettings "b".toList).2 = [GscValue.int 5, GscValue.string "b".toList]
    ∧ ((createInt twoSettings "b".toList).1.settingsPerPlayer 0).map (·.name)
        = ["a".toList, "b".toList, "b".toList]
    ∧ (createInt twoSettings "b".toList).1.totalSettingsCount = 3 := by
  decide

theorem findSetting_of_nodup (cells : List setting_t) :
    ∀ (i : Nat) (c : setting_t), (cells.map (·.name)).Nodup → cells.get? i = some c →
      findSetting cells c.name = some (i, c) := by
  induction cells with
  | nil => intro i c _ h; simp at h
  | cons d ds ih =>
    intro i c hnd h
    rw [List.map_cons, List.nodup_cons] at hnd
    cases i with
    | zero =>
      simp only [List.get?_cons_zero, Option.some.injEq] at h
      subst h
      simp [findSetting]
    | succ i =>
      simp only [List.get?_cons_succ] at h
      have hne : ¬ c.name = d.name := by
        intro e
        exact hnd.1 (e ▸ List.mem_map_of_mem _ (List.get?_mem h))
      simp only [findSetting, hne, if_false, ih i c hnd.2 h, Option.map_some']

/-- C23, as the code has it: for the int setting that the name resolves to for
a player (the first of the player's settings with that name), with the bounds
`minVal` and `maxVal`, `Gsc_SetSetting` with the integer `v` (given as an
integer, or as a string that `strtol` converts to `v`) stores `v` in that
player's setting and pushes `v` if `minVal <= v <= maxVal`, and pushes
undefined and changes nothing otherwise. The setting is cell `i` of the
player, and the write changes only the value of that cell: its name, bounds
and default, the other cells of the player and the settings of every other
player are as before. A following `Gsc_GetSetting` for the player and the name
gives `v` after a success and the old value after a rejection. When the names
of a player's settings are pairwise distinct, every setting is the one its
name resolves to. -/
theorem set_int_setting_validates (libc : LibC) (s : SettingsState) (id : Nat) (p : GscParams)
    (i : Nat) (name : CString) (b : setting_int_t) (v : Int)
    (hfind : getSettingPtr (s.settingsPerPlayer id) (p.string 0)
      = some (i, { name := name, u := setting_union.s_int b }))
    (harg : (p.isString 1 = false ∧ p.int 1 = v)
      ∨ (p.isString 1 = true ∧ libc.strtol (p.string 1) = some v)) :
    ((b.minVal ≤ v ∧ v ≤ b.maxVal) →
      Gsc_SetSetting libc s id p
        = (storeSetting s id i { name := name, u := setting_union.s_int { b with val := v } },
            [GscValue.int v])
      ∧ Gsc_GetSetting
          (storeSetting s id i { name := name, u := setting_union.s_int { b with val := v } })
          id p = [GscValue.int v])
    ∧ (¬ (b.minVal ≤ v ∧ v ≤ b.maxVal) →
      Gsc_SetSetting libc s id p = (s, [GscValue.undefined])
      ∧ Gsc_GetSetting s id p = [GscValue.int b.val])
    ∧ (s.settingsPerPlayer id).get? i = some { name := name, u := setting_union.s_int b }
    ∧ (∀ (x : setting_t) (j : Nat), j ≠ id →
        (storeSetting s id i x).settingsPerPlayer j = s.settingsPerPlayer j)
    ∧ (∀ (x : setting_t) (k : Nat), k ≠ i →
        ((storeSetting s id i x).settingsPerPlayer id).get? k = (s.settingsPerPlayer id).get? k)
    ∧ ((storeSetting s id i { name := name, u := setting_union.s_int { b with val := v } }
          ).settingsPerPlayer id).get? i
        = some { name := name,
                 u := setting_union.s_int ⟨v, b.minVal, b.maxVal, b.defaultVal⟩ }
    ∧ (∀ (cells : List setting_t) (k : Nat) (c : setting_t), (cells.map (·.name)).Nodup →
        cells.get? k = some c → c.name.length < 32 →
        getSettingPtr cells c.name = some (k, c)) := by
  have hset := set_int_eq libc s id p i name b v hfind harg
  have hstore : ∀ x : setting_t,
      (storeSetting s id i x).settingsPerPlayer id = (s.settingsPerPlayer id).set i x := by
    intro x
    show setAt _ id _ id = _
    rw [setAt_same]
  have hlen : ¬ 32 ≤ (p.string 0).length := by
    intro h
    unfold getSettingPtr at hfind
    rw [if_pos h] at hfind
    simp at hfind
  have hfs : findSetting (s.settingsPerPlayer id) (p.string 0)
      = some (i, { name := name, u := setting_union.s_int b }) := by
    unfold getSettingPtr at hfind
    rw [if_neg hlen] at hfind
    exact hfind
  have hcell := (findSetting_position _ _ _ _ hfs).1
  refine ⟨?_, ?_, hcell, ?_, ?_, ?_, ?_⟩
  · intro hv
    constructor
    · rw [hset, applyOrUndefined, validate_int_apply, if_pos hv]
    · unfold Gsc_GetSetting
      rw [hstore]
      unfold getSettingPtr
      rw [if_neg hlen, findSetting_set _ _
        { name := name, u := setting_union.s_int { b with val := v } } _ _ hfs rfl]
  · intro hv
    constructor
    · rw [hset, applyOrUndefined, validate_int_apply, if_neg hv]
    · unfold Gsc_GetSetting
      rw [hfind]
  · intro x j hj
    show setAt _ id _ j = _
    exact setAt_other _ _ _ _ hj
  · intro x k hk
    rw [hstore, List.get?_eq_getElem?, List.get?_eq_getElem?, List.getElem?_set_ne (Ne.symm hk)]
  · rw [hstore]
    exact get?_set_same _ i _ _ hcell
  · intro cells k c hnd hk hlen
    unfold getSettingPtr
    rw [if_neg (by omega)]
    exact findSetting_of_nodup cells k c hnd hk

theorem set_int_setting_validates_witness :
    (getSettingPtr (twoSettings.settingsPerPlayer 3) ((setIntParams "b".toList 7).string 0)
        = some (1, { name := "b".toList, u := setting_union.s_int ⟨5, 0, 10, 5⟩ })
      ∧ (setIntParams "b".toList 7).isString 1 = false
      ∧ (setIntParams "b".toList 7).int 1 = 7)
    ∧ Gsc_SetSetting noLibC twoSettings 3 (setIntParams "b".toList 7)
        = (storeSetting twoSettings 3 1
            { name := "b".toList, u := setting_union.s_int ⟨7, 0, 10, 5⟩ }, [GscValue.int 7])
    ∧ Gsc_GetSetting
        (storeSetting twoSettings 3 1
          { name := "b".toList, u := setting_union.s_int ⟨7, 0, 10, 5⟩ })
        3 (setIntParams "b".toList 7) = [GscValue.int 7] :=
  ⟨⟨by decide, by decide, by decide⟩,
    (set_int_setting_validates noLibC twoSettings 3 (setIntParams "b".toList 7) 1 "b".toList
      ⟨5, 0, 10, 5⟩ 7 (by decide) (Or.inl ⟨by decide, by decide⟩)).1
      ⟨by decide, by decide⟩⟩

/-- C23 fails as stated: with the settings `a`, `b` (bounds 0 and 10) and a
second `b` (bounds 0 and 100) in place, the second `b` is an existing int
setting and 50 lies within its bounds, yet `Gsc_SetSetting` for `b` and 50
pushes undefined and stores nothing; for `b` and 7 it pushes 7 and stores it
in the first `b`, and the value of the second `b` stays 5. -/
theorem shadowed_setting_counterexample :
    (shadowedSettings.settingsPerPlayer 0).get? 2
      = some { name := "b".toList, u := setting_union.s_int ⟨5, 0, 100, 5⟩ }
    ∧ Gsc_SetSetting noLibC shadowedSettings 0 (setIntParams "b".toList 50)
      = (shadowedSettings, [GscValue.undefined])
    ∧ (Gsc_SetSetting noLibC shadowedSettings 0 (setIntParams "b".toList 7)).2 = [GscValue.int 7]
    ∧ ((Gsc_SetSetting noLibC shadowedSettings 0 (setIntParams "b".toList 7)).1.settingsPerPlayer
          0).map (fun c => (c.name, c.u))
      = [("a".toList, setting_union.s_int ⟨5, 0, 10, 5⟩),
         ("b".toList, setting_union.s_int ⟨7, 0, 10, 5⟩),
         ("b".toList, setting_union.s_int ⟨5, 0, 100, 5⟩)] :=
  ⟨by decide, rfl, by decide, by decide⟩

/-- A string setting given a value that is not a string: `Gsc_SetSetting`
returns with nothing pushed and nothing changed. -/
theorem set_string_setting_with_int :
    (Gsc_SetSetting noLibC stringSetting 0 (setIntParams "n".toList 3)).2 = []
    ∧ (Gsc_SetSetting noLibC stringSetting 0 (setIntParams "n".toList 3)).1.settingsPerPlayer 0
      = stringSetting.settingsPerPlayer 0 := by
  decide

theorem taskSteps_forward {q q' : List mysqla_task} (h : List.Forall₂ TaskStep q q')
    (t : mysqla_task) (ht : t ∈ q) : ∃ u ∈ q', TaskStep t u := by
  induction h with
  | nil => simp at ht
  | cons hst _ ih =>
    rcases List.mem_cons.1 ht with rfl | ht
    · exact ⟨_, List.mem_cons_self _ _, hst⟩
    · obtain ⟨u, hu, hs⟩ := ih ht
      exact ⟨u, List.mem_cons_of_mem _ hu, hs⟩

theorem connSteps_keep_bound {conns conns' : List mysqla_connection}
    (h : List.Forall₂ ConnStep conns conns') :
    ∀ (k : Nat) (c : mysqla_connection) (a : Nat), conns.get? k = some c → c.task = some a →
      conns'.get? k = some c := by
  induction h with
  | nil => intro k c a hk; simp at hk
  | cons hst _ ih =>
    intro k c a hk hb
    cases k with
    | zero =>
      simp only [List.get?_cons_zero, Option.some.injEq] at hk
      subst hk
      rcases hst with rfl | ⟨hnone, _⟩
      · rfl
      · rw [hb] at hnone; simp at hnone
    | succ k =>
      simp only [List.get?_cons_succ] at hk ⊢
      exact ih k c a hk hb

theorem Stuck_step (a c : Nat) (s s' : State) (act : Action) (h : Stuck a c s)
    (hs : step s act = some s') : Stuck a c s' := by
  have hinv' : Inv s' := Inv_step s s' act h.1 hs
  obtain ⟨hinv, ⟨t, ht, hta, hts, htd⟩, ⟨conn, hconn, hbound⟩, hw⟩ := h
  refine ⟨hinv', ?_⟩
  have hpool : s.first_async_connection ≠ [] := by
    intro he; rw [he] at hconn; simp at hconn
  cases act with
  | initializer args env =>
    rw [initializer_step_of_pool s s' args env hpool hs]
    exact ⟨⟨t, ht, hta, hts, htd⟩, ⟨conn, hconn, hbound⟩, hw⟩
  | create_level_query addr query saveResult =>
    simp only [step] at hs
    by_cases hm : addr ∈ liveAddrs s
    · simp [hm] at hs
    · simp only [hm, if_false, Option.some.injEq] at hs
      subst hs
      refine ⟨⟨t, ?_, hta, hts, htd⟩, ⟨conn, hconn, hbound⟩, hw⟩
      show t ∈ linkAtTail _ s.first_async_task
      rw [linkAtTail_eq_append]
      exact List.mem_append_left _ ht
  | create_entity_query addr num query saveResult =>
    simp only [step] at hs
    by_cases hm : addr ∈ liveAddrs s
    · simp [hm] at hs
    · simp only [hm, if_false, Option.some.injEq] at hs
      subst hs
      refine ⟨⟨t, ?_, hta, hts, htd⟩, ⟨conn, hconn, hbound⟩, hw⟩
      show t ∈ linkAtTail _ s.first_async_task
      rw [linkAtTail_eq_append]
      exact List.mem_append_left _ ht
  | handler_cycle pc =>
    simp only [step] at hs
    by_cases hst : s.started = true
    · simp only [hst, if_true, Option.some.injEq] at hs
      subst hs
      obtain ⟨hT, hC⟩ := handlerLoop_steps pc s.first_async_task 0 s.first_async_connection
      obtain ⟨hW, -⟩ := handlerLoop_workers pc s.first_async_task 0 s.first_async_connection
      refine ⟨?_, ⟨conn, connSteps_keep_bound hC c conn a hconn hbound, hbound⟩, ?_⟩
      · obtain ⟨u, hu, hstep⟩ := taskSteps_forward hT t ht
        rcases hstep with rfl | ⟨hns, _⟩
        · exact ⟨u, hu, hta, hts, htd⟩
        · rw [hts] at hns; simp at hns
      · show c ∉ s.workers ++ _
        intro hmem
        rcases List.mem_append.1 hmem with hmem | hmem
        · exact hw hmem
        · obtain ⟨k, c0, _, hk, hc0, hidle, -⟩ := hW c hmem
          rw [Nat.zero_add] at hk
          subst hk
          rw [hconn] at hc0
          simp only [Option.some.injEq] at hc0
          subst hc0
          rw [hbound] at hidle
          simp at hidle
    · simp [hst] at hs
  | execute_query c' outcome fopenOk =>
    simp only [step] at hs
    by_cases hm : c' ∈ s.workers
    · simp only [hm, if_true] at hs
      obtain ⟨conn', p, task, hc', hp, _, rfl⟩ := execute_query_eq s c' outcome fopenOk s' hs
      have hne : c ≠ c' := fun e => hw (e ▸ hm)
      have hnd : (boundAddrs s.first_async_connection).Nodup :=
        (List.Perm.nodup_iff hinv.matching).2 (runningAddrs_nodup _ hinv.addrs_nodup)
      have hpa : p ≠ a := by
        intro e
        subst e
        exact hne (boundAddrs_index_unique _ hnd c c' conn conn' p hconn hc' hbound hp)
      refine ⟨⟨t, ?_, hta, hts, htd⟩, ⟨conn, ?_, hbound⟩, ?_⟩
      · show t ∈ updateTask p _ s.first_async_task
        simp only [updateTask, List.mem_map]
        refine ⟨t, ht, ?_⟩
        have : ¬ t.addr = p := by rw [hta]; exact fun e => hpa e.symm
        simp [this]
      · show (s.first_async_connection.set c' _).get? c = some conn
        rw [List.get?_eq_getElem?, List.getElem?_set_ne (Ne.symm hne), ← List.get?_eq_getElem?]
        exact hconn
      · show c ∉ s.workers.erase c'
        exact fun hmem => hw (List.mem_of_mem_erase hmem)
    · simp [hm] at hs
  | handle_result_callbacks =>
    simp only [step, Option.some.injEq] at hs
    subst hs
    refine ⟨⟨t, mem_collected_of_not_done s t ht htd, hta, hts, htd⟩, ?_⟩
    by_cases hcb : s.mysql_result_callback = 0
    · simpa [mysql_handle_result_callbacks, hcb] using
        (⟨⟨conn, hconn, hbound⟩, hw⟩ :
          (∃ conn, s.first_async_connection.get? c = some conn ∧ conn.task = some a)
            ∧ c ∉ s.workers)
    · simpa [mysql_handle_result_callbacks, hcb] using
        (⟨⟨conn, hconn, hbound⟩, hw⟩ :
          (∃ conn, s.first_async_connection.get? c = some conn ∧ conn.task = some a)
            ∧ c ∉ s.workers)
  | ondisconnect num =>
    simp only [step, Option.some.injEq] at hs
    subst hs
    refine ⟨?_, ⟨conn, hconn, hbound⟩, hw⟩
    by_cases he : t.entity = some num
    · refine ⟨{ t with entityDisconnected := true }, ?_, hta, hts, htd⟩
      simp only [gsc_mysqla_ondisconnect, List.mem_map]
      exact ⟨t, ht, by rw [if_pos he]⟩
    · refine ⟨t, ?_, hta, hts, htd⟩
      simp only [gsc_mysqla_ondisconnect, List.mem_map]
      exact ⟨t, ht, by rw [if_neg he]⟩

theorem Stuck_run (a c : Nat) (acts : List Action) :
    ∀ (s s' : State), Stuck a c s → run s acts = some s' → Stuck a c s' := by
  induction acts with
  | nil => intro s s' h hr; simp only [run, Option.some.injEq] at hr; subst hr; exact h
  | cons x rest ih =>
    intro s s' h hr
    simp only [run] at hr
    cases hst : step s x with
    | none => rw [hst] at hr; simp at hr
    | some s1 =>
      rw [hst] at hr
      exact ih s1 s' (Stuck_step a c s s1 x h hst) hr

theorem spawnFailState_run : run State.start spawnFailActs = some spawnFailState := by decide

theorem spawnFailState_stuck : Stuck 100 0 spawnFailState := by
  refine ⟨Inv_of_reachable _ ⟨spawnFailActs, spawnFailState_run⟩, ?_, ?_, by decide⟩
  · exact ⟨(spawnFailState.first_async_task.head?).getD (mkTask 0 0 none false false none),
      by decide, by decide, by decide, by decide⟩
  · exact ⟨{ task := some 100, connection := some 2 }, by decide, rfl⟩

/-- C25 does not hold of the code: after a handler cycle in which
`pthread_create` fails for the first pairing, the task is marked started and
the connection is bound to it although no thread runs the query. The next
cycle, in which threads can be created, passes over both, and whatever happens
afterwards the task stays started and not done and the connection stays bound
to it. -/
theorem failed_spawn_leaves_pair_bound :
    run State.start spawnFailActs = some spawnFailState
    ∧ spawnFailState.first_async_task.map (fun t => (t.addr, t.started, t.done))
        = [(100, true, false), (101, false, false)]
    ∧ spawnFailState.first_async_connection.map (·.task) = [some 100, none]
    ∧ spawnFailState.workers = []
    ∧ (handlerCycle spawnFailState fun _ => 0).first_async_task.map
          (fun t => (t.addr, t.started, t.done))
        = [(100, true, false), (101, true, false)]
    ∧ (handlerCycle spawnFailState fun _ => 0).first_async_connection.map (·.task)
        = [some 100, some 101]
    ∧ (handlerCycle spawnFailState fun _ => 0).workers = [1]
    ∧ ∀ (acts : List Action) (s' : State), run spawnFailState acts = some s' →
        (∃ t ∈ s'.first_async_task, t.addr = 100 ∧ t.started = true ∧ t.done = false)
        ∧ ∃ conn, s'.first_async_connection.get? 0 = some conn ∧ conn.task = some 100 := by
  refine ⟨by decide, by decide, by decide, by decide, by decide, by decide, by decide, ?_⟩
  intro acts s' hr
  obtain ⟨-, h1, h2, -⟩ := Stuck_run 100 0 acts spawnFailState s' spawnFailState_stuck hr
  exact ⟨h1, h2⟩

theorem hexDigitValue_digitChar (d : Nat) (h : d < 16) :
    hexDigitValue (Nat.digitChar d) = some d := by
  interval_cases d <;> decide

theorem lowerHex_plain (c : Char) (h : IsLowerHex c) :
    isspace c = false ∧ c.toNat ≠ 45 ∧ c.toNat ≠ 43 ∧ c.toNat ≠ 120 ∧ c.toNat ≠ 88 := by
  obtain ⟨d, hd, rfl⟩ := h
  interval_cases d <;> decide

theorem toDigitsCore_lowerHex (fuel : Nat) : ∀ (n : Nat) (ds : List Char),
    (∀ c ∈ ds, IsLowerHex c) → ∀ c ∈ Nat.toDigitsCore 16 fuel n ds, IsLowerHex c := by
  induction fuel with
  | zero => intro n ds h; simpa [Nat.toDigitsCore] using h
  | succ fuel ih =>
    intro n ds h
    have hcons : ∀ c ∈ Nat.digitChar (n % 16) :: ds, IsLowerHex c := by
      intro c hc
      rcases List.mem_cons.1 hc with rfl | hc
      · exact ⟨n % 16, Nat.mod_lt _ (by decide), rfl⟩
      · exact h c hc
    simp only [Nat.toDigitsCore]
    split_ifs
    · exact hcons
    · exact ih _ _ hcons

theorem hexDigits_toDigitsCore (fuel : Nat) : ∀ (n : Nat) (ds : List Char), n < fuel →
    hexDigits (Nat.toDigitsCore 16 fuel n ds) 0 = hexDigits ds n := by
  induction fuel with
  | zero => intro n ds h; omega
  | succ fuel ih =>
    intro n ds h
    have hd : hexDigitValue (Nat.digitChar (n % 16)) = some (n % 16) :=
      hexDigitValue_digitChar _ (Nat.mod_lt _ (by decide))
    simp only [Nat.toDigitsCore]
    split_ifs with h0
    · have hn : n % 16 = n := Nat.mod_eq_of_lt (by omega)
      rw [hn] at hd
      simp only [hexDigits, hn, hd, Nat.zero_mul, Nat.zero_add]
    · rw [ih (n / 16) _ (by omega)]
      simp only [hexDigits, hd]
      congr 1
      omega

theorem hexDigits_zeros (k : Nat) (l : List Char) :
    hexDigits (List.replicate k '0' ++ l) 0 = hexDigits l 0 := by
  induction k with
  | zero => rfl
  | succ k ih =>
    have h0 : hexDigitValue '0' = some 0 := by decide
    simp only [List.replicate_succ, List.cons_append, hexDigits, h0, Nat.zero_mul, Nat.add_zero]
    exact ih

theorem fmtHex08_spec (u : Nat) (hu : u < 4294967296) :
    (fmtHex08 u).length = 8 ∧ (∀ c ∈ fmtHex08 u, IsLowerHex c) ∧ hexDigits (fmtHex08 u) 0 = u := by
  have hlen : (Nat.toDigits 16 u).length ≤ 8 :=
    Nat.toDigitsCore_length 16 (by decide) (u + 1) u 8 (by omega) (by decide)
  refine ⟨?_, ?_, ?_⟩
  · simp only [fmtHex08, List.length_append, List.length_replicate]
    omega
  · intro c hc
    simp only [fmtHex08, List.mem_append, List.mem_replicate] at hc
    rcases hc with ⟨-, rfl⟩ | hc
    · exact ⟨0, by decide, rfl⟩
    · exact toDigitsCore_lowerHex (u + 1) u [] (fun c hc => by simp at hc) c hc
  · rw [fmtHex08, hexDigits_zeros]
    show hexDigits (Nat.toDigitsCore 16 (u + 1) u []) 0 = u
    rw [hexDigits_toDigitsCore (u + 1) u [] (by omega)]
    rfl

theorem strtoul16_of_lowerHex (s : CString) (hlen : s.length = 8)
    (hhex : ∀ c ∈ s, IsLowerHex c) (hval : hexDigits s 0 < 4294967296) :
    strtoul16 s = hexDigits s 0 := by
  match s, hlen, hhex, hval with
  | c0 :: c1 :: c2 :: r, _, hhex, hval =>
    obtain ⟨h0s, h0m, h0p, -, -⟩ := lowerHex_plain c0 (hhex c0 (by simp))
    obtain ⟨-, -, -, h1x, h1X⟩ := lowerHex_plain c1 (hhex c1 (by simp))
    have hdrop : (c0 :: c1 :: c2 :: r).dropWhile isspace = c0 :: c1 :: c2 :: r := by
      simp [List.dropWhile, h0s]
    have hsign : stripSign (c0 :: c1 :: c2 :: r) = (false, c0 :: c1 :: c2 :: r) := by
      simp [stripSign, h0m, h0p]
    have hpre : stripHexPrefix (c0 :: c1 :: c2 :: r) = c0 :: c1 :: c2 :: r := by
      simp [stripHexPrefix, h1x, h1X]
    unfold strtoul16
    simp only [hdrop, hsign, hpre]
    rw [if_neg (by omega)]
    simp

/-- For every 32-bit integer `v`, `Gsc_Utils_IntToHexString` pushes a string of
eight lower-case hexadecimal digits whose value is the bit pattern of `v`, and
for `v` other than 0 `Gsc_Utils_HexStringToInt` pushes `v` for that string. -/
theorem hex_round_trip_nonzero (v : Int) (hv : -2147483648 ≤ v ∧ v < 2147483648) :
    ∃ s : CString, Gsc_Utils_IntToHexString v = [HostCall.stackPushString s]
      ∧ s.length = 8 ∧ (∀ c ∈ s, IsLowerHex c)
      ∧ (hexDigits s 0 : Int) = v % 4294967296
      ∧ (v ≠ 0 → Gsc_Utils_HexStringToInt (some s) = [HostCall.stackPushInt v]) := by
  have hu : (v % 4294967296).toNat < 4294967296 := by omega
  obtain ⟨h1, h2, h3⟩ := fmtHex08_spec _ hu
  have htake : snprintf_s 9 (fmtHex08 (v % 4294967296).toNat) = fmtHex08 (v % 4294967296).toNat := by
    unfold snprintf_s
    exact List.take_of_length_le (by rw [h1])
  refine ⟨fmtHex08 (v % 4294967296).toNat, ?_, h1, h2, ?_, ?_⟩
  · unfold Gsc_Utils_IntToHexString
    rw [htake]
  · rw [h3]
    omega
  · intro hv0
    have hs := strtoul16_of_lowerHex _ h1 h2 (by rw [h3]; exact hu)
    rw [h3] at hs
    have hint : toInt32 ((v % 4294967296).toNat : Int) = v := by
      unfold toInt32
      omega
    unfold Gsc_Utils_HexStringToInt
    simp only [hs, hint]
    rw [if_neg (fun h => hv0 h.1)]

theorem hex_round_trip_nonzero_witness :
    ((-2147483648 : Int) ≤ -2 ∧ (-2 : Int) < 2147483648)
    ∧ ∃ s : CString, Gsc_Utils_IntToHexString (-2) = [HostCall.stackPushString s]
      ∧ s.length = 8 ∧ (∀ c ∈ s, IsLowerHex c)
      ∧ (hexDigits s 0 : Int) = -2 % 4294967296
      ∧ ((-2 : Int) ≠ 0 → Gsc_Utils_HexStringToInt (some s) = [HostCall.stackPushInt (-2)]) :=
  ⟨by decide, hex_round_trip_nonzero (-2) (by decide)⟩

/-! ## Liveness of the dispatch -/

theorem derefTask_cons (a : Nat) (t : mysqla_task) (q : List mysqla_task) :
    derefTask a (t :: q) = if t.addr = a then some t else derefTask a q := by
  unfold derefTask
  rw [List.find?_cons]
  by_cases h : t.addr = a <;> simp [h]

theorem derefTask_of_map_key (a : Nat) (q : List mysqla_task) :
    ∀ (q' : List mysqla_task) (u : mysqla_task), q'.map taskKey = q.map taskKey →
      derefTask a q = some u →
      ∃ u', derefTask a q' = some u' ∧ taskKey u' = taskKey u := by
  induction q with
  | nil => intro q' u _ h; simp [derefTask] at h
  | cons t q ih =>
    intro q' u hm h
    cases q' with
    | nil => simp at hm
    | cons t' q' =>
      simp only [List.map_cons, List.cons.injEq] at hm
      have haddr : t'.addr = t.addr := congrArg (·.1) hm.1
      rw [derefTask_cons] at h ⊢
      by_cases ha : t.addr = a
      · rw [if_pos ha, Option.some.injEq] at h
        subst h
        rw [if_pos (haddr.trans ha)]
        exact ⟨t', rfl, hm.1⟩
      · rw [if_neg ha] at h
        rw [if_neg (by rw [haddr]; exact ha)]
        exact ih q' u hm.2 h

theorem pendingUpTo_of_map_key (a : Nat) (q : List mysqla_task) :
    ∀ (q' : List mysqla_task), q'.map taskKey = q.map taskKey →
      pendingUpTo a q' = pendingUpTo a q := by
  induction q with
  | nil =>
    intro q' hm
    cases q' with
    | nil => rfl
    | cons t' q' => simp at hm
  | cons t q ih =>
    intro q' hm
    cases q' with
    | nil => simp at hm
    | cons t' q' =>
      simp only [List.map_cons, List.cons.injEq] at hm
      have haddr : t'.addr = t.addr := congrArg (·.1) hm.1
      have hst : t'.started = t.started := congrArg (·.2.2.2) hm.1
      simp only [pendingUpTo, haddr, hst, ih q' hm.2]

theorem derefTask_append (a : Nat) (q : List mysqla_task) (x u : mysqla_task)
    (h : derefTask a q = some u) : derefTask a (q ++ [x]) = some u := by
  unfold derefTask at h ⊢
  rw [List.find?_append, h]
  rfl

theorem pendingUpTo_append (a : Nat) (x : mysqla_task) (q : List mysqla_task) :
    ∀ u, derefTask a q = some u → pendingUpTo a (q ++ [x]) = pendingUpTo a q := by
  induction q with
  | nil => intro u h; simp [derefTask] at h
  | cons t q ih =>
    intro u h
    rw [derefTask_cons] at h
    by_cases ha : t.addr = a
    · simp only [List.cons_append, pendingUpTo, ha, if_true]
    · rw [if_neg ha] at h
      have e := ih u h
      show (if t.started then 0 else 1) + (if t.addr = a then 0 else pendingUpTo a (q ++ [x]))
        = (if t.started then 0 else 1) + (if t.addr = a then 0 else pendingUpTo a q)
      rw [e]

theorem derefTask_filter (a : Nat) (q : List mysqla_task) :
    ∀ u, derefTask a q = some u → u.done = false →
      derefTask a (q.filter fun t => !t.done) = some u := by
  induction q with
  | nil => intro u h; simp [derefTask] at h
  | cons t q ih =>
    intro u h hd
    rw [derefTask_cons] at h
    by_cases ha : t.addr = a
    · rw [if_pos ha, Option.some.injEq] at h
      subst h
      rw [List.filter_cons_of_pos (by simp [hd]), derefTask_cons, if_pos ha]
    · rw [if_neg ha] at h
      by_cases htd : t.done = true
      · rw [List.filter_cons_of_neg (by simp [htd])]
        exact ih u h hd
      · rw [List.filter_cons_of_pos (by simpa using htd), derefTask_cons, if_neg ha]
        exact ih u h hd

theorem pendingUpTo_filter (a : Nat) (q : List mysqla_task)
    (hf : ∀ t ∈ q, t.done = true → t.started = true) :
    ∀ u, derefTask a q = some u → u.done = false →
      pendingUpTo a (q.filter fun t => !t.done) = pendingUpTo a q := by
  induction q with
  | nil => intro u h; simp [derefTask] at h
  | cons t q ih =>
    intro u h hd
    have hf' : ∀ t ∈ q, t.done = true → t.started = true :=
      fun x hx => hf x (List.mem_cons_of_mem _ hx)
    rw [derefTask_cons] at h
    by_cases ha : t.addr = a
    · rw [if_pos ha, Option.some.injEq] at h
      subst h
      rw [List.filter_cons_of_pos (by simp [hd])]
      simp only [pendingUpTo, ha, if_true]
    · rw [if_neg ha] at h
      by_cases htd : t.done = true
      · rw [List.filter_cons_of_neg (by simp [htd])]
        have hts := hf t (List.mem_cons_self _ _) htd
        simp only [pendingUpTo, ha, if_false, hts, if_true, Nat.zero_add]
        exact ih hf' u h hd
      · rw [List.filter_cons_of_pos (by simpa using htd)]
        simp only [pendingUpTo, ha, if_false, ih hf' u h hd]

theorem derefTask_startFirst (a : Nat) (q : List mysqla_task) :
    ∀ (k : Nat) (u : mysqla_task), derefTask a q = some u →
      ∃ u', derefTask a (startFirst k q) = some u' ∧ u'.taskId = u.taskId
        ∧ u'.query = u.query ∧ u'.done = u.done ∧ (u.started = true → u'.started = true) := by
  induction q with
  | nil => intro k u h; simp [derefTask] at h
  | cons t q ih =>
    intro k u h
    cases k with
    | zero => exact ⟨u, by rw [startFirst_zero]; exact h, rfl, rfl, rfl, id⟩
    | succ k =>
      rw [derefTask_cons] at h
      by_cases hs : t.started = true
      · simp only [startFirst, hs, if_true]
        rw [derefTask_cons]
        by_cases ha : t.addr = a
        · rw [if_pos ha, Option.some.injEq] at h
          subst h
          rw [if_pos ha]
          exact ⟨t, rfl, rfl, rfl, rfl, id⟩
        · rw [if_neg ha] at h
          rw [if_neg ha]
          exact ih (k + 1) u h
      · simp only [startFirst, hs, if_false, Bool.false_eq_true]
        rw [derefTask_cons]
        by_cases ha : t.addr = a
        · rw [if_pos ha, Option.some.injEq] at h
          subst h
          rw [if_pos (show ({ t with started := true } : mysqla_task).addr = a from ha)]
          exact ⟨_, rfl, rfl, rfl, rfl, fun _ => rfl⟩
        · rw [if_neg ha] at h
          rw [if_neg (show ¬ ({ t with started := true } : mysqla_task).addr = a from ha)]
          exact ih k u h

theorem pendingUpTo_startFirst_le (a : Nat) (q : List mysqla_task) :
    ∀ k, pendingUpTo a (startFirst k q) ≤ pendingUpTo a q := by
  induction q with
  | nil => intro k; cases k <;> simp [startFirst, pendingUpTo]
  | cons t q ih =>
    intro k
    cases k with
    | zero => rw [startFirst_zero]
    | succ k =>
      by_cases hs : t.started = true
      · simp only [startFirst, hs, if_true, pendingUpTo, Nat.zero_add]
        by_cases ha : t.addr = a
        · simp [ha]
        · simp only [ha, if_false]; exact ih (k + 1)
      · simp only [startFirst, hs, if_false, Bool.false_eq_true, pendingUpTo, if_true]
        by_cases ha : t.addr = a
        · simp [ha]
        · simp only [ha, if_false]
          have := ih k
          omega

/-- Progress of the oldest-first order: when at least one task is started,
the record at `a`, if pending, is started or has fewer pending tasks ahead. -/
theorem startFirst_progress (a : Nat) (q : List mysqla_task) :
    ∀ (k : Nat) (u : mysqla_task), 0 < k → derefTask a q = some u → u.started = false →
      ∃ u', derefTask a (startFirst k q) = some u'
        ∧ (u'.started = true ∨ pendingUpTo a (startFirst k q) < pendingUpTo a q) := by
  induction q with
  | nil => intro k u _ h; simp [derefTask] at h
  | cons t q ih =>
    intro k u hk h hu
    obtain ⟨k, rfl⟩ : ∃ j, k = j + 1 := ⟨k - 1, by omega⟩
    rw [derefTask_cons] at h
    by_cases hs : t.started = true
    · simp only [startFirst, hs, if_true]
      by_cases ha : t.addr = a
      · rw [if_pos ha, Option.some.injEq] at h
        subst h
        rw [hs] at hu
        exact absurd hu (by simp)
      · rw [if_neg ha] at h
        obtain ⟨u', h1, h2⟩ := ih (k + 1) u (by omega) h hu
        refine ⟨u', by rw [derefTask_cons, if_neg ha]; exact h1, ?_⟩
        rcases h2 with h2 | h2
        · exact Or.inl h2
        · right
          simp only [pendingUpTo, ha, if_false, hs, if_true]
          omega
    · simp only [startFirst, hs, if_false, Bool.false_eq_true]
      by_cases ha : t.addr = a
      · refine ⟨{ t with started := true }, ?_, Or.inl rfl⟩
        rw [derefTask_cons,
          if_pos (show ({ t with started := true } : mysqla_task).addr = a from ha)]
      · rw [if_neg ha] at h
        obtain ⟨u', h1, -⟩ := derefTask_startFirst a q k u h
        refine ⟨u', ?_, Or.inr ?_⟩
        · rw [derefTask_cons,
            if_neg (show ¬ ({ t with started := true } : mysqla_task).addr = a from ha)]
          exact h1
        · have := pendingUpTo_startFirst_le a q k
          simp only [pendingUpTo, ha, if_false, hs, Bool.false_eq_true, if_true]
          omega

theorem pendingCount_pos_of_deref (a : Nat) (q : List mysqla_task) (u : mysqla_task)
    (h : derefTask a q = some u) (hu : u.started = false) : 0 < pendingCount q := by
  unfold pendingCount
  apply List.length_pos.2
  intro he
  have hm := (derefTask_some a q u h).1
  have : u ∈ q.filter fun t => !t.started := List.mem_filter.2 ⟨hm, by simp [hu]⟩
  rw [he] at this
  simp at this

theorem step_kinds (s s' : State) (act : Action) (hs : step s act = some s') :
    (∃ args env, act = Action.initializer args env)
    ∨ (∃ pc, act = Action.handler_cycle pc ∧ s.started = true ∧ s' = handlerCycle s pc)
    ∨ (∃ c o f, act = Action.execute_query c o f ∧ c ∈ s.workers
        ∧ mysqla_execute_query s c o f = some s')
    ∨ ((∀ pc, act ≠ Action.handler_cycle pc) ∧ (∀ c o f, act ≠ Action.execute_query c o f)
        ∧ s'.first_async_connection = s.first_async_connection ∧ s'.workers = s.workers
        ∧ s'.started = s.started
        ∧ (s'.first_async_task.map taskKey = s.first_async_task.map taskKey
          ∨ (∃ x, s'.first_async_task = s.first_async_task ++ [x])
          ∨ s'.first_async_task = s.first_async_task.filter fun t => !t.done)) := by
  cases act with
  | initializer args env => exact Or.inl ⟨args, env, rfl⟩
  | create_level_query addr query saveResult =>
    simp only [step] at hs
    by_cases hm : addr ∈ liveAddrs s
    · simp [hm] at hs
    · simp only [hm, if_false, Option.some.injEq] at hs
      subst hs
      exact Or.inr (Or.inr (Or.inr ⟨fun _ h => Action.noConfusion h,
        fun _ _ _ h => Action.noConfusion h, rfl, rfl, rfl,
        Or.inr (Or.inl ⟨_, linkAtTail_eq_append _ _⟩)⟩))
  | create_entity_query addr num query saveResult =>
    simp only [step] at hs
    by_cases hm : addr ∈ liveAddrs s
    · simp [hm] at hs
    · simp only [hm, if_false, Option.some.injEq] at hs
      subst hs
      exact Or.inr (Or.inr (Or.inr ⟨fun _ h => Action.noConfusion h,
        fun _ _ _ h => Action.noConfusion h, rfl, rfl, rfl,
        Or.inr (Or.inl ⟨_, linkAtTail_eq_append _ _⟩)⟩))
  | handler_cycle pc =>
    simp only [step] at hs
    by_cases hst : s.started = true
    · simp only [hst, if_true, Option.some.injEq] at hs
      exact Or.inr (Or.inl ⟨pc, rfl, hst, hs.symm⟩)
    · simp [hst] at hs
  | execute_query c outcome fopenOk =>
    simp only [step] at hs
    by_cases hm : c ∈ s.workers
    · simp only [hm, if_true] at hs
      exact Or.inr (Or.inr (Or.inl ⟨c, outcome, fopenOk, rfl, hm, hs⟩))
    · simp [hm] at hs
  | handle_result_callbacks =>
    simp only [step, Option.some.injEq] at hs
    subst hs
    refine Or.inr (Or.inr (Or.inr ⟨fun _ h => Action.noConfusion h,
      fun _ _ _ h => Action.noConfusion h, ?_⟩))
    by_cases hcb : s.mysql_result_callback = 0
    · have e : mysql_handle_result_callbacks s = s := by
        simp [mysql_handle_result_callbacks, hcb]
      rw [e]
      exact ⟨rfl, rfl, rfl, Or.inl rfl⟩
    · have hrest : (mysql_handle_result_callbacks s).first_async_connection
            = s.first_async_connection
          ∧ (mysql_handle_result_callbacks s).workers = s.workers
          ∧ (mysql_handle_result_callbacks s).started = s.started := by
        simp [mysql_handle_result_callbacks, hcb]
      exact ⟨hrest.1, hrest.2.1, hrest.2.2, Or.inr (Or.inr (collector_keeps_not_done s hcb))⟩
  | ondisconnect num =>
    simp only [step, Option.some.injEq] at hs
    subst hs
    refine Or.inr (Or.inr (Or.inr ⟨fun _ h => Action.noConfusion h,
      fun _ _ _ h => Action.noConfusion h, ?_⟩))
    rw [ondisconnect_eq]
    refine ⟨rfl, rfl, rfl, Or.inl ?_⟩
    show (s.first_async_task.map (markDisconnected num)).map taskKey = _
    rw [List.map_map]
    exact List.map_congr_left fun t _ => rfl

/-- What an initialisation step does to the parts of the state the dispatch of
tasks depends on. -/
theorem step_initializer_kind (s s' : State) (args : InitArgs) (env : InitEnv)
    (hs : step s (Action.initializer args env) = some s') :
    s'.first_async_task = s.first_async_task
    ∧ s'.workers = s.workers
    ∧ (s.first_async_connection ≠ [] → s' = s)
    ∧ (s.first_async_connection = [] → ∀ c ∈ s'.first_async_connection, c.task = none)
    ∧ (s'.started = true → s.started = true ∨ s'.first_async_connection ≠ []) := by
  obtain ⟨calls, hr⟩ := initializer_step s s' args env hs
  refine ⟨(initializer_step_frame s s' args env hs).1, ?_,
    fun hp => initializer_step_of_pool s s' args env hp hs, ?_, ?_⟩
  · rcases initializer_cases s args env _ hr with h0 | h0 | ⟨pool, s2, -, -, hs2, h0 | h0⟩
    · rw [show s' = s from h0]
    · rw [show s' = _ from h0]
    · rw [show s' = s2 from h0, hs2]
    · rw [show s' = mysqla_query_handler s2 from h0, (query_handler_frame s2).2.2.1, hs2]
  · intro hp
    rcases initializer_cases s args env _ hr with h0 | h0 | ⟨pool, s2, -, hpool, hs2, h0⟩
    · rw [show s' = s from h0, hp]; simp
    · rw [show s' = _ from h0]
      show ∀ c ∈ s.first_async_connection, c.task = none
      rw [hp]; simp
    · have hidle : ∀ c ∈ pool, c.task = none :=
        initConnections_idle env _ 0 [] pool (by simp) hpool
      have h2 : s2.first_async_connection = pool := by rw [hs2]
      rcases h0 with h0 | h0
      · rw [show s' = s2 from h0, h2]; exact hidle
      · rw [show s' = mysqla_query_handler s2 from h0, (query_handler_frame s2).2.1, h2]
        exact hidle
  · intro hst
    rcases initializer_cases s args env _ hr with h0 | h0 | ⟨pool, s2, -, -, hs2, h0 | h0⟩
    · rw [show s' = s from h0] at hst; exact Or.inl hst
    · rw [show s' = _ from h0] at hst; exact Or.inl hst
    · rw [show s' = s2 from h0, hs2] at hst; exact Or.inl hst
    · have e : s' = mysqla_query_handler s2 := h0
      rw [e] at hst ⊢
      unfold mysqla_query_handler at hst ⊢
      by_cases h1 : s2.started = true
      · rw [if_pos h1] at hst
        rw [hs2] at hst
        exact Or.inl hst
      · rw [if_neg h1] at hst ⊢
        by_cases h2 : s2.first_async_connection = []
        · rw [if_pos h2] at hst
          exact absurd hst h1
        · rw [if_neg h2]
          exact Or.inr h2

theorem derefTask_updateTask (a : Nat) (f : mysqla_task → mysqla_task)
    (hf : ∀ t, (f t).addr = t.addr) (q : List mysqla_task) :
    ∀ u, derefTask a q = some u → derefTask a (updateTask a f q) = some (f u) := by
  induction q with
  | nil => intro u h; simp [derefTask] at h
  | cons t q ih =>
    intro u h
    rw [derefTask_cons] at h
    rw [updateTask_cons, derefTask_cons]
    by_cases ha : t.addr = a
    · rw [if_pos ha, Option.some.injEq] at h
      subst h
      rw [if_pos ha, if_pos ((hf t).trans ha)]
    · rw [if_neg ha] at h
      rw [if_neg ha, if_neg ha]
      exact ih u h

theorem pendingUpTo_pos (a : Nat) (q : List mysqla_task) :
    ∀ u, derefTask a q = some u → u.started = false → 0 < pendingUpTo a q := by
  induction q with
  | nil => intro u h; simp [derefTask] at h
  | cons t q ih =>
    intro u h hu
    rw [derefTask_cons] at h
    by_cases ha : t.addr = a
    · rw [if_pos ha, Option.some.injEq] at h
      subst h
      simp [pendingUpTo, hu]
    · rw [if_neg ha] at h
      have := ih u h hu
      simp only [pendingUpTo, ha, if_false]
      omega

theorem idleCount_cons (d : mysqla_connection) (ds : List mysqla_connection) :
    idleCount (d :: ds) = (if d.task.isNone then 1 else 0) + idleCount ds := by
  unfold idleCount
  by_cases hd : d.task.isNone = true
  · simp only [List.filter_cons, hd, if_true, List.length_cons]; omega
  · simp only [List.filter_cons, hd, if_false, Bool.false_eq_true]; omega

theorem idleCount_set_unbind (pool : List mysqla_connection) :
    ∀ (c : Nat) (conn : mysqla_connection), pool.get? c = some conn →
      idleCount pool ≤ idleCount (pool.set c { conn with task := none })
      ∧ 0 < idleCount (pool.set c { conn with task := none }) := by
  induction pool with
  | nil => intro c conn h; simp at h
  | cons d ds ih =>
    intro c conn h
    cases c with
    | zero =>
      simp only [List.get?_cons_zero, Option.some.injEq] at h
      subst h
      rw [List.set_cons_zero, idleCount_cons, idleCount_cons]
      have e : ({ d with task := none } : mysqla_connection).task.isNone = true := rfl
      rw [if_pos e]
      constructor
      · split_ifs <;> omega
      · omega
    | succ c =>
      simp only [List.get?_cons_succ] at h
      obtain ⟨h1, h2⟩ := ih c conn h
      rw [List.set_cons_succ, idleCount_cons, idleCount_cons]
      constructor <;> omega

/-- A step keeps a task that is not done in the queue, with its identifier and
query, started if it was, and with no more pending tasks up to it. -/
theorem step_task (s s' : State) (act : Action) (hinv : Inv s) (hs : step s act = some s')
    (hpc : ∀ pc, act = Action.handler_cycle pc → ∀ i, pc i = 0)
    (a : Nat) (u : mysqla_task) (h : derefTask a s.first_async_task = some u)
    (hd : u.done = false) :
    ∃ u', derefTask a s'.first_async_task = some u' ∧ u'.taskId = u.taskId
      ∧ u'.query = u.query ∧ (u.started = true → u'.started = true)
      ∧ pendingUpTo a s'.first_async_task ≤ pendingUpTo a s.first_async_task := by
  have ofKey : s'.first_async_task.map taskKey = s.first_async_task.map taskKey →
      ∃ u', derefTask a s'.first_async_task = some u' ∧ u'.taskId = u.taskId
        ∧ u'.query = u.query ∧ (u.started = true → u'.started = true)
        ∧ pendingUpTo a s'.first_async_task ≤ pendingUpTo a s.first_async_task := by
    intro hk
    obtain ⟨u', h1, h2⟩ := derefTask_of_map_key a _ _ u hk h
    refine ⟨u', h1, congrArg (·.2.1) h2, congrArg (·.2.2.1) h2, ?_,
      le_of_eq (pendingUpTo_of_map_key a _ _ hk)⟩
    intro hst
    have : u'.started = u.started := congrArg (·.2.2.2) h2
    rw [this]; exact hst
  rcases step_kinds s s' act hs with ⟨args, env, rfl⟩ | ⟨pc, rfl, hst, rfl⟩
    | ⟨c, o, f, rfl, hc, hex⟩ | ⟨-, -, -, -, -, hq | ⟨x, hq⟩ | hq⟩
  · exact ofKey (by rw [(step_initializer_kind s s' args env hs).1])
  · have hq : (handlerCycle s pc).first_async_task
        = startFirst (min (pendingCount s.first_async_task)
            (idleCount s.first_async_connection)) s.first_async_task :=
      handlerLoop_tasks_of_spawns_ok pc (hpc pc rfl) _ 0 _
    rw [hq]
    obtain ⟨u', h1, h2, h3, -, h5⟩ := derefTask_startFirst a _
      (min (pendingCount s.first_async_task) (idleCount s.first_async_connection)) u h
    exact ⟨u', h1, h2, h3, h5, pendingUpTo_startFirst_le a _ _⟩
  · obtain ⟨conn, p, task, -, -, -, rfl⟩ := execute_query_eq s c o f s' hex
    apply ofKey
    exact updateTask_map_of taskKey p
      (fun t => { t with result := resultAfter o task.save t, done := true })
      (fun _ => rfl) s.first_async_task
  · exact ofKey hq
  · rw [hq]
    exact ⟨u, derefTask_append a _ x u h, rfl, rfl, id,
      le_of_eq (pendingUpTo_append a x _ u h)⟩
  · rw [hq]
    exact ⟨u, derefTask_filter a _ u h hd, rfl, rfl, id,
      le_of_eq (pendingUpTo_filter a _ hinv.forward u h hd)⟩

/-- A handler cycle that finds an idle connection and creates its threads
starts the pending task at `a` or a pending task before it. -/
theorem handler_progress (s : State) (pc : Nat → Int) (hpc : ∀ i, pc i = 0)
    (hidle : 0 < idleCount s.first_async_connection)
    (a : Nat) (u : mysqla_task) (h : derefTask a s.first_async_task = some u)
    (hu : u.started = false) :
    ∃ u', derefTask a (handlerCycle s pc).first_async_task = some u'
      ∧ (u'.started = true
        ∨ pendingUpTo a (handlerCycle s pc).first_async_task
            < pendingUpTo a s.first_async_task) := by
  have hq : (handlerCycle s pc).first_async_task
      = startFirst (min (pendingCount s.first_async_task)
          (idleCount s.first_async_connection)) s.first_async_task :=
    handlerLoop_tasks_of_spawns_ok pc hpc _ 0 _
  rw [hq]
  have hp := pendingCount_pos_of_deref a _ u h hu
  exact startFirst_progress a _ _ u (by omega) h hu

/-- A step other than a handler cycle binds no connection, and the end of a
query leaves a connection idle. -/
theorem step_idle (s s' : State) (act : Action) (hs : step s act = some s')
    (hnh : ∀ pc, act ≠ Action.handler_cycle pc) :
    idleCount s.first_async_connection ≤ idleCount s'.first_async_connection
    ∧ ((∃ c o f, act = Action.execute_query c o f) →
        0 < idleCount s'.first_async_connection) := by
  rcases step_kinds s s' act hs with ⟨args, env, rfl⟩ | ⟨pc, rfl, -, -⟩
    | ⟨c, o, f, rfl, hc, hex⟩ | ⟨-, hne, hp, -, -, -⟩
  · refine ⟨?_, fun ⟨c, o, f, h⟩ => Action.noConfusion h⟩
    by_cases hp : s.first_async_connection = []
    · rw [hp]; exact Nat.zero_le _
    · rw [(step_initializer_kind s s' args env hs).2.2.1 hp]
  · exact absurd rfl (hnh pc)
  · obtain ⟨conn, p, task, hconn, -, -, rfl⟩ := execute_query_eq s c o f s' hex
    obtain ⟨h1, h2⟩ := idleCount_set_unbind s.first_async_connection c conn hconn
    exact ⟨h1, fun _ => h2⟩
  · rw [hp]
    exact ⟨le_refl _, fun ⟨c, o, f, h⟩ => absurd h (hne c o f)⟩

/-- A connection stays bound to its task until the query thread on it ends. -/
theorem step_bound (s s' : State) (act : Action) (hs : step s act = some s')
    (c a : Nat) (hne : ∀ o f, act ≠ Action.execute_query c o f)
    (conn : mysqla_connection) (hconn : s.first_async_connection.get? c = some conn)
    (hb : conn.task = some a) :
    ∃ conn', s'.first_async_connection.get? c = some conn' ∧ conn'.task = some a := by
  have hpool : s.first_async_connection ≠ [] := by
    intro he; rw [he] at hconn; simp at hconn
  rcases step_kinds s s' act hs with ⟨args, env, rfl⟩ | ⟨pc, rfl, -, rfl⟩
    | ⟨c', o, f, rfl, hc, hex⟩ | ⟨-, -, hp, -, -, -⟩
  · rw [(step_initializer_kind s s' args env hs).2.2.1 hpool]
    exact ⟨conn, hconn, hb⟩
  · obtain ⟨-, hC⟩ := handlerLoop_steps pc s.first_async_task 0 s.first_async_connection
    exact ⟨conn, connSteps_keep_bound hC c conn a hconn hb, hb⟩
  · obtain ⟨conn', p, task, -, -, -, rfl⟩ := execute_query_eq s c' o f s' hex
    have hcc : c' ≠ c := fun e => hne o f (by rw [e])
    refine ⟨conn, ?_, hb⟩
    show (s.first_async_connection.set c' _).get? c = some conn
    rw [List.get?_eq_getElem?, List.getElem?_set_ne hcc, ← List.get?_eq_getElem?]
    exact hconn
  · rw [hp]
    exact ⟨conn, hconn, hb⟩

/-- The end of the query on the connection bound to the record at `a` marks
that record done. -/
theorem execute_marks_done (s s' : State) (c : Nat) (o : QueryOutcome) (f : Bool)
    (hs : step s (Action.execute_query c o f) = some s')
    (a : Nat) (conn : mysqla_connection) (hconn : s.first_async_connection.get? c = some conn)
    (hb : conn.task = some a) (u : mysqla_task) (h : derefTask a s.first_async_task = some u) :
    ∃ u', derefTask a s'.first_async_task = some u' ∧ u'.taskId = u.taskId
      ∧ u'.query = u.query ∧ u'.done = true := by
  rcases step_kinds s s' _ hs with ⟨args, env, he⟩ | ⟨pc, he, -, -⟩
    | ⟨c', o', f', he, hc, hex⟩ | ⟨-, hne, -, -, -, -⟩
  · exact Action.noConfusion he
  · exact Action.noConfusion he
  · injection he with e1 e2 e3
    subst e1 e2 e3
    obtain ⟨conn', p, task, hconn', hp, -, rfl⟩ := execute_query_eq s c o f s' hex
    rw [hconn] at hconn'
    injection hconn' with e
    subst e
    rw [hb] at hp
    injection hp with e
    subst e
    exact ⟨_, derefTask_updateTask a
      (fun t => { t with result := resultAfter o task.save t, done := true })
      (fun _ => rfl) _ u h, rfl, rfl, rfl⟩
  · exact absurd rfl (hne c o f)

theorem NoLostWorker_step (s s' : State) (act : Action) (h : NoLostWorker s)
    (hs : step s act = some s')
    (hpc : ∀ pc, act = Action.handler_cycle pc → ∀ i, pc i = 0) : NoLostWorker s' := by
  rcases step_kinds s s' act hs with ⟨args, env, rfl⟩ | ⟨pc, rfl, -, rfl⟩
    | ⟨c, o, f, rfl, hc, hex⟩ | ⟨-, -, hp, hw, -, -⟩
  · obtain ⟨-, -, h3, h4, -⟩ := step_initializer_kind s s' args env hs
    by_cases hp : s.first_async_connection = []
    · exact NoLostWorker_of_idle s' (h4 hp)
    · rw [h3 hp]; exact h
  · exact NoLostWorker_handlerCycle s h pc (hpc pc rfl)
  · obtain ⟨conn, p, task, hconn, -, -, rfl⟩ := execute_query_eq s c o f s' hex
    intro j cj hj hjb
    show j ∈ s.workers.erase c
    change (s.first_async_connection.set c { conn with task := none }).get? j = some cj at hj
    by_cases hjc : j = c
    · subst hjc
      rw [List.get?_eq_getElem?, List.getElem?_set, if_pos rfl] at hj
      split_ifs at hj with hlt
      simp only [Option.some.injEq] at hj
      rw [← hj] at hjb
      simp at hjb
    · rw [List.get?_eq_getElem?, List.getElem?_set_ne (Ne.symm hjc),
        ← List.get?_eq_getElem?] at hj
      exact (List.mem_erase_of_ne hjc).2 (h j cj hj hjb)
  · intro j cj hj hjb
    rw [hw]
    rw [hp] at hj
    exact h j cj hj hjb

/-- The handler loop only runs with a pool in place. -/
theorem started_pool_step (s s' : State) (act : Action)
    (h : s.started = true → s.first_async_connection ≠ [])
    (hs : step s act = some s') :
    s'.started = true → s'.first_async_connection ≠ [] := by
  by_cases hp : s.first_async_connection ≠ []
  · exact fun _ => (callback_step s s' act hp hs).2
  have hns : ¬ s.started = true := fun hst => hp (h hst)
  rcases step_kinds s s' act hs with ⟨args, env, rfl⟩ | ⟨pc, rfl, hst, -⟩
    | ⟨c, o, f, rfl, hc, hex⟩ | ⟨-, -, -, -, hst, -⟩
  · intro hst'
    rcases (step_initializer_kind s s' args env hs).2.2.2.2 hst' with h1 | h1
    · exact absurd h1 hns
    · exact h1
  · exact absurd hst hns
  · obtain ⟨conn, p, task, hconn, -, -, -⟩ := execute_query_eq s c o f s' hex
    have : s.first_async_connection ≠ [] := by
      intro he; rw [he] at hconn; simp at hconn
    exact absurd this hp
  · intro hst'
    rw [hst] at hst'
    exact absurd hst' hns

theorem exec_inv (e : Execution) (hstart : e.state 0 = State.start) (hfair : Fair e) :
    ∀ n, Inv (e.state n) ∧ NoLostWorker (e.state n)
      ∧ ((e.state n).started = true → (e.state n).first_async_connection ≠ []) := by
  intro n
  induction n with
  | zero =>
    rw [hstart]
    exact ⟨Inv_start, NoLostWorker_of_idle _ (fun c hc => by simp [State.start] at hc),
      by decide⟩
  | succ n ih =>
    obtain ⟨h1, h2, h3⟩ := ih
    exact ⟨Inv_step _ _ _ h1 (e.steps n),
      NoLostWorker_step _ _ _ h2 (e.steps n) (hfair.threads_created n),
      started_pool_step _ _ _ h3 (e.steps n)⟩

theorem not_done_of_pending (s : State) (hinv : Inv s) (a : Nat) (u : mysqla_task)
    (h : derefTask a s.first_async_task = some u) (hu : u.started = false) :
    u.done = false := by
  cases hd : u.done with
  | false => rfl
  | true =>
    have := hinv.forward u (derefTask_some a _ u h).1 hd
    rw [hu] at this
    exact absurd this (by simp)

theorem exec_next (e : Execution) (hstart : e.state 0 = State.start) (hfair : Fair e)
    (a : Nat) (id : Int) (qu : CString) (n : Nat) (u : mysqla_task)
    (h : HoldsTask a id qu (e.state n).first_async_task u) (hd : u.done = false) :
    ∃ u', HoldsTask a id qu (e.state (n + 1)).first_async_task u'
      ∧ (u.started = true → u'.started = true)
      ∧ pendingUpTo a (e.state (n + 1)).first_async_task
          ≤ pendingUpTo a (e.state n).first_async_task := by
  obtain ⟨h1, h2, h3⟩ := h
  obtain ⟨u', g1, g2, g3, g4, g5⟩ := step_task _ _ _ (exec_inv e hstart hfair n).1 (e.steps n)
    (hfair.threads_created n) a u h1 hd
  exact ⟨u', ⟨g1, g2.trans h2, g3.trans h3⟩, g4, g5⟩

/-- While the task at `a` is pending, the number of pending tasks up to it
does not grow. -/
theorem exec_later (e : Execution) (hstart : e.state 0 = State.start) (hfair : Fair e)
    (a : Nat) (id : Int) (qu : CString) (n : Nat) (u : mysqla_task)
    (h : HoldsTask a id qu (e.state n).first_async_task u) (hu : u.started = false) :
    ∀ d, (∃ m u', n ≤ m ∧ HoldsTask a id qu (e.state m).first_async_task u'
            ∧ u'.started = true)
      ∨ (∃ u', HoldsTask a id qu (e.state (n + d)).first_async_task u'
            ∧ u'.started = false
            ∧ pendingUpTo a (e.state (n + d)).first_async_task
                ≤ pendingUpTo a (e.state n).first_async_task) := by
  intro d
  induction d with
  | zero => exact Or.inr ⟨u, h, hu, le_refl _⟩
  | succ d ih =>
    rcases ih with hl | ⟨u', h', hu', hle⟩
    · exact Or.inl hl
    · have hd' := not_done_of_pending _ (exec_inv e hstart hfair (n + d)).1 a u' h'.1 hu'
      obtain ⟨u'', g1, -, g3⟩ := exec_next e hstart hfair a id qu (n + d) u' h' hd'
      by_cases hs : u''.started = true
      · exact Or.inl ⟨n + d + 1, u'', by omega, g1, hs⟩
      · exact Or.inr ⟨u'', g1, by simpa using hs, le_trans g3 hle⟩

/-- When every query terminates, some connection is idle again and again. -/
theorem exec_idle (e : Execution) (hstart : e.state 0 = State.start) (hfair : Fair e)
    (hall : AllQueriesEnd e) : IdleRecurs e := by
  intro n
  obtain ⟨h, hnh, pc, hact⟩ := hfair.handler_runs n
  have hstep := e.steps h
  rw [hact] at hstep
  have hst : (e.state h).started = true := by
    by_contra hst
    simp [step, hst] at hstep
  obtain ⟨-, hlive, hpool⟩ := exec_inv e hstart hfair h
  have hne := hpool hst
  by_cases hidle : 0 < idleCount (e.state h).first_async_connection
  · exact ⟨h, hnh, hidle⟩
  · cases hp : (e.state h).first_async_connection with
    | nil => exact absurd hp hne
    | cons c0 rest =>
      rw [hp, idleCount_cons] at hidle
      have hb : c0.task.isSome = true := by
        cases ht : c0.task with
        | none => rw [ht] at hidle; simp at hidle
        | some p => rfl
      have hw : 0 ∈ (e.state h).workers := hlive 0 c0 (by rw [hp]; rfl) hb
      obtain ⟨m, hm, o, f, hx⟩ := hall h 0 hw
      have := (step_idle _ _ _ (e.steps m)
        (fun pc' hh => by rw [hx] at hh; exact Action.noConfusion hh)).2 ⟨0, o, f, hx⟩
      exact ⟨m + 1, by omega, this⟩

/-- With a connection idle, the pending task at `a` is started, or a pending
task before it is, by the next handler cycle. -/
theorem exec_progress (e : Execution) (hstart : e.state 0 = State.start) (hfair : Fair e)
    (a : Nat) (id : Int) (qu : CString) :
    ∀ (d n : Nat) (u : mysqla_task), (∃ pc, e.action (n + d) = Action.handler_cycle pc) →
      0 < idleCount (e.state n).first_async_connection →
      HoldsTask a id qu (e.state n).first_async_task u → u.started = false →
      ∃ m u', n ≤ m ∧ HoldsTask a id qu (e.state m).first_async_task u'
        ∧ (u'.started = true
          ∨ pendingUpTo a (e.state m).first_async_task
              < pendingUpTo a (e.state n).first_async_task) := by
  intro d
  induction d with
  | zero =>
    intro n u ⟨pc, hact⟩ hidle h hu
    rw [Nat.add_zero] at hact
    have hd := not_done_of_pending _ (exec_inv e hstart hfair n).1 a u h.1 hu
    obtain ⟨u', g1, -, -⟩ := exec_next e hstart hfair a id qu n u h hd
    have hstep := e.steps n
    rw [hact] at hstep
    rcases step_kinds _ _ _ hstep with ⟨_, _, he⟩ | ⟨pc', he, -, hs'⟩
      | ⟨_, _, _, he, -, -⟩ | ⟨hne, -⟩
    · exact Action.noConfusion he
    · injection he with he
      subst he
      obtain ⟨u'', k1, k2⟩ := handler_progress (e.state n) pc
        (hfair.threads_created n pc hact) hidle a u h.1 hu
      rw [← hs'] at k1 k2
      have : u'' = u' := Option.some.inj (k1.symm.trans g1.1)
      subst this
      exact ⟨n + 1, u'', by omega, g1, k2⟩
    · exact Action.noConfusion he
    · exact absurd rfl (hne pc)
  | succ d ih =>
    intro n u hact hidle h hu
    by_cases hh : ∃ pc, e.action n = Action.handler_cycle pc
    · obtain ⟨pc, hact'⟩ := hh
      have hd := not_done_of_pending _ (exec_inv e hstart hfair n).1 a u h.1 hu
      obtain ⟨u', g1, -, -⟩ := exec_next e hstart hfair a id qu n u h hd
      have hstep := e.steps n
      rw [hact'] at hstep
      rcases step_kinds _ _ _ hstep with ⟨_, _, he⟩ | ⟨pc', he, -, hs'⟩
        | ⟨_, _, _, he, -, -⟩ | ⟨hne, -⟩
      · exact Action.noConfusion he
      · injection he with he
        subst he
        obtain ⟨u'', k1, k2⟩ := handler_progress (e.state n) pc
          (hfair.threads_created n pc hact') hidle a u h.1 hu
        rw [← hs'] at k1 k2
        have : u'' = u' := Option.some.inj (k1.symm.trans g1.1)
        subst this
        exact ⟨n + 1, u'', by omega, g1, k2⟩
      · exact Action.noConfusion he
      · exact absurd rfl (hne pc)
    · have hd := not_done_of_pending _ (exec_inv e hstart hfair n).1 a u h.1 hu
      obtain ⟨u', g1, -, g3⟩ := exec_next e hstart hfair a id qu n u h hd
      have hidle' : 0 < idleCount (e.state (n + 1)).first_async_connection :=
        lt_of_lt_of_le hidle
          (step_idle _ _ _ (e.steps n) (fun pc hp => hh ⟨pc, hp⟩)).1
      by_cases hs : u'.started = true
      · exact ⟨n + 1, u', by omega, g1, Or.inl hs⟩
      · have hact' : ∃ pc, e.action (n + 1 + d) = Action.handler_cycle pc := by
          rw [show n + 1 + d = n + (d + 1) by omega]; exact hact
        obtain ⟨m, u'', hm, k1, k2⟩ := ih (n + 1) u' hact' hidle' g1 (by simpa using hs)
        refine ⟨m, u'', by omega, k1, ?_⟩
        rcases k2 with k2 | k2
        · exact Or.inl k2
        · exact Or.inr (lt_of_lt_of_le k2 g3)

/-- A pending task is started in the end: each handler cycle with an idle
connection starts it or a task before it, and no task is put before it. -/
theorem exec_started (e : Execution) (hstart : e.state 0 = State.start) (hfair : Fair e)
    (hidle : IdleRecurs e) (a : Nat) (id : Int) (qu : CString) :
    ∀ (p n : Nat) (u : mysqla_task), HoldsTask a id qu (e.state n).first_async_task u →
      u.started = false → pendingUpTo a (e.state n).first_async_task ≤ p →
      ∃ m u', n ≤ m ∧ HoldsTask a id qu (e.state m).first_async_task u'
        ∧ u'.started = true := by
  intro p
  induction p with
  | zero =>
    intro n u h hu hp
    have := pendingUpTo_pos a _ u h.1 hu
    omega
  | succ p ih =>
    intro n u h hu hp
    obtain ⟨m1, hm1, hidle1⟩ := hidle n
    obtain ⟨d, rfl⟩ : ∃ d, m1 = n + d := ⟨m1 - n, by omega⟩
    rcases exec_later e hstart hfair a id qu n u h hu d with hl | ⟨u1, h1, hu1, hle⟩
    · exact hl
    · obtain ⟨h2, hh2, pc, hact⟩ := hfair.handler_runs (n + d)
      obtain ⟨d2, rfl⟩ : ∃ d2, h2 = n + d + d2 := ⟨h2 - (n + d), by omega⟩
      obtain ⟨m, u', hm, k1, k2⟩ :=
        exec_progress e hstart hfair a id qu d2 (n + d) u1 ⟨pc, hact⟩ hidle1 h1 hu1
      rcases k2 with k2 | k2
      · exact ⟨m, u', by omega, k1, k2⟩
      · by_cases hs : u'.started = true
        · exact ⟨m, u', by omega, k1, hs⟩
        · obtain ⟨m', u'', hm', j1, j2⟩ := ih m u' k1 (by simpa using hs) (by omega)
          exact ⟨m', u'', by omega, j1, j2⟩

/-- A task bound to a connection is done once the query thread on it ends. -/
theorem exec_running_done (e : Execution) (hstart : e.state 0 = State.start) (hfair : Fair e)
    (a : Nat) (id : Int) (qu : CString) (c : Nat) :
    ∀ (d n : Nat) (u : mysqla_task) (conn : mysqla_connection),
      (∃ o f, e.action (n + d) = Action.execute_query c o f) →
      (e.state n).first_async_connection.get? c = some conn → conn.task = some a →
      HoldsTask a id qu (e.state n).first_async_task u →
      ∃ m u', n ≤ m ∧ HoldsTask a id qu (e.state m).first_async_task u'
        ∧ u'.done = true := by
  intro d
  induction d with
  | zero =>
    intro n u conn ⟨o, f, hact⟩ hconn hb h
    rw [Nat.add_zero] at hact
    have hstep := e.steps n
    rw [hact] at hstep
    obtain ⟨u', g1, g2, g3, g4⟩ := execute_marks_done _ _ c o f hstep a conn hconn hb u h.1
    exact ⟨n + 1, u', by omega, ⟨g1, g2.trans h.2.1, g3.trans h.2.2⟩, g4⟩
  | succ d ih =>
    intro n u conn hact hconn hb h
    by_cases hx : ∃ o f, e.action n = Action.execute_query c o f
    · obtain ⟨o, f, hact'⟩ := hx
      have hstep := e.steps n
      rw [hact'] at hstep
      obtain ⟨u', g1, g2, g3, g4⟩ := execute_marks_done _ _ c o f hstep a conn hconn hb u h.1
      exact ⟨n + 1, u', by omega, ⟨g1, g2.trans h.2.1, g3.trans h.2.2⟩, g4⟩
    · by_cases hd : u.done = true
      · exact ⟨n, u, le_refl _, h, hd⟩
      · obtain ⟨u', g1, -, -⟩ := exec_next e hstart hfair a id qu n u h (by simpa using hd)
        obtain ⟨conn', hconn', hb'⟩ := step_bound _ _ _ (e.steps n) c a
          (fun o f hh => hx ⟨o, f, hh⟩) conn hconn hb
        have hact' : ∃ o f, e.action (n + 1 + d) = Action.execute_query c o f := by
          rw [show n + 1 + d = n + (d + 1) by omega]; exact hact
        obtain ⟨m, u'', hm, k1, k2⟩ := ih (n + 1) u' conn' hact' hconn' hb' g1
        exact ⟨m, u'', by omega, k1, k2⟩

theorem exec_done_of_started (e : Execution) (hstart : e.state 0 = State.start)
    (hfair : Fair e) (a : Nat) (hquery : QueryEnds e a) (id : Int) (qu : CString) (n : Nat)
    (u : mysqla_task)
    (h : HoldsTask a id qu (e.state n).first_async_task u) (hs : u.started = true) :
    ∃ m u', n ≤ m ∧ HoldsTask a id qu (e.state m).first_async_task u' ∧ u'.done = true := by
  by_cases hd : u.done = true
  · exact ⟨n, u, le_refl _, h, hd⟩
  obtain ⟨hinv, hlive, -⟩ := exec_inv e hstart hfair n
  obtain ⟨hu, hua⟩ := derefTask_some a _ u h.1
  have hrun : a ∈ runningAddrs (e.state n).first_async_task := by
    simp only [runningAddrs, List.mem_map, List.mem_filter, isRunning, Bool.and_eq_true,
      Bool.not_eq_true']
    exact ⟨u, ⟨hu, hs, by simpa using hd⟩, hua⟩
  have hbound : a ∈ boundAddrs (e.state n).first_async_connection :=
    hinv.matching.symm.subset hrun
  simp only [boundAddrs, List.mem_filterMap] at hbound
  obtain ⟨conn, hmem, hb⟩ := hbound
  obtain ⟨c, hc⟩ := List.get?_of_mem hmem
  have hw : c ∈ (e.state n).workers := hlive c conn hc (by rw [hb]; rfl)
  obtain ⟨m, hm, o, f, hx⟩ := hquery n c conn hc hb hw
  obtain ⟨d, rfl⟩ : ∃ d, m = n + d := ⟨m - n, by omega⟩
  exact exec_running_done e hstart hfair a id qu c d n u conn ⟨o, f, hx⟩ hc hb h

theorem exec_done (e : Execution) (hstart : e.state 0 = State.start)
    (hfair : Fair e) (hidle : IdleRecurs e) (a : Nat) (hquery : QueryEnds e a) (id : Int)
    (qu : CString) (n : Nat) (u : mysqla_task)
    (h : HoldsTask a id qu (e.state n).first_async_task u) :
    ∃ m u', n ≤ m ∧ HoldsTask a id qu (e.state m).first_async_task u' ∧ u'.done = true := by
  by_cases hs : u.started = true
  · exact exec_done_of_started e hstart hfair a hquery id qu n u h hs
  · obtain ⟨m, u', hm, k1, k2⟩ := exec_started e hstart hfair hidle a id qu _ n u h
      (by simpa using hs) (le_refl _)
    obtain ⟨m', u'', hm', j1, j2⟩ :=
      exec_done_of_started e hstart hfair a hquery id qu m u' k1 k2
    exact ⟨m', u'', by omega, j1, j2⟩

/-- C20, as the code has it: in every execution from process start in which
the handler thread keeps cycling and every query thread it asks for is
created, a task that is in the queue at some time is done at that time or a
later one, provided at least one connection is or becomes idle and the task's
query terminates, whatever other steps (further queries, ends of other
queries, collector passes, disconnects, further calls of the initializer)
happen in between. The handler serves the queue oldest first and new tasks are
linked at the tail, so a task waits for no task enqueued after it. -/
theorem tasks_eventually_done (e : Execution) (hstart : e.state 0 = State.start)
    (hfair : Fair e) (k : Nat) (t : mysqla_task)
    (ht : t ∈ (e.state k).first_async_task)
    (hidle : IdleRecurs e) (hquery : QueryEnds e t.addr) :
    ∃ n, k ≤ n ∧ ∃ u ∈ (e.state n).first_async_task,
      u.addr = t.addr ∧ u.taskId = t.taskId ∧ u.query = t.query ∧ u.done = true := by
  obtain ⟨task, htask⟩ := derefTask_of_mem t.addr _ t ht rfl
  obtain ⟨hmem, haddr⟩ := derefTask_some _ _ _ htask
  have hnd := (exec_inv e hstart hfair k).1.addrs_nodup
  have heq : task = t := List.inj_on_of_nodup_map hnd hmem ht haddr
  subst heq
  obtain ⟨m, u', hm, ⟨k1, k2, k3⟩, hd⟩ :=
    exec_done e hstart hfair hidle task.addr hquery task.taskId task.query k task
      ⟨htask, rfl, rfl⟩
  obtain ⟨hu, hua⟩ := derefTask_some _ _ _ k1
  exact ⟨m, hm, u', hu, hua, k2, k3, hd⟩

theorem liveState_late (k : Nat) : liveState (k + 4) = liveState 4 := by
  unfold liveState
  rw [show min (k + 4) 4 = 4 by omega]
  rfl

theorem liveExecution_fair : Fair liveExecution := by
  constructor
  · intro n
    exact ⟨n + 4, by omega, fun _ => 0, rfl⟩
  · intro n pc h i
    match n, h with
    | 0, h => exact Action.noConfusion h
    | 1, h => exact Action.noConfusion h
    | 2, h =>
      have h' : Action.handler_cycle (fun _ => 0) = Action.handler_cycle pc := h
      injection h' with h'
      rw [← h']
    | 3, h => exact Action.noConfusion h
    | k + 4, h =>
      have h' : Action.handler_cycle (fun _ => 0) = Action.handler_cycle pc := h
      injection h' with h'
      rw [← h']

theorem liveExecution_queries_end : AllQueriesEnd liveExecution := by
  intro n c hc
  match n, hc with
  | 0, hc =>
    have h0 : (liveState 0).workers = [] := by decide
    have hc' : c ∈ (liveState 0).workers := hc
    rw [h0] at hc'
    simp at hc'
  | 1, hc =>
    have h0 : (liveState 1).workers = [] := by decide
    have hc' : c ∈ (liveState 1).workers := hc
    rw [h0] at hc'
    simp at hc'
  | 2, hc =>
    have h0 : (liveState 2).workers = [] := by decide
    have hc' : c ∈ (liveState 2).workers := hc
    rw [h0] at hc'
    simp at hc'
  | 3, hc =>
    have h3 : (liveState 3).workers = [0] := by decide
    have hc' : c ∈ (liveState 3).workers := hc
    rw [h3, List.mem_singleton] at hc'
    subst hc'
    exact ⟨3, le_refl _, QueryOutcome.succeeded none, true, rfl⟩
  | k + 4, hc =>
    have hc' : c ∈ (liveState (k + 4)).workers := hc
    rw [liveState_late] at hc'
    have h4 : (liveState 4).workers = [] := by decide
    rw [h4] at hc'
    simp at hc'

theorem tasks_eventually_done_witness :
    (liveExecution.state 0 = State.start ∧ Fair liveExecution
      ∧ liveTask ∈ (liveExecution.state 2).first_async_task
      ∧ IdleRecurs liveExecution ∧ QueryEnds liveExecution liveTask.addr)
    ∧ ∃ n, 2 ≤ n ∧ ∃ u ∈ (liveExecution.state n).first_async_task,
        u.addr = liveTask.addr ∧ u.taskId = liveTask.taskId ∧ u.query = liveTask.query
          ∧ u.done = true :=
  ⟨⟨rfl, liveExecution_fair, by decide,
      exec_idle liveExecution rfl liveExecution_fair liveExecution_queries_end,
      fun n c _ _ _ hw => liveExecution_queries_end n c hw⟩,
    tasks_eventually_done liveExecution rfl liveExecution_fair 2 liveTask (by decide)
      (exec_idle liveExecution rfl liveExecution_fair liveExecution_queries_end)
      (fun n c _ _ _ hw => liveExecution_queries_end n c hw)⟩

end OSJH
